import Mathlib

set_option maxHeartbeats 1000000

/-! Shallow embedding of the fasteval3 expression engine (parser, compiler,
evaluator) and verification of its specification claims.

Numbers: the source computes on IEEE-754 f32.  This embedding models an f32
value as either NaN or an exact rational; IEEE infinities are not modelled
(an operation whose IEEE result would be an infinity yields nan here), and
finite arithmetic is exact rather than rounded.  Transcendental functions and
the stdlib float-literal parser are foreign (stdlib) code and are taken as
parameters of the embedding (a `Foreign` record), so every theorem below is
proved for all of their possible behaviours. -/

/-- An exact rational, represented as an unnormalized fraction `n / d` with a
positive denominator (every constructor below keeps `d` positive).  A custom
representation is used instead of mathlib's `Rat` so that every operation is
kernel-computable (core `Rat` normalizes through `Nat.gcd`, which does not
reduce in the kernel); comparisons are by cross-multiplication, so they
depend only on the rational value, not the representative. -/
structure Q where
  n : Int
  d : Int
deriving DecidableEq, Repr

instance (k : Nat) : OfNat Q k := ⟨⟨Int.ofNat k, 1⟩⟩

def qadd (x y : Q) : Q := ⟨x.n * y.d + y.n * x.d, x.d * y.d⟩
def qsub (x y : Q) : Q := ⟨x.n * y.d - y.n * x.d, x.d * y.d⟩
def qmul (x y : Q) : Q := ⟨x.n * y.n, x.d * y.d⟩
def qneg (x : Q) : Q := ⟨-x.n, x.d⟩

/-- Division (caller guarantees `y` nonzero); keeps the denominator
positive. -/
def qdiv (x y : Q) : Q :=
  if y.n < 0 then ⟨-(x.n * y.d), x.d * (-y.n)⟩ else ⟨x.n * y.d, x.d * y.n⟩

/-- Semantic zero test (`d` is positive). -/
def qzero (x : Q) : Bool := x.n = 0

def qlt (x y : Q) : Bool := decide (x.n * y.d < y.n * x.d)
def qle (x y : Q) : Bool := decide (x.n * y.d ≤ y.n * x.d)
def qabs (x : Q) : Q := ⟨|x.n|, x.d⟩

/-- Truncation toward zero on rationals (Rust `f32::trunc`). -/
def qtrunc (x : Q) : Q := ⟨Int.tdiv x.n x.d, 1⟩

def qceil (x : Q) : Q := ⟨-Int.fdiv (-x.n) x.d, 1⟩
def qfloor (x : Q) : Q := ⟨Int.fdiv x.n x.d, 1⟩

/-- Rust `f32::round`: nearest integer, ties away from zero
(`floor (x + 1/2)` for nonnegative x, `ceil (x - 1/2)` otherwise). -/
def qround (x : Q) : Q :=
  if qle 0 x then ⟨Int.fdiv (2 * x.n + x.d) (2 * x.d), 1⟩
  else ⟨-Int.fdiv (-(2 * x.n - x.d)) (2 * x.d), 1⟩

def qmin (x y : Q) : Q := if qle x y then x else y
def qmax (x y : Q) : Q := if qle x y then y else x

/-- Model of an f32 value: NaN or a finite value (exact rational). -/
inductive F where
  | nan : F
  | num : Q → F
deriving DecidableEq, Repr

/-- 8 * f32::EPSILON (= 8 * 2^-23 = 1/1048576), the absolute tolerance used
by the `f32_eq!` macro. -/
def eps8 : Q := ⟨1, 1048576⟩

def F.isNan : F → Bool
  | .nan => true
  | .num _ => false

/-- Lift a unary rational operation; NaN propagates (IEEE). -/
def F.un (f : Q → Q) : F → F
  | .nan => .nan
  | .num a => .num (f a)

/-- Lift a binary rational operation; NaN propagates (IEEE). -/
def F.bin (f : Q → Q → Q) : F → F → F
  | .num a, .num b => .num (f a b)
  | _, _ => .nan

def fadd : F → F → F := F.bin qadd
def fsub : F → F → F := F.bin qsub
def fmul : F → F → F := F.bin qmul
def fneg : F → F := F.un qneg

/-- Division.  IEEE x/0 is an infinity (x ≠ 0) or NaN (x = 0); this model has
no infinities, so any division by zero yields nan. -/
def fdiv : F → F → F
  | .num a, .num b => if qzero b then .nan else .num (qdiv a b)
  | _, _ => .nan

/-- Rust `%` on floats: remainder with the sign of the dividend
(`a - (a/b).trunc() * b`); `x % 0.0` is NaN per IEEE. -/
def fmod : F → F → F
  | .num a, .num b =>
    if qzero b then .nan else .num (qsub a (qmul (qtrunc (qdiv a b)) b))
  | _, _ => .nan

/-- IEEE `<`: false whenever an operand is NaN. -/
def flt : F → F → Bool
  | .num a, .num b => qlt a b
  | _, _ => false

/-- IEEE `<=`: false whenever an operand is NaN. -/
def fle : F → F → Bool
  | .num a, .num b => qle a b
  | _, _ => false

/-- IEEE `>`. -/
def fgt : F → F → Bool
  | .num a, .num b => qlt b a
  | _, _ => false

/-- IEEE `>=`. -/
def fge : F → F → Bool
  | .num a, .num b => qle b a
  | _, _ => false

/-- The `f32_eq!(l, r)` macro: `(l - r).abs() <= 8.0 * f32::EPSILON`.
With a NaN operand the IEEE comparison is false. -/
def f32_eq (l r : F) : Bool :=
  match l, r with
  | .num a, .num b => qle (qabs (qsub a b)) eps8
  | _, _ => false

/-- The `f32_ne!(l, r)` macro: `(l - r).abs() > 8.0 * f32::EPSILON`.
With a NaN operand the IEEE comparison is false (note: on NaN this is NOT
the negation of `f32_eq`, exactly as in the source). -/
def f32_ne (l r : F) : Bool :=
  match l, r with
  | .num a, .num b => qlt eps8 (qabs (qsub a b))
  | _, _ => false

/-- The `bool_to_f32!` macro. -/
def bool_to_f32 (b : Bool) : F := if b then .num 1 else .num 0

/-- Rust `f32::abs`. -/
def fabs : F → F := F.un qabs

/-- Rust `f32::signum`: 1 for non-negative, -1 for negative, NaN for NaN
(rationals have no negative zero). -/
def fsignum : F → F := F.un (fun a => if qlt a 0 then ⟨-1, 1⟩ else 1)

def ftrunc : F → F := F.un qtrunc
def fceil : F → F := F.un qceil
def ffloor : F → F := F.un qfloor
def fround : F → F := F.un qround

/-- Rust `f32::min`: if one argument is NaN, the other is returned. -/
def rust_min : F → F → F
  | .nan, y => y
  | x, .nan => x
  | .num a, .num b => .num (qmin a b)

/-- Rust `f32::max`: if one argument is NaN, the other is returned. -/
def rust_max : F → F → F
  | .nan, y => y
  | x, .nan => x
  | .num a, .num b => .num (qmax a b)

/-- Foreign (stdlib) operations the engine calls but does not implement:
transcendental f32 functions, the f32 constants `E`/`PI`, and
`str::parse::<f32>`.  All embedded definitions take a `Foreign` record, so
theorems hold for every possible behaviour of these functions. -/
structure Foreign where
  powf : F → F → F
  sin : F → F
  cos : F → F
  tan : F → F
  asin : F → F
  acos : F → F
  atan : F → F
  sinh : F → F
  cosh : F → F
  tanh : F → F
  asinh : F → F
  acosh : F → F
  atanh : F → F
  log2 : F → F
  log10 : F → F
  logb : F → F → F
  const_e : F
  const_pi : F
  parse_f32 : String → Option F

/-- compiler.rs `log(base, n)`: dispatch to log2/log10/log-with-base using
the `f32_eq` tolerance test. -/
def logf (fx : Foreign) (base n : F) : F :=
  if f32_eq base (.num 2) then fx.log2 n
  else if f32_eq base (.num 10) then fx.log10 n
  else fx.logb n base

/-- The crate's error type.  `error.rs` is not part of the provided sources;
modelled from the spec's error taxonomy (spec section 6) together with every
constructor used by parser.rs / evaler.rs / compiler.rs. -/
inductive Error where
  | EOF
  | EofWhileParsing (ctx : String)
  | Expected (tok : String)
  | Utf8ErrorWhileParsing (ctx : String)
  | InvalidValue
  | ParseF32 (text : String)
  | UnparsedTokensRemaining (rest : String)
  | TooLong
  | TooDeep
  | SlabOverflow
  | WrongArgs (msg : String)
  | Undefined (name : String)
  | AlreadyExists
  | Unreachable
deriving DecidableEq, Repr

/-- An index into `Slab.ps.exprs` (`ExpressionI(pub usize)`). -/
abbrev ExpressionI := Nat
/-- An index into `Slab.ps.vals` (`ValueI(pub usize)`). -/
abbrev ValueI := Nat
/-- An index into `Slab.cs.instrs` (`InstructionI(pub usize)`). -/
abbrev InstructionI := Nat

/-- Binary operators, ordered by precedence via `prec` (parser.rs). -/
inductive BinaryOp where
  | EOR | EAND | ENE | EEQ | EGTE | ELTE | EGT | ELT
  | EAdd | ESub | EMul | EDiv | EMod | EExp
deriving DecidableEq, Repr

/-- The discriminant values from parser.rs (low priority to high). -/
def BinaryOp.prec : BinaryOp → Nat
  | .EOR => 1
  | .EAND => 2
  | .ENE => 3
  | .EEQ => 4
  | .EGTE => 5
  | .ELTE => 6
  | .EGT => 7
  | .ELT => 8
  | .EAdd => 9
  | .ESub => 10
  | .EMul => 11
  | .EDiv => 12
  | .EMod => 13
  | .EExp => 14

/-- Unary operators. -/
inductive UnaryOp where
  | EPos (v : ValueI)
  | ENeg (v : ValueI)
  | ENot (v : ValueI)
  | EParentheses (x : ExpressionI)
deriving DecidableEq, Repr

/-- Standard functions (parser.rs `StdFunc`).  The `unsafe-vars` feature is
not enabled in this embedding, so `EUnsafeVar` is omitted. -/
inductive StdFunc where
  | EVar (name : String)
  | EFunc (name : String) (args : List ExpressionI)
  | EFuncInt (x : ExpressionI)
  | EFuncCeil (x : ExpressionI)
  | EFuncFloor (x : ExpressionI)
  | EFuncAbs (x : ExpressionI)
  | EFuncSign (x : ExpressionI)
  | EFuncLog (base : Option ExpressionI) (expr : ExpressionI)
  | EFuncRound (modulus : Option ExpressionI) (expr : ExpressionI)
  | EFuncMin (first : ExpressionI) (rest : List ExpressionI)
  | EFuncMax (first : ExpressionI) (rest : List ExpressionI)
  | EFuncE
  | EFuncPi
  | EFuncSin (x : ExpressionI)
  | EFuncCos (x : ExpressionI)
  | EFuncTan (x : ExpressionI)
  | EFuncASin (x : ExpressionI)
  | EFuncACos (x : ExpressionI)
  | EFuncATan (x : ExpressionI)
  | EFuncSinH (x : ExpressionI)
  | EFuncCosH (x : ExpressionI)
  | EFuncTanH (x : ExpressionI)
  | EFuncASinH (x : ExpressionI)
  | EFuncACosH (x : ExpressionI)
  | EFuncATanH (x : ExpressionI)
deriving DecidableEq, Repr

/-- An argument of `print()`: an expression or a literal string. -/
inductive ExpressionOrString where
  | EExpr (x : ExpressionI)
  | EStr (s : String)
deriving DecidableEq, Repr

/-- A `print(...)` call. -/
structure PrintFunc where
  args : List ExpressionOrString
deriving DecidableEq, Repr

/-- A `Value`: constant, unary op, standard function, or print call. -/
inductive Value where
  | EConstant (c : F)
  | EUnaryOp (u : UnaryOp)
  | EStdFunc (f : StdFunc)
  | EPrintFunc (pf : PrintFunc)
deriving DecidableEq, Repr

/-- `Default for Value` (parser.rs): `EConstant(NAN)`. -/
instance : Inhabited Value := ⟨.EConstant .nan⟩

/-- One `(BinaryOp, Value)` pair of an expression. -/
structure ExprPair where
  op : BinaryOp
  val : Value
deriving DecidableEq, Repr

/-- The top node of a parsed AST: `first (op value)*`. -/
structure Expression where
  first : Value
  pairs : List ExprPair
deriving DecidableEq, Repr

/-- `#[derive(Default)] for Expression`. -/
instance : Inhabited Expression := ⟨⟨default, []⟩⟩

/-- The parse region of the slab.  `slab.rs` is not part of the provided
sources; modelled from the spec (section 4.1): push appends and yields the
index, overflowing a region's capacity fails with `SlabOverflow`; reads of an
invalid handle yield the default node.  The scratch `char_buf` is not
modelled (it is only a reusable buffer for literal text and cache keys). -/
structure ParseSlab where
  exprs : List Expression
  vals : List Value
deriving DecidableEq, Repr

def ParseSlab.empty : ParseSlab := ⟨[], []⟩

/-- Default capacity of the expression region (spec section 4.1). -/
def EXPR_CAP : Nat := 64
/-- Default capacity of the value region (spec section 4.1). -/
def VAL_CAP : Nat := 32

def get_expr (ps : ParseSlab) (i : ExpressionI) : Expression := ps.exprs.getD i default
def get_val (ps : ParseSlab) (i : ValueI) : Value := ps.vals.getD i default

def push_expr (ps : ParseSlab) (e : Expression) : Except Error (ExpressionI × ParseSlab) :=
  if ps.exprs.length ≥ EXPR_CAP then .error .SlabOverflow
  else .ok (ps.exprs.length, ⟨ps.exprs ++ [e], ps.vals⟩)

def push_val (ps : ParseSlab) (v : Value) : Except Error (ValueI × ParseSlab) :=
  if ps.vals.length ≥ VAL_CAP then .error .SlabOverflow
  else .ok (ps.vals.length, ⟨ps.exprs, ps.vals ++ [v]⟩)

/-- "Instruction or Constant": the packed right-hand operand type. -/
inductive IC where
  | I (i : InstructionI)
  | C (c : F)
deriving DecidableEq, Repr

/-- A compiled instruction (compiler.rs).  The `unsafe-vars` feature is not
enabled, so `IUnsafeVar` is omitted. -/
inductive Instruction where
  | IConst (c : F)
  | INeg (i : InstructionI)
  | INot (i : InstructionI)
  | IInv (i : InstructionI)
  | IAdd (li : InstructionI) (ric : IC)
  | IMul (li : InstructionI) (ric : IC)
  | IMod (dividend : IC) (divisor : IC)
  | IExp (base : IC) (power : IC)
  | ILT (l : IC) (r : IC)
  | ILTE (l : IC) (r : IC)
  | IEQ (l : IC) (r : IC)
  | INE (l : IC) (r : IC)
  | IGTE (l : IC) (r : IC)
  | IGT (l : IC) (r : IC)
  | IOR (li : InstructionI) (ric : IC)
  | IAND (li : InstructionI) (ric : IC)
  | IVar (name : String)
  | IFunc (name : String) (args : List IC)
  | IFuncInt (i : InstructionI)
  | IFuncCeil (i : InstructionI)
  | IFuncFloor (i : InstructionI)
  | IFuncAbs (i : InstructionI)
  | IFuncSign (i : InstructionI)
  | IFuncLog (base : IC) (of : IC)
  | IFuncRound (modulus : IC) (of : IC)
  | IFuncMin (li : InstructionI) (ric : IC)
  | IFuncMax (li : InstructionI) (ric : IC)
  | IFuncSin (i : InstructionI)
  | IFuncCos (i : InstructionI)
  | IFuncTan (i : InstructionI)
  | IFuncASin (i : InstructionI)
  | IFuncACos (i : InstructionI)
  | IFuncATan (i : InstructionI)
  | IFuncSinH (i : InstructionI)
  | IFuncCosH (i : InstructionI)
  | IFuncTanH (i : InstructionI)
  | IFuncASinH (i : InstructionI)
  | IFuncACosH (i : InstructionI)
  | IFuncATanH (i : InstructionI)
  | IPrintFunc (pf : PrintFunc)
deriving DecidableEq, Repr

/-- `Default for Instruction`: `IConst(NAN)` (compiler.rs). -/
instance : Inhabited Instruction := ⟨.IConst .nan⟩

/-- The compile region of the slab: a list of instructions.  `push_instr`
appends (an ordinary `Vec` push, which cannot report overflow through the
`InstructionI` return type used by compiler.rs). -/
abbrev CompileSlab := List Instruction

def push_instr (cs : CompileSlab) (instr : Instruction) : CompileSlab × InstructionI :=
  (cs ++ [instr], cs.length)

/-- `take_instr` (spec section 4.1): logically removes the instruction so its
inner nodes can be reused; the slot is left in place holding the default
node, and pushes never reuse taken slots (they always append). -/
def take_instr (cs : CompileSlab) (i : InstructionI) : Instruction × CompileSlab :=
  (cs.getD i default, cs.set i default)

def get_instr (cs : CompileSlab) (i : InstructionI) : Instruction := cs.getD i default

/-- The `instr_to_ic!` macro: pack a constant inline, push anything else. -/
def instr_to_ic (cs : CompileSlab) (instr : Instruction) : CompileSlab × IC :=
  match instr with
  | .IConst c => (cs, .C c)
  | _ => let (cs', i) := push_instr cs instr; (cs', .I i)

instance {ε α : Type} [DecidableEq ε] [DecidableEq α] : DecidableEq (Except ε α)
  | .error x, .error y =>
    match decEq x y with
    | isTrue h => isTrue (h ▸ rfl)
    | isFalse h => isFalse (fun hh => h (Except.error.inj hh))
  | .error _, .ok _ => isFalse (fun hh => Except.noConfusion hh)
  | .ok _, .error _ => isFalse (fun hh => Except.noConfusion hh)
  | .ok x, .ok y =>
    match decEq x y with
    | isTrue h => isTrue (h ▸ rfl)
    | isFalse h => isFalse (fun hh => h (Except.ok.inj hh))

/-- A namespace: mutable state `σ` plus
`lookup(name, args) -> Option<f32>` which may update the state.  The `keybuf`
scratch argument of the Rust trait is not modelled (it carries no semantics,
only buffer reuse). -/
def Ns (σ : Type) : Type := σ → String → List F → Option F × σ

/-! ## Compiler (compiler.rs) -/

/-- A borrowed sub-sequence of an expression (compiler.rs `ExprSlice`). -/
structure ExprSlice where
  first : Value
  pairs : List ExprPair
deriving DecidableEq, Repr

def ExprSlice.from_expr (e : Expression) : ExprSlice := ⟨e.first, e.pairs⟩

/-- Helper for `split`: walks the pairs carrying the slice under
construction. -/
def split_go (bop : BinaryOp) : List ExprPair → ExprSlice → List ExprSlice
  | [], cur => [cur]
  | p :: rest, cur =>
    if p.op = bop then cur :: split_go bop rest ⟨p.val, []⟩
    else split_go bop rest ⟨cur.first, cur.pairs ++ [p]⟩

/-- `ExprSlice::split`: cut the sequence at every occurrence of `bop`. -/
def ExprSlice.split (s : ExprSlice) (bop : BinaryOp) : List ExprSlice :=
  split_go bop s.pairs ⟨s.first, []⟩

/-- Helper for `split_multi`: also records the operators that cut. -/
def split_multi_go (search : List BinaryOp) :
    List ExprPair → ExprSlice → List ExprSlice × List BinaryOp
  | [], cur => ([cur], [])
  | p :: rest, cur =>
    if search.contains p.op then
      let (xs, ops) := split_multi_go search rest ⟨p.val, []⟩
      (cur :: xs, p.op :: ops)
    else split_multi_go search rest ⟨cur.first, cur.pairs ++ [p]⟩

/-- `ExprSlice::split_multi`. -/
def ExprSlice.split_multi (s : ExprSlice) (search : List BinaryOp) :
    List ExprSlice × List BinaryOp :=
  split_multi_go search s.pairs ⟨s.first, []⟩

/-- `neg_wrap`: fold a constant, cancel a nested `INeg`, else wrap. -/
def neg_wrap (instr : Instruction) (cs : CompileSlab) : Instruction × CompileSlab :=
  match instr with
  | .IConst c => (.IConst (fneg c), cs)
  | .INeg i => take_instr cs i
  | _ => let (cs', i) := push_instr cs instr; (.INeg i, cs')

/-- `not_wrap`: fold a constant, cancel a nested `INot`, else wrap. -/
def not_wrap (instr : Instruction) (cs : CompileSlab) : Instruction × CompileSlab :=
  match instr with
  | .IConst c => (.IConst (bool_to_f32 (f32_eq c (.num 0))), cs)
  | .INot i => take_instr cs i
  | _ => let (cs', i) := push_instr cs instr; (.INot i, cs')

/-- `inv_wrap`: fold a constant (`1.0 / c`), cancel a nested `IInv`, else
wrap. -/
def inv_wrap (instr : Instruction) (cs : CompileSlab) : Instruction × CompileSlab :=
  match instr with
  | .IConst c => (.IConst (fdiv (.num 1) c), cs)
  | .IInv i => take_instr cs i
  | _ => let (cs', i) := push_instr cs instr; (.IInv i, cs')

/-- Loop body of `compile_add`: separate constants (summed) from the other
instructions (chained into `IAdd`s). -/
def compile_add_go : List Instruction → Instruction → Bool → F → CompileSlab →
    Instruction × Bool × F × CompileSlab
  | [], out, out_set, const_sum, cs => (out, out_set, const_sum, cs)
  | instr :: rest, out, out_set, const_sum, cs =>
    match instr with
    | .IConst c => compile_add_go rest out out_set (fadd const_sum c) cs
    | _ =>
      if out_set then
        let (cs, oi) := push_instr cs out
        let (cs, ii) := push_instr cs instr
        compile_add_go rest (.IAdd oi (.I ii)) true const_sum cs
      else compile_add_go rest instr true const_sum cs

/-- `compile_add`. -/
def compile_add (instrs : List Instruction) (cs : CompileSlab) :
    Instruction × CompileSlab :=
  let (out, out_set, const_sum, cs) :=
    compile_add_go instrs (.IConst (.num 0)) false (.num 0) cs
  if f32_ne const_sum (.num 0) then
    if out_set then
      let (cs, oi) := push_instr cs out
      (.IAdd oi (.C const_sum), cs)
    else (.IConst const_sum, cs)
  else (out, cs)

/-- Loop body of `compile_mul`. -/
def compile_mul_go : List Instruction → Instruction → Bool → F → CompileSlab →
    Instruction × Bool × F × CompileSlab
  | [], out, out_set, const_prod, cs => (out, out_set, const_prod, cs)
  | instr :: rest, out, out_set, const_prod, cs =>
    match instr with
    | .IConst c => compile_mul_go rest out out_set (fmul const_prod c) cs
    | _ =>
      if out_set then
        let (cs, oi) := push_instr cs out
        let (cs, ii) := push_instr cs instr
        compile_mul_go rest (.IMul oi (.I ii)) true const_prod cs
      else compile_mul_go rest instr true const_prod cs

/-- `compile_mul`. -/
def compile_mul (instrs : List Instruction) (cs : CompileSlab) :
    Instruction × CompileSlab :=
  let (out, out_set, const_prod, cs) :=
    compile_mul_go instrs (.IConst (.num 1)) false (.num 1) cs
  if f32_ne const_prod (.num 1) then
    if out_set then
      let (cs, oi) := push_instr cs out
      (.IMul oi (.C const_prod), cs)
    else (.IConst const_prod, cs)
  else (out, cs)

/-- `push_add_leaves`: flatten an `IAdd` spine back into a list of leaves,
taking the children out of the slab (right side first, then left). -/
def push_add_leaves : Nat → List Instruction → CompileSlab → InstructionI → IC →
    Option (List Instruction × CompileSlab)
  | 0, _, _, _, _ => none
  | fuel + 1, instrs, cs, li, ric =>
    let step1 : Option (List Instruction × CompileSlab) :=
      match ric with
      | .I ri =>
        let (instr, cs') := take_instr cs ri
        match instr with
        | .IAdd rli rric => push_add_leaves fuel instrs cs' rli rric
        | _ => some (instrs ++ [instr], cs')
      | .C c => some (instrs ++ [.IConst c], cs)
    match step1 with
    | none => none
    | some (instrs, cs) =>
      let (instr, cs') := take_instr cs li
      match instr with
      | .IAdd lli lric => push_add_leaves fuel instrs cs' lli lric
      | _ => some (instrs ++ [instr], cs')
termination_by structural fuel _ _ _ _ => fuel

/-- `push_mul_leaves`: the `IMul` analogue of `push_add_leaves`. -/
def push_mul_leaves : Nat → List Instruction → CompileSlab → InstructionI → IC →
    Option (List Instruction × CompileSlab)
  | 0, _, _, _, _ => none
  | fuel + 1, instrs, cs, li, ric =>
    let step1 : Option (List Instruction × CompileSlab) :=
      match ric with
      | .I ri =>
        let (instr, cs') := take_instr cs ri
        match instr with
        | .IMul rli rric => push_mul_leaves fuel instrs cs' rli rric
        | _ => some (instrs ++ [instr], cs')
      | .C c => some (instrs ++ [.IConst c], cs)
    match step1 with
    | none => none
    | some (instrs, cs) =>
      let (instr, cs') := take_instr cs li
      match instr with
      | .IMul lli lric => push_mul_leaves fuel instrs cs' lli lric
      | _ => some (instrs ++ [instr], cs')
termination_by structural fuel _ _ _ _ => fuel

/-- Tail of `StdFunc::process_min`: fold the already-compiled argument
instructions, keeping constants separate (`const_min`) from the chained
`IFuncMin` stream (`out`). -/
def min_fold_go : List Instruction → Instruction → Bool → F → Bool → CompileSlab →
    Instruction × Bool × F × Bool × CompileSlab
  | [], out, out_set, cmin, cmin_set, cs => (out, out_set, cmin, cmin_set, cs)
  | instr :: rest, out, out_set, cmin, cmin_set, cs =>
    match instr with
    | .IConst f =>
      if cmin_set then
        if flt f cmin then min_fold_go rest out out_set f true cs
        else min_fold_go rest out out_set cmin true cs
      else min_fold_go rest out out_set f true cs
    | _ =>
      if out_set then
        let (cs, oi) := push_instr cs out
        let (cs, ii) := push_instr cs instr
        min_fold_go rest (.IFuncMin oi (.I ii)) true cmin cmin_set cs
      else min_fold_go rest instr true cmin cmin_set cs

/-- `StdFunc::process_min` after its arguments have been compiled. -/
def min_fold (first : Instruction) (rest : List Instruction) (cs : CompileSlab) :
    Instruction × CompileSlab :=
  let init : Instruction × Bool × F × Bool :=
    match first with
    | .IConst f => (.IConst (.num 0), false, f, true)
    | _ => (first, true, .num 0, false)
  let (out, out_set, cmin, cmin_set, cs) :=
    min_fold_go rest init.1 init.2.1 init.2.2.1 init.2.2.2 cs
  if cmin_set then
    if out_set then
      let (cs, oi) := push_instr cs out
      (.IFuncMin oi (.C cmin), cs)
    else (.IConst cmin, cs)
  else (out, cs)

/-- Tail of `StdFunc::process_max`. -/
def max_fold_go : List Instruction → Instruction → Bool → F → Bool → CompileSlab →
    Instruction × Bool × F × Bool × CompileSlab
  | [], out, out_set, cmax, cmax_set, cs => (out, out_set, cmax, cmax_set, cs)
  | instr :: rest, out, out_set, cmax, cmax_set, cs =>
    match instr with
    | .IConst f =>
      if cmax_set then
        if fgt f cmax then max_fold_go rest out out_set f true cs
        else max_fold_go rest out out_set cmax true cs
      else max_fold_go rest out out_set f true cs
    | _ =>
      if out_set then
        let (cs, oi) := push_instr cs out
        let (cs, ii) := push_instr cs instr
        max_fold_go rest (.IFuncMax oi (.I ii)) true cmax cmax_set cs
      else max_fold_go rest instr true cmax cmax_set cs

/-- `StdFunc::process_max` after its arguments have been compiled. -/
def max_fold (first : Instruction) (rest : List Instruction) (cs : CompileSlab) :
    Instruction × CompileSlab :=
  let init : Instruction × Bool × F × Bool :=
    match first with
    | .IConst f => (.IConst (.num 0), false, f, true)
    | _ => (first, true, .num 0, false)
  let (out, out_set, cmax, cmax_set, cs) :=
    max_fold_go rest init.1 init.2.1 init.2.2.1 init.2.2.2 cs
  if cmax_set then
    if out_set then
      let (cs, oi) := push_instr cs out
      (.IFuncMax oi (.C cmax), cs)
    else (.IConst cmax, cs)
  else (out, cs)

/-- The comparison operators (all of equal precedence for splitting). -/
def CMP_OPS : List BinaryOp := [.EEQ, .ENE, .ELT, .EGT, .ELTE, .EGTE]

mutual

/-- `Compiler for Expression`: compile via an `ExprSlice` of the whole
expression. -/
def compile_expr {σ : Type} (fx : Foreign) (ps : ParseSlab) (ns : Ns σ) :
    Nat → Expression → CompileSlab → σ → Option (Instruction × CompileSlab × σ)
  | 0, _, _, _ => none
  | fuel + 1, e, cs, s => compile_slice fx ps ns fuel (ExprSlice.from_expr e) cs s
termination_by structural fuel _ _ _ => fuel

/-- `Compiler for ExprSlice`: find the lowest-precedence operator and
dispatch to the matching processing step. -/
def compile_slice {σ : Type} (fx : Foreign) (ps : ParseSlab) (ns : Ns σ) :
    Nat → ExprSlice → CompileSlab → σ → Option (Instruction × CompileSlab × σ)
  | 0, _, _, _ => none
  | fuel + 1, sl, cs, s =>
    match sl.pairs with
    | [] => compile_value fx ps ns fuel sl.first cs s
    | p0 :: _ =>
      let lowest_op := sl.pairs.foldl
        (fun acc p => if p.op.prec < acc.prec then p.op else acc) p0.op
      if CMP_OPS.contains lowest_op then
        process_comparisons fx ps ns fuel sl cs s
      else
        match lowest_op with
        | .EOR => or_loop fx ps ns fuel (sl.split .EOR) (.IConst (.num 0)) false cs s
        | .EAND => and_loop fx ps ns fuel (sl.split .EAND) (.IConst (.num 1)) false cs s
        | .EAdd =>
          match add_gather fx ps ns fuel (sl.split .EAdd) [] cs s with
          | none => none
          | some (instrs, cs, s) =>
            let (out, cs) := compile_add instrs cs
            some (out, cs, s)
        | .ESub =>
          match sub_gather fx ps ns fuel (sl.split .ESub) true [] cs s with
          | none => none
          | some (instrs, cs, s) =>
            let (out, cs) := compile_add instrs cs
            some (out, cs, s)
        | .EMul =>
          match mul_gather fx ps ns fuel (sl.split .EMul) [] cs s with
          | none => none
          | some (instrs, cs, s) =>
            let (out, cs) := compile_mul instrs cs
            some (out, cs, s)
        | .EDiv =>
          match div_gather fx ps ns fuel (sl.split .EDiv) true [] cs s with
          | none => none
          | some (instrs, cs, s) =>
            let (out, cs) := compile_mul instrs cs
            some (out, cs, s)
        | .EMod => mod_loop fx ps ns fuel (sl.split .EMod) (.IConst (.num 0)) false cs s
        | .EExp =>
          exp_loop fx ps ns fuel (sl.split .EExp).reverse (.IConst (.num 0)) false cs s
        | _ => some (.IConst .nan, cs, s)
termination_by structural fuel _ _ _ => fuel

/-- `ExprSlice::process_comparisons`: split at all comparison operators and
fold left-to-right. -/
def process_comparisons {σ : Type} (fx : Foreign) (ps : ParseSlab) (ns : Ns σ) :
    Nat → ExprSlice → CompileSlab → σ → Option (Instruction × CompileSlab × σ)
  | 0, _, _, _ => none
  | fuel + 1, sl, cs, s =>
    let (xss, ops) := sl.split_multi CMP_OPS
    match xss with
    | [] => cmp_loop fx ps ns fuel ops 0 xss (.IConst .nan) cs s
    | xs :: _ =>
      match compile_slice fx ps ns fuel xs cs s with
      | none => none
      | some (out, cs, s) => cmp_loop fx ps ns fuel ops 0 xss out cs s
termination_by structural fuel _ _ _ => fuel

/-- The `for (i, op) in ops` loop of `process_comparisons`. -/
def cmp_loop {σ : Type} (fx : Foreign) (ps : ParseSlab) (ns : Ns σ) :
    Nat → List BinaryOp → Nat → List ExprSlice → Instruction → CompileSlab → σ →
    Option (Instruction × CompileSlab × σ)
  | 0, _, _, _, _, _, _ => none
  | fuel + 1, ops, i, xss, out, cs, s =>
    match ops with
    | [] => some (out, cs, s)
    | op :: rest =>
      let step : Option (Instruction × CompileSlab × σ) :=
        match xss.get? (i + 1) with
        | none => some (.IConst .nan, cs, s)
        | some xs => compile_slice fx ps ns fuel xs cs s
      match step with
      | none => none
      | some (instruction, cs, s) =>
        match out, instruction with
        | .IConst l, .IConst r =>
          let folded : Instruction :=
            match op with
            | .EEQ => .IConst (bool_to_f32 (f32_eq l r))
            | .ENE => .IConst (bool_to_f32 (f32_ne l r))
            | .ELT => .IConst (bool_to_f32 (flt l r))
            | .EGT => .IConst (bool_to_f32 (fgt l r))
            | .ELTE => .IConst (bool_to_f32 (fle l r))
            | .EGTE => .IConst (bool_to_f32 (fge l r))
            | _ => .IConst .nan
          cmp_loop fx ps ns fuel rest (i + 1) xss folded cs s
        | _, _ =>
          let (cs, lic) := instr_to_ic cs out
          let (cs, ric) := instr_to_ic cs instruction
          let built : Instruction :=
            match op with
            | .EEQ => .IEQ lic ric
            | .ENE => .INE lic ric
            | .ELT => .ILT lic ric
            | .EGT => .IGT lic ric
            | .ELTE => .ILTE lic ric
            | .EGTE => .IGTE lic ric
            | _ => .IConst .nan
          cmp_loop fx ps ns fuel rest (i + 1) xss built cs s
termination_by structural fuel _ _ _ _ _ _ => fuel

/-- The loop of `ExprSlice::process_or`: any nonzero constant short-circuits
(becomes the result), a zero constant is dropped, the rest chain into
`IOR`s. -/
def or_loop {σ : Type} (fx : Foreign) (ps : ParseSlab) (ns : Ns σ) :
    Nat → List ExprSlice → Instruction → Bool → CompileSlab → σ →
    Option (Instruction × CompileSlab × σ)
  | 0, _, _, _, _, _ => none
  | fuel + 1, xss, out, out_set, cs, s =>
    match xss with
    | [] => some (out, cs, s)
    | xs :: rest =>
      match compile_slice fx ps ns fuel xs cs s with
      | none => none
      | some (instr, cs, s) =>
        if out_set then
          let (cs, oi) := push_instr cs out
          let (cs, ric) := instr_to_ic cs instr
          or_loop fx ps ns fuel rest (.IOR oi ric) true cs s
        else
          match instr with
          | .IConst c =>
            if f32_ne c (.num 0) then some (.IConst c, cs, s)
            else or_loop fx ps ns fuel rest out false cs s
          | _ => or_loop fx ps ns fuel rest instr true cs s
termination_by structural fuel _ _ _ _ _ => fuel

/-- The loop of `ExprSlice::process_and`: a constant equal to zero (within
tolerance) short-circuits, other constants act as identity. -/
def and_loop {σ : Type} (fx : Foreign) (ps : ParseSlab) (ns : Ns σ) :
    Nat → List ExprSlice → Instruction → Bool → CompileSlab → σ →
    Option (Instruction × CompileSlab × σ)
  | 0, _, _, _, _, _ => none
  | fuel + 1, xss, out, out_set, cs, s =>
    match xss with
    | [] => some (out, cs, s)
    | xs :: rest =>
      match compile_slice fx ps ns fuel xs cs s with
      | none => none
      | some (instr, cs, s) =>
        if (match instr with
            | .IConst c => f32_eq c (.num 0)
            | _ => false : Bool) then
          some (instr, cs, s)
        else
          if out_set then
            match out with
            | .IConst _ => and_loop fx ps ns fuel rest instr true cs s
            | _ =>
              let (cs, oi) := push_instr cs out
              let (cs, ric) := instr_to_ic cs instr
              and_loop fx ps ns fuel rest (.IAND oi ric) true cs s
          else and_loop fx ps ns fuel rest instr true cs s
termination_by structural fuel _ _ _ _ _ => fuel

/-- The gathering loop of `process_addition`: flatten any `IAdd` results via
`push_add_leaves`. -/
def add_gather {σ : Type} (fx : Foreign) (ps : ParseSlab) (ns : Ns σ) :
    Nat → List ExprSlice → List Instruction → CompileSlab → σ →
    Option (List Instruction × CompileSlab × σ)
  | 0, _, _, _, _ => none
  | fuel + 1, xss, instrs, cs, s =>
    match xss with
    | [] => some (instrs, cs, s)
    | xs :: rest =>
      match compile_slice fx ps ns fuel xs cs s with
      | none => none
      | some (instr, cs, s) =>
        match instr with
        | .IAdd li ric =>
          match push_add_leaves fuel instrs cs li ric with
          | none => none
          | some (instrs, cs) => add_gather fx ps ns fuel rest instrs cs s
        | _ => add_gather fx ps ns fuel rest (instrs ++ [instr]) cs s
termination_by structural fuel _ _ _ _ => fuel

/-- The gathering loop of `process_subtraction`: negate every slice after
the first. -/
def sub_gather {σ : Type} (fx : Foreign) (ps : ParseSlab) (ns : Ns σ) :
    Nat → List ExprSlice → Bool → List Instruction → CompileSlab → σ →
    Option (List Instruction × CompileSlab × σ)
  | 0, _, _, _, _, _ => none
  | fuel + 1, xss, is_first, instrs, cs, s =>
    match xss with
    | [] => some (instrs, cs, s)
    | xs :: rest =>
      match compile_slice fx ps ns fuel xs cs s with
      | none => none
      | some (instr, cs, s) =>
        if is_first then sub_gather fx ps ns fuel rest false (instrs ++ [instr]) cs s
        else
          let (instr', cs) := neg_wrap instr cs
          sub_gather fx ps ns fuel rest false (instrs ++ [instr']) cs s
termination_by structural fuel _ _ _ _ _ => fuel

/-- The gathering loop of `process_multiplication`: flatten any `IMul`
results via `push_mul_leaves`. -/
def mul_gather {σ : Type} (fx : Foreign) (ps : ParseSlab) (ns : Ns σ) :
    Nat → List ExprSlice → List Instruction → CompileSlab → σ →
    Option (List Instruction × CompileSlab × σ)
  | 0, _, _, _, _ => none
  | fuel + 1, xss, instrs, cs, s =>
    match xss with
    | [] => some (instrs, cs, s)
    | xs :: rest =>
      match compile_slice fx ps ns fuel xs cs s with
      | none => none
      | some (instr, cs, s) =>
        match instr with
        | .IMul li ric =>
          match push_mul_leaves fuel instrs cs li ric with
          | none => none
          | some (instrs, cs) => mul_gather fx ps ns fuel rest instrs cs s
        | _ => mul_gather fx ps ns fuel rest (instrs ++ [instr]) cs s
termination_by structural fuel _ _ _ _ => fuel

/-- The gathering loop of the `EDiv` arm of `compile`: invert every slice
after the first. -/
def div_gather {σ : Type} (fx : Foreign) (ps : ParseSlab) (ns : Ns σ) :
    Nat → List ExprSlice → Bool → List Instruction → CompileSlab → σ →
    Option (List Instruction × CompileSlab × σ)
  | 0, _, _, _, _, _ => none
  | fuel + 1, xss, is_first, instrs, cs, s =>
    match xss with
    | [] => some (instrs, cs, s)
    | xs :: rest =>
      match compile_slice fx ps ns fuel xs cs s with
      | none => none
      | some (instr, cs, s) =>
        if is_first then div_gather fx ps ns fuel rest false (instrs ++ [instr]) cs s
        else
          let (instr', cs) := inv_wrap instr cs
          div_gather fx ps ns fuel rest false (instrs ++ [instr']) cs s
termination_by structural fuel _ _ _ _ _ => fuel

/-- The loop of the `EMod` arm of `compile`: left-to-right, folding adjacent
constants. -/
def mod_loop {σ : Type} (fx : Foreign) (ps : ParseSlab) (ns : Ns σ) :
    Nat → List ExprSlice → Instruction → Bool → CompileSlab → σ →
    Option (Instruction × CompileSlab × σ)
  | 0, _, _, _, _, _ => none
  | fuel + 1, xss, out, out_set, cs, s =>
    match xss with
    | [] => some (out, cs, s)
    | xs :: rest =>
      match compile_slice fx ps ns fuel xs cs s with
      | none => none
      | some (instr, cs, s) =>
        if out_set then
          match out, instr with
          | .IConst dividend, .IConst divisor =>
            mod_loop fx ps ns fuel rest (.IConst (fmod dividend divisor)) true cs s
          | _, _ =>
            let (cs, dic) := instr_to_ic cs out
            let (cs, vic) := instr_to_ic cs instr
            mod_loop fx ps ns fuel rest (.IMod dic vic) true cs s
        else mod_loop fx ps ns fuel rest instr true cs s
termination_by structural fuel _ _ _ _ _ => fuel

/-- The loop of the `EExp` arm of `compile`: iterates the slices reversed
(right-to-left associativity), folding adjacent constants. -/
def exp_loop {σ : Type} (fx : Foreign) (ps : ParseSlab) (ns : Ns σ) :
    Nat → List ExprSlice → Instruction → Bool → CompileSlab → σ →
    Option (Instruction × CompileSlab × σ)
  | 0, _, _, _, _, _ => none
  | fuel + 1, xss_rev, out, out_set, cs, s =>
    match xss_rev with
    | [] => some (out, cs, s)
    | xs :: rest =>
      match compile_slice fx ps ns fuel xs cs s with
      | none => none
      | some (instr, cs, s) =>
        if out_set then
          match out, instr with
          | .IConst power, .IConst base =>
            exp_loop fx ps ns fuel rest (.IConst (fx.powf base power)) true cs s
          | _, _ =>
            let (cs, bic) := instr_to_ic cs instr
            let (cs, pic) := instr_to_ic cs out
            exp_loop fx ps ns fuel rest (.IExp bic pic) true cs s
        else exp_loop fx ps ns fuel rest instr true cs s
termination_by structural fuel _ _ _ _ _ => fuel

/-- `Compiler for Value`. -/
def compile_value {σ : Type} (fx : Foreign) (ps : ParseSlab) (ns : Ns σ) :
    Nat → Value → CompileSlab → σ → Option (Instruction × CompileSlab × σ)
  | 0, _, _, _ => none
  | fuel + 1, v, cs, s =>
    match v with
    | .EConstant c => some (.IConst c, cs, s)
    | .EUnaryOp u => compile_unary fx ps ns fuel u cs s
    | .EStdFunc f => compile_stdfunc fx ps ns fuel f cs s
    | .EPrintFunc pf => some (.IPrintFunc pf, cs, s)
termination_by structural fuel _ _ _ => fuel

/-- `Compiler for UnaryOp`. -/
def compile_unary {σ : Type} (fx : Foreign) (ps : ParseSlab) (ns : Ns σ) :
    Nat → UnaryOp → CompileSlab → σ → Option (Instruction × CompileSlab × σ)
  | 0, _, _, _ => none
  | fuel + 1, u, cs, s =>
    match u with
    | .EPos i => compile_value fx ps ns fuel (get_val ps i) cs s
    | .ENeg i =>
      match compile_value fx ps ns fuel (get_val ps i) cs s with
      | none => none
      | some (instr, cs, s) =>
        match instr with
        | .IConst c => some (.IConst (fneg c), cs, s)
        | _ =>
          let (instr', cs) := neg_wrap instr cs
          some (instr', cs, s)
    | .ENot i =>
      match compile_value fx ps ns fuel (get_val ps i) cs s with
      | none => none
      | some (instr, cs, s) =>
        match instr with
        | .IConst c => some (.IConst (bool_to_f32 (f32_eq c (.num 0))), cs, s)
        | _ =>
          let (instr', cs) := not_wrap instr cs
          some (instr', cs, s)
    | .EParentheses i => compile_expr fx ps ns fuel (get_expr ps i) cs s
termination_by structural fuel _ _ _ => fuel

/-- The loop of `StdFunc::process_custom_fn`: compile the arguments,
remembering whether all of them were constants. -/
def custom_loop {σ : Type} (fx : Foreign) (ps : ParseSlab) (ns : Ns σ) :
    Nat → List ExpressionI → List IC → List F → Bool → CompileSlab → σ →
    Option (List IC × List F × Bool × CompileSlab × σ)
  | 0, _, _, _, _, _, _ => none
  | fuel + 1, exprs, args, f32_args, all_const, cs, s =>
    match exprs with
    | [] => some (args, f32_args, all_const, cs, s)
    | xi :: rest =>
      match compile_expr fx ps ns fuel (get_expr ps xi) cs s with
      | none => none
      | some (instr, cs, s) =>
        let (f32_args', all_const') :=
          match instr with
          | .IConst c => (f32_args ++ [c], all_const)
          | _ => (f32_args, false)
        let (cs, ic) := instr_to_ic cs instr
        custom_loop fx ps ns fuel rest (args ++ [ic]) f32_args' all_const' cs s
termination_by structural fuel _ _ _ _ _ _ => fuel

/-- The gathering loop of `process_min`/`process_max`: compile the `rest`
argument expressions. -/
def minmax_rest {σ : Type} (fx : Foreign) (ps : ParseSlab) (ns : Ns σ) :
    Nat → List ExpressionI → List Instruction → CompileSlab → σ →
    Option (List Instruction × CompileSlab × σ)
  | 0, _, _, _, _ => none
  | fuel + 1, is, acc, cs, s =>
    match is with
    | [] => some (acc, cs, s)
    | i :: rest =>
      match compile_expr fx ps ns fuel (get_expr ps i) cs s with
      | none => none
      | some (instr, cs, s) => minmax_rest fx ps ns fuel rest (acc ++ [instr]) cs s
termination_by structural fuel _ _ _ _ => fuel

/-- The shared shape of the one-argument builtin processors
(`process_fn!`, `process_int_fn`, ..., and the inline `EFuncSinH` ..
`EFuncATanH` arms, whose bodies are all identical up to the folded operation
and the instruction constructor). -/
def process_unary_fn {σ : Type} (fx : Foreign) (ps : ParseSlab) (ns : Ns σ)
    (op : F → F) (mk : InstructionI → Instruction) :
    Nat → ExpressionI → CompileSlab → σ → Option (Instruction × CompileSlab × σ)
  | 0, _, _, _ => none
  | fuel + 1, xi, cs, s =>
    match compile_expr fx ps ns fuel (get_expr ps xi) cs s with
    | none => none
    | some (instr, cs, s) =>
      match instr with
      | .IConst c => some (.IConst (op c), cs, s)
      | _ =>
        let (cs, i) := push_instr cs instr
        some (mk i, cs, s)
termination_by structural fuel _ _ _ => fuel

/-- `Compiler for StdFunc`. -/
def compile_stdfunc {σ : Type} (fx : Foreign) (ps : ParseSlab) (ns : Ns σ) :
    Nat → StdFunc → CompileSlab → σ → Option (Instruction × CompileSlab × σ)
  | 0, _, _, _ => none
  | fuel + 1, f, cs, s =>
    match f with
    | .EVar name => some (.IVar name, cs, s)
    | .EFunc name exprs =>
      match custom_loop fx ps ns fuel exprs [] [] true cs s with
      | none => none
      | some (args, f32_args, all_const, cs, s) =>
        if all_const then
          match ns s name f32_args with
          | (some c, s') => some (.IConst c, cs, s')
          | (none, s') => some (.IFunc name args, cs, s')
        else some (.IFunc name args, cs, s)
    | .EFuncInt x => process_unary_fn fx ps ns ftrunc .IFuncInt fuel x cs s
    | .EFuncCeil x => process_unary_fn fx ps ns fceil .IFuncCeil fuel x cs s
    | .EFuncFloor x => process_unary_fn fx ps ns ffloor .IFuncFloor fuel x cs s
    | .EFuncAbs x => process_unary_fn fx ps ns fabs .IFuncAbs fuel x cs s
    | .EFuncSign x => process_unary_fn fx ps ns fsignum .IFuncSign fuel x cs s
    | .EFuncLog base_opt expr =>
      let base_step : Option (Instruction × CompileSlab × σ) :=
        match base_opt with
        | none => some (.IConst (.num 10), cs, s)
        | some bi => compile_expr fx ps ns fuel (get_expr ps bi) cs s
      match base_step with
      | none => none
      | some (base, cs, s) =>
        match compile_expr fx ps ns fuel (get_expr ps expr) cs s with
        | none => none
        | some (instr, cs, s) =>
          match base, instr with
          | .IConst b, .IConst n => some (.IConst (logf fx b n), cs, s)
          | _, _ =>
            let (cs, bic) := instr_to_ic cs base
            let (cs, oic) := instr_to_ic cs instr
            some (.IFuncLog bic oic, cs, s)
    | .EFuncRound mod_opt expr =>
      let mod_step : Option (Instruction × CompileSlab × σ) :=
        match mod_opt with
        | none => some (.IConst (.num 1), cs, s)
        | some mi => compile_expr fx ps ns fuel (get_expr ps mi) cs s
      match mod_step with
      | none => none
      | some (modulus, cs, s) =>
        match compile_expr fx ps ns fuel (get_expr ps expr) cs s with
        | none => none
        | some (instr, cs, s) =>
          match modulus, instr with
          | .IConst m, .IConst n => some (.IConst (fmul (fround (fdiv n m)) m), cs, s)
          | _, _ =>
            let (cs, mic) := instr_to_ic cs modulus
            let (cs, oic) := instr_to_ic cs instr
            some (.IFuncRound mic oic, cs, s)
    | .EFuncMin fi is =>
      match compile_expr fx ps ns fuel (get_expr ps fi) cs s with
      | none => none
      | some (first, cs, s) =>
        match minmax_rest fx ps ns fuel is [] cs s with
        | none => none
        | some (rest, cs, s) =>
          let (out, cs) := min_fold first rest cs
          some (out, cs, s)
    | .EFuncMax fi is =>
      match compile_expr fx ps ns fuel (get_expr ps fi) cs s with
      | none => none
      | some (first, cs, s) =>
        match minmax_rest fx ps ns fuel is [] cs s with
        | none => none
        | some (rest, cs, s) =>
          let (out, cs) := max_fold first rest cs
          some (out, cs, s)
    | .EFuncE => some (.IConst fx.const_e, cs, s)
    | .EFuncPi => some (.IConst fx.const_pi, cs, s)
    | .EFuncSin x => process_unary_fn fx ps ns fx.sin .IFuncSin fuel x cs s
    | .EFuncCos x => process_unary_fn fx ps ns fx.cos .IFuncCos fuel x cs s
    | .EFuncTan x => process_unary_fn fx ps ns fx.tan .IFuncTan fuel x cs s
    | .EFuncASin x => process_unary_fn fx ps ns fx.asin .IFuncASin fuel x cs s
    | .EFuncACos x => process_unary_fn fx ps ns fx.acos .IFuncACos fuel x cs s
    | .EFuncATan x => process_unary_fn fx ps ns fx.atan .IFuncATan fuel x cs s
    | .EFuncSinH x => process_unary_fn fx ps ns fx.sinh .IFuncSinH fuel x cs s
    | .EFuncCosH x => process_unary_fn fx ps ns fx.cosh .IFuncCosH fuel x cs s
    | .EFuncTanH x => process_unary_fn fx ps ns fx.tanh .IFuncTanH fuel x cs s
    | .EFuncASinH x => process_unary_fn fx ps ns fx.asinh .IFuncASinH fuel x cs s
    | .EFuncACosH x => process_unary_fn fx ps ns fx.acosh .IFuncACosH fuel x cs s
    | .EFuncATanH x => process_unary_fn fx ps ns fx.atanh .IFuncATanH fuel x cs s
termination_by structural fuel _ _ _ => fuel

end

/-! ## Evaluator (evaler.rs) -/

/-- parser.rs `remove_no_panic`: `Vec::remove` that returns `None` instead of
panicking on an out-of-range index. -/
def remove_no_panic {α : Type} (l : List α) (i : Nat) : Option α × List α :=
  if i < l.length then (l.get? i, l.eraseIdx i) else (none, l)

/-- `BinaryOp::binaryop_eval`: missing operands yield NaN. -/
def binaryop_eval (fx : Foreign) (op : BinaryOp) (left_opt right_opt : Option F) : F :=
  match left_opt with
  | none => .nan
  | some left =>
    match right_opt with
    | none => .nan
    | some right =>
      match op with
      | .EAdd => fadd left right
      | .ESub => fsub left right
      | .EMul => fmul left right
      | .EDiv => fdiv left right
      | .EMod => fmod left right
      | .EExp => fx.powf left right
      | .ELT => bool_to_f32 (flt left right)
      | .ELTE => bool_to_f32 (fle left right)
      | .EEQ => bool_to_f32 (f32_eq left right)
      | .ENE => bool_to_f32 (f32_ne left right)
      | .EGTE => bool_to_f32 (fge left right)
      | .EGT => bool_to_f32 (fgt left right)
      | .EOR => if f32_ne left (.num 0) then left else right
      | .EAND => if f32_eq left (.num 0) then left else right

/-- One step of the `rtol` reduction at index `i`.  `ops.get(i)` defaults to
`EOR` when out of range (`map_or(EOR, ..)`), which never equals the searched
operator (`rtol` is only invoked for Exp/Mul/Add); `vals.set` is a no-op out
of range, matching the `get_mut` guard. -/
def rtol_step (fx : Foreign) (search : BinaryOp) (i : Nat)
    (st : List F × List BinaryOp) : List F × List BinaryOp :=
  let (vals, ops) := st
  let op := ops.getD i .EOR
  if op = search then
    let res := binaryop_eval fx op (vals.get? i) (vals.get? (i + 1))
    let vals := vals.set i res
    let vals := (remove_no_panic vals (i + 1)).2
    let ops := (remove_no_panic ops i).2
    (vals, ops)
  else (vals, ops)

/-- `rtol`: indices from `ops.len()-1` down to `0` (the bound is taken once,
before any removal, exactly as `(0..ops.len()).rev()`). -/
def rtol_go (fx : Foreign) (search : BinaryOp) :
    Nat → List F × List BinaryOp → List F × List BinaryOp
  | 0, st => st
  | i + 1, st => rtol_go fx search i (rtol_step fx search i st)

def rtol (fx : Foreign) (search : BinaryOp) (vals : List F) (ops : List BinaryOp) :
    List F × List BinaryOp :=
  rtol_go fx search ops.length (vals, ops)

/-- `ltor`: scan left to right; on a match reduce in place and re-examine the
same index, otherwise advance.  The loop terminates because each iteration
either removes an operator or advances the index; `gas` carries that measure
(`ops.length - i`) explicitly: it is initialized to `ops.length` (at `i = 0`)
and both loop arms preserve `gas = ops.length - i`, so the loop always exits
through the `ops.get? i = none` break exactly as the source does. -/
def ltor_go (fx : Foreign) (search : BinaryOp) :
    Nat → Nat → List F → List BinaryOp → List F × List BinaryOp
  | 0, _, vals, ops => (vals, ops)
  | gas + 1, i, vals, ops =>
    match ops.get? i with
    | none => (vals, ops)
    | some op =>
      if op = search then
        let res := binaryop_eval fx op (vals.get? i) (vals.get? (i + 1))
        let vals' := (remove_no_panic (vals.set i res) (i + 1)).2
        let ops' := (remove_no_panic ops i).2
        ltor_go fx search gas i vals' ops'
      else ltor_go fx search gas (i + 1) vals ops
termination_by structural gas _ _ _ => gas

def ltor (fx : Foreign) (search : BinaryOp) (vals : List F) (ops : List BinaryOp) :
    List F × List BinaryOp :=
  ltor_go fx search ops.length 0 vals ops

/-- `ltor_multi`: like `ltor` but matching any operator in `search`. -/
def ltor_multi_go (fx : Foreign) (search : List BinaryOp) :
    Nat → Nat → List F → List BinaryOp → List F × List BinaryOp
  | 0, _, vals, ops => (vals, ops)
  | gas + 1, i, vals, ops =>
    match ops.get? i with
    | none => (vals, ops)
    | some op =>
      if search.contains op then
        let res := binaryop_eval fx op (vals.get? i) (vals.get? (i + 1))
        let vals' := (remove_no_panic (vals.set i res) (i + 1)).2
        let ops' := (remove_no_panic ops i).2
        ltor_multi_go fx search gas i vals' ops'
      else ltor_multi_go fx search gas (i + 1) vals ops
termination_by structural gas _ _ _ => gas

def ltor_multi (fx : Foreign) (search : List BinaryOp) (vals : List F)
    (ops : List BinaryOp) : List F × List BinaryOp :=
  ltor_multi_go fx search ops.length 0 vals ops

/-- The `eval_var!` macro: a `None` lookup becomes `Undefined(name)`. -/
def eval_var {σ : Type} (ns : Ns σ) (s : σ) (name : String) (args : List F) :
    Except Error F × σ :=
  match ns s name args with
  | (some f, s') => (.ok f, s')
  | (none, s') => (.error (.Undefined name), s')

/-- The order of reductions in `Expression::eval`, applied after all values
have been (eagerly) evaluated.  Kept in sync with BinaryOp priority. -/
def reduce_ops (fx : Foreign) (vals : List F) (ops : List BinaryOp) :
    List F × List BinaryOp :=
  let (vals, ops) := rtol fx .EExp vals ops
  let (vals, ops) := ltor fx .EMod vals ops
  let (vals, ops) := ltor fx .EDiv vals ops
  let (vals, ops) := rtol fx .EMul vals ops
  let (vals, ops) := ltor fx .ESub vals ops
  let (vals, ops) := rtol fx .EAdd vals ops
  let (vals, ops) := ltor_multi fx [.ELT, .EGT, .ELTE, .EGTE, .EEQ, .ENE] vals ops
  let (vals, ops) := ltor fx .EAND vals ops
  ltor fx .EOR vals ops

mutual

/-- `Evaler for Expression` (interpreter mode): evaluate `first` and every
pair value eagerly, then reduce by operator priority. -/
def eval_expr_ast {σ : Type} (fx : Foreign) (ps : ParseSlab) (ns : Ns σ) :
    Nat → Expression → σ → Option (Except Error F × σ)
  | 0, _, _ => none
  | fuel + 1, e, s =>
    match eval_value fx ps ns fuel e.first s with
    | none => none
    | some (.error err, s) => some (.error err, s)
    | some (.ok v, s) =>
      match eval_pairs fx ps ns fuel e.pairs [v] [] s with
      | none => none
      | some (.error err, s) => some (.error err, s)
      | some (.ok (vals, ops), s) =>
        let (vals, ops) := reduce_ops fx vals ops
        if !ops.isEmpty then some (.error .Unreachable, s)
        else if vals.length ≠ 1 then some (.error .Unreachable, s)
        else
          match vals.head? with
          | none => some (.error .Unreachable, s)
          | some v => some (.ok v, s)
termination_by structural fuel _ _ => fuel

/-- The evaluation loop over an expression's `(op, value)` pairs. -/
def eval_pairs {σ : Type} (fx : Foreign) (ps : ParseSlab) (ns : Ns σ) :
    Nat → List ExprPair → List F → List BinaryOp → σ →
    Option (Except Error (List F × List BinaryOp) × σ)
  | 0, _, _, _, _ => none
  | fuel + 1, pairs, vals, ops, s =>
    match pairs with
    | [] => some (.ok (vals, ops), s)
    | p :: rest =>
      match eval_value fx ps ns fuel p.val s with
      | none => none
      | some (.error err, s) => some (.error err, s)
      | some (.ok v, s) => eval_pairs fx ps ns fuel rest (vals ++ [v]) (ops ++ [p.op]) s
termination_by structural fuel _ _ _ _ => fuel

/-- `Evaler for Value`. -/
def eval_value {σ : Type} (fx : Foreign) (ps : ParseSlab) (ns : Ns σ) :
    Nat → Value → σ → Option (Except Error F × σ)
  | 0, _, _ => none
  | fuel + 1, v, s =>
    match v with
    | .EConstant c => some (.ok c, s)
    | .EUnaryOp u => eval_unary fx ps ns fuel u s
    | .EStdFunc f => eval_stdfunc fx ps ns fuel f s
    | .EPrintFunc pf => eval_print fx ps ns fuel pf s
termination_by structural fuel _ _ => fuel

/-- `Evaler for UnaryOp`. -/
def eval_unary {σ : Type} (fx : Foreign) (ps : ParseSlab) (ns : Ns σ) :
    Nat → UnaryOp → σ → Option (Except Error F × σ)
  | 0, _, _ => none
  | fuel + 1, u, s =>
    match u with
    | .EPos i => eval_value fx ps ns fuel (get_val ps i) s
    | .ENeg i =>
      match eval_value fx ps ns fuel (get_val ps i) s with
      | none => none
      | some (.error err, s) => some (.error err, s)
      | some (.ok v, s) => some (.ok (fneg v), s)
    | .ENot i =>
      match eval_value fx ps ns fuel (get_val ps i) s with
      | none => none
      | some (.error err, s) => some (.error err, s)
      | some (.ok v, s) => some (.ok (bool_to_f32 (f32_eq v (.num 0))), s)
    | .EParentheses i => eval_expr_ast fx ps ns fuel (get_expr ps i) s
termination_by structural fuel _ _ => fuel

/-- The argument-evaluation loop of the `EFunc` arm of `StdFunc::eval`. -/
def eval_args {σ : Type} (fx : Foreign) (ps : ParseSlab) (ns : Ns σ) :
    Nat → List ExpressionI → List F → σ → Option (Except Error (List F) × σ)
  | 0, _, _, _ => none
  | fuel + 1, xis, acc, s =>
    match xis with
    | [] => some (.ok acc, s)
    | xi :: rest =>
      match eval_expr_ast fx ps ns fuel (get_expr ps xi) s with
      | none => none
      | some (.error err, s) => some (.error err, s)
      | some (.ok v, s) => eval_args fx ps ns fuel rest (acc ++ [v]) s
termination_by structural fuel _ _ _ => fuel

/-- The loop of the `EFuncMin` arm: fold with Rust `f32::min` while tracking
whether the accumulator has been seen to be NaN. -/
def min_loop {σ : Type} (fx : Foreign) (ps : ParseSlab) (ns : Ns σ) :
    Nat → List ExpressionI → F → Bool → σ → Option (Except Error (F × Bool) × σ)
  | 0, _, _, _, _ => none
  | fuel + 1, xis, m, saw_nan, s =>
    match xis with
    | [] => some (.ok (m, saw_nan), s)
    | xi :: rest =>
      match eval_expr_ast fx ps ns fuel (get_expr ps xi) s with
      | none => none
      | some (.error err, s) => some (.error err, s)
      | some (.ok v, s) =>
        let m' := rust_min m v
        min_loop fx ps ns fuel rest m' (saw_nan || m'.isNan) s
termination_by structural fuel _ _ _ _ => fuel

/-- The loop of the `EFuncMax` arm. -/
def max_loop {σ : Type} (fx : Foreign) (ps : ParseSlab) (ns : Ns σ) :
    Nat → List ExpressionI → F → Bool → σ → Option (Except Error (F × Bool) × σ)
  | 0, _, _, _, _ => none
  | fuel + 1, xis, m, saw_nan, s =>
    match xis with
    | [] => some (.ok (m, saw_nan), s)
    | xi :: rest =>
      match eval_expr_ast fx ps ns fuel (get_expr ps xi) s with
      | none => none
      | some (.error err, s) => some (.error err, s)
      | some (.ok v, s) =>
        let m' := rust_max m v
        max_loop fx ps ns fuel rest m' (saw_nan || m'.isNan) s
termination_by structural fuel _ _ _ _ => fuel

/-- `Evaler for StdFunc`. -/
def eval_stdfunc {σ : Type} (fx : Foreign) (ps : ParseSlab) (ns : Ns σ) :
    Nat → StdFunc → σ → Option (Except Error F × σ)
  | 0, _, _ => none
  | fuel + 1, f, s =>
    match f with
    | .EVar name => some (eval_var ns s name [])
    | .EFunc name xis =>
      match eval_args fx ps ns fuel xis [] s with
      | none => none
      | some (.error err, s) => some (.error err, s)
      | some (.ok args, s) => some (eval_var ns s name args)
    | .EFuncLog base_opt expr =>
      let base_step : Option (Except Error F × σ) :=
        match base_opt with
        | some bi => eval_expr_ast fx ps ns fuel (get_expr ps bi) s
        | none => some (.ok (.num 10), s)
      match base_step with
      | none => none
      | some (.error err, s) => some (.error err, s)
      | some (.ok base, s) =>
        match eval_expr_ast fx ps ns fuel (get_expr ps expr) s with
        | none => none
        | some (.error err, s) => some (.error err, s)
        | some (.ok n, s) => some (.ok (logf fx base n), s)
    | .EFuncSin xi =>
      match eval_expr_ast fx ps ns fuel (get_expr ps xi) s with
      | none => none
      | some (.error err, s) => some (.error err, s)
      | some (.ok v, s) => some (.ok (fx.sin v), s)
    | .EFuncCos xi =>
      match eval_expr_ast fx ps ns fuel (get_expr ps xi) s with
      | none => none
      | some (.error err, s) => some (.error err, s)
      | some (.ok v, s) => some (.ok (fx.cos v), s)
    | .EFuncTan xi =>
      match eval_expr_ast fx ps ns fuel (get_expr ps xi) s with
      | none => none
      | some (.error err, s) => some (.error err, s)
      | some (.ok v, s) => some (.ok (fx.tan v), s)
    | .EFuncASin xi =>
      match eval_expr_ast fx ps ns fuel (get_expr ps xi) s with
      | none => none
      | some (.error err, s) => some (.error err, s)
      | some (.ok v, s) => some (.ok (fx.asin v), s)
    | .EFuncACos xi =>
      match eval_expr_ast fx ps ns fuel (get_expr ps xi) s with
      | none => none
      | some (.error err, s) => some (.error err, s)
      | some (.ok v, s) => some (.ok (fx.acos v), s)
    | .EFuncATan xi =>
      match eval_expr_ast fx ps ns fuel (get_expr ps xi) s with
      | none => none
      | some (.error err, s) => some (.error err, s)
      | some (.ok v, s) => some (.ok (fx.atan v), s)
    | .EFuncSinH xi =>
      match eval_expr_ast fx ps ns fuel (get_expr ps xi) s with
      | none => none
      | some (.error err, s) => some (.error err, s)
      | some (.ok v, s) => some (.ok (fx.sinh v), s)
    | .EFuncCosH xi =>
      match eval_expr_ast fx ps ns fuel (get_expr ps xi) s with
      | none => none
      | some (.error err, s) => some (.error err, s)
      | some (.ok v, s) => some (.ok (fx.cosh v), s)
    | .EFuncTanH xi =>
      match eval_expr_ast fx ps ns fuel (get_expr ps xi) s with
      | none => none
      | some (.error err, s) => some (.error err, s)
      | some (.ok v, s) => some (.ok (fx.tanh v), s)
    | .EFuncASinH xi =>
      match eval_expr_ast fx ps ns fuel (get_expr ps xi) s with
      | none => none
      | some (.error err, s) => some (.error err, s)
      | some (.ok v, s) => some (.ok (fx.asinh v), s)
    | .EFuncACosH xi =>
      match eval_expr_ast fx ps ns fuel (get_expr ps xi) s with
      | none => none
      | some (.error err, s) => some (.error err, s)
      | some (.ok v, s) => some (.ok (fx.acosh v), s)
    | .EFuncATanH xi =>
      match eval_expr_ast fx ps ns fuel (get_expr ps xi) s with
      | none => none
      | some (.error err, s) => some (.error err, s)
      | some (.ok v, s) => some (.ok (fx.atanh v), s)
    | .EFuncRound mod_opt expr =>
      let mod_step : Option (Except Error F × σ) :=
        match mod_opt with
        | some mi => eval_expr_ast fx ps ns fuel (get_expr ps mi) s
        | none => some (.ok (.num 1), s)
      match mod_step with
      | none => none
      | some (.error err, s) => some (.error err, s)
      | some (.ok modulus, s) =>
        match eval_expr_ast fx ps ns fuel (get_expr ps expr) s with
        | none => none
        | some (.error err, s) => some (.error err, s)
        | some (.ok v, s) => some (.ok (fmul (fround (fdiv v modulus)) modulus), s)
    | .EFuncAbs xi =>
      match eval_expr_ast fx ps ns fuel (get_expr ps xi) s with
      | none => none
      | some (.error err, s) => some (.error err, s)
      | some (.ok v, s) => some (.ok (fabs v), s)
    | .EFuncSign xi =>
      match eval_expr_ast fx ps ns fuel (get_expr ps xi) s with
      | none => none
      | some (.error err, s) => some (.error err, s)
      | some (.ok v, s) => some (.ok (fsignum v), s)
    | .EFuncInt xi =>
      match eval_expr_ast fx ps ns fuel (get_expr ps xi) s with
      | none => none
      | some (.error err, s) => some (.error err, s)
      | some (.ok v, s) => some (.ok (ftrunc v), s)
    | .EFuncCeil xi =>
      match eval_expr_ast fx ps ns fuel (get_expr ps xi) s with
      | none => none
      | some (.error err, s) => some (.error err, s)
      | some (.ok v, s) => some (.ok (fceil v), s)
    | .EFuncFloor xi =>
      match eval_expr_ast fx ps ns fuel (get_expr ps xi) s with
      | none => none
      | some (.error err, s) => some (.error err, s)
      | some (.ok v, s) => some (.ok (ffloor v), s)
    | .EFuncMin fi rest =>
      match eval_expr_ast fx ps ns fuel (get_expr ps fi) s with
      | none => none
      | some (.error err, s) => some (.error err, s)
      | some (.ok v0, s) =>
        match min_loop fx ps ns fuel rest v0 v0.isNan s with
        | none => none
        | some (.error err, s) => some (.error err, s)
        | some (.ok (m, saw_nan), s) =>
          if saw_nan then some (.ok .nan, s) else some (.ok m, s)
    | .EFuncMax fi rest =>
      match eval_expr_ast fx ps ns fuel (get_expr ps fi) s with
      | none => none
      | some (.error err, s) => some (.error err, s)
      | some (.ok v0, s) =>
        match max_loop fx ps ns fuel rest v0 v0.isNan s with
        | none => none
        | some (.error err, s) => some (.error err, s)
        | some (.ok (m, saw_nan), s) =>
          if saw_nan then some (.ok .nan, s) else some (.ok m, s)
    | .EFuncE => some (.ok fx.const_e, s)
    | .EFuncPi => some (.ok fx.const_pi, s)
termination_by structural fuel _ _ => fuel

/-- `Evaler for PrintFunc`: a leading format string containing a percent sign
yields `WrongArgs`; otherwise the items are evaluated in order and the last
numeric value (0 if none) is returned.  The text written to stderr is not
modelled. -/
def eval_print {σ : Type} (fx : Foreign) (ps : ParseSlab) (ns : Ns σ) :
    Nat → PrintFunc → σ → Option (Except Error F × σ)
  | 0, _, _ => none
  | fuel + 1, pf, s =>
    let printf_mode : Bool :=
      match pf.args.head? with
      | some (.EStr fmtstr) => fmtstr.contains '%'
      | _ => false
    if printf_mode then
      some (.error (.WrongArgs "printf formatting is not yet implemented"), s)
    else print_loop fx ps ns fuel pf.args (.num 0) s
termination_by structural fuel _ _ => fuel

/-- The item loop of `PrintFunc::eval`. -/
def print_loop {σ : Type} (fx : Foreign) (ps : ParseSlab) (ns : Ns σ) :
    Nat → List ExpressionOrString → F → σ → Option (Except Error F × σ)
  | 0, _, _, _ => none
  | fuel + 1, items, val, s =>
    match items with
    | [] => some (.ok val, s)
    | .EExpr ei :: rest =>
      match eval_expr_ast fx ps ns fuel (get_expr ps ei) s with
      | none => none
      | some (.error err, s) => some (.error err, s)
      | some (.ok v, s) => print_loop fx ps ns fuel rest v s
    | .EStr _ :: rest => print_loop fx ps ns fuel rest val s
termination_by structural fuel _ _ _ => fuel

/-- `Evaler for Instruction` (compiled mode). -/
def eval_instr {σ : Type} (fx : Foreign) (ps : ParseSlab) (cs : CompileSlab)
    (ns : Ns σ) : Nat → Instruction → σ → Option (Except Error F × σ)
  | 0, _, _ => none
  | fuel + 1, instr, s =>
    match instr with
    | .IMul li ric =>
      match eval_instr fx ps cs ns fuel (get_instr cs li) s with
      | none => none
      | some (.error err, s) => some (.error err, s)
      | some (.ok l, s) =>
        match eval_ic fx ps cs ns fuel ric s with
        | none => none
        | some (.error err, s) => some (.error err, s)
        | some (.ok r, s) => some (.ok (fmul l r), s)
    | .IAdd li ric =>
      match eval_instr fx ps cs ns fuel (get_instr cs li) s with
      | none => none
      | some (.error err, s) => some (.error err, s)
      | some (.ok l, s) =>
        match eval_ic fx ps cs ns fuel ric s with
        | none => none
        | some (.error err, s) => some (.error err, s)
        | some (.ok r, s) => some (.ok (fadd l r), s)
    | .IExp base power =>
      match eval_ic fx ps cs ns fuel base s with
      | none => none
      | some (.error err, s) => some (.error err, s)
      | some (.ok b, s) =>
        match eval_ic fx ps cs ns fuel power s with
        | none => none
        | some (.error err, s) => some (.error err, s)
        | some (.ok p, s) => some (.ok (fx.powf b p), s)
    | .INeg i =>
      match eval_instr fx ps cs ns fuel (get_instr cs i) s with
      | none => none
      | some (.error err, s) => some (.error err, s)
      | some (.ok v, s) => some (.ok (fneg v), s)
    | .IInv i =>
      match eval_instr fx ps cs ns fuel (get_instr cs i) s with
      | none => none
      | some (.error err, s) => some (.error err, s)
      | some (.ok v, s) => some (.ok (fdiv (.num 1) v), s)
    | .IVar name => some (eval_var ns s name [])
    | .IFunc name ics =>
      match ifunc_args fx ps cs ns fuel ics [] s with
      | none => none
      | some (.error err, s) => some (.error err, s)
      | some (.ok args, s) => some (eval_var ns s name args)
    | .IFuncLog baseic ofic =>
      match eval_ic fx ps cs ns fuel baseic s with
      | none => none
      | some (.error err, s) => some (.error err, s)
      | some (.ok base, s) =>
        match eval_ic fx ps cs ns fuel ofic s with
        | none => none
        | some (.error err, s) => some (.error err, s)
        | some (.ok of, s) => some (.ok (logf fx base of), s)
    | .IFuncSin i =>
      match eval_instr fx ps cs ns fuel (get_instr cs i) s with
      | none => none
      | some (.error err, s) => some (.error err, s)
      | some (.ok v, s) => some (.ok (fx.sin v), s)
    | .IFuncCos i =>
      match eval_instr fx ps cs ns fuel (get_instr cs i) s with
      | none => none
      | some (.error err, s) => some (.error err, s)
      | some (.ok v, s) => some (.ok (fx.cos v), s)
    | .IFuncTan i =>
      match eval_instr fx ps cs ns fuel (get_instr cs i) s with
      | none => none
      | some (.error err, s) => some (.error err, s)
      | some (.ok v, s) => some (.ok (fx.tan v), s)
    | .IFuncASin i =>
      match eval_instr fx ps cs ns fuel (get_instr cs i) s with
      | none => none
      | some (.error err, s) => some (.error err, s)
      | some (.ok v, s) => some (.ok (fx.asin v), s)
    | .IFuncACos i =>
      match eval_instr fx ps cs ns fuel (get_instr cs i) s with
      | none => none
      | some (.error err, s) => some (.error err, s)
      | some (.ok v, s) => some (.ok (fx.acos v), s)
    | .IFuncATan i =>
      match eval_instr fx ps cs ns fuel (get_instr cs i) s with
      | none => none
      | some (.error err, s) => some (.error err, s)
      | some (.ok v, s) => some (.ok (fx.atan v), s)
    | .IFuncSinH i =>
      match eval_instr fx ps cs ns fuel (get_instr cs i) s with
      | none => none
      | some (.error err, s) => some (.error err, s)
      | some (.ok v, s) => some (.ok (fx.sinh v), s)
    | .IFuncCosH i =>
      match eval_instr fx ps cs ns fuel (get_instr cs i) s with
      | none => none
      | some (.error err, s) => some (.error err, s)
      | some (.ok v, s) => some (.ok (fx.cosh v), s)
    | .IFuncTanH i =>
      match eval_instr fx ps cs ns fuel (get_instr cs i) s with
      | none => none
      | some (.error err, s) => some (.error err, s)
      | some (.ok v, s) => some (.ok (fx.tanh v), s)
    | .IFuncASinH i =>
      match eval_instr fx ps cs ns fuel (get_instr cs i) s with
      | none => none
      | some (.error err, s) => some (.error err, s)
      | some (.ok v, s) => some (.ok (fx.asinh v), s)
    | .IFuncACosH i =>
      match eval_instr fx ps cs ns fuel (get_instr cs i) s with
      | none => none
      | some (.error err, s) => some (.error err, s)
      | some (.ok v, s) => some (.ok (fx.acosh v), s)
    | .IFuncATanH i =>
      match eval_instr fx ps cs ns fuel (get_instr cs i) s with
      | none => none
      | some (.error err, s) => some (.error err, s)
      | some (.ok v, s) => some (.ok (fx.atanh v), s)
    | .IFuncRound modic ofic =>
      match eval_ic fx ps cs ns fuel modic s with
      | none => none
      | some (.error err, s) => some (.error err, s)
      | some (.ok modulus, s) =>
        match eval_ic fx ps cs ns fuel ofic s with
        | none => none
        | some (.error err, s) => some (.error err, s)
        | some (.ok of, s) => some (.ok (fmul (fround (fdiv of modulus)) modulus), s)
    | .IMod dividend divisor =>
      match eval_ic fx ps cs ns fuel dividend s with
      | none => none
      | some (.error err, s) => some (.error err, s)
      | some (.ok l, s) =>
        match eval_ic fx ps cs ns fuel divisor s with
        | none => none
        | some (.error err, s) => some (.error err, s)
        | some (.ok r, s) => some (.ok (fmod l r), s)
    | .IFuncAbs i =>
      match eval_instr fx ps cs ns fuel (get_instr cs i) s with
      | none => none
      | some (.error err, s) => some (.error err, s)
      | some (.ok v, s) => some (.ok (fabs v), s)
    | .IFuncSign i =>
      match eval_instr fx ps cs ns fuel (get_instr cs i) s with
      | none => none
      | some (.error err, s) => some (.error err, s)
      | some (.ok v, s) => some (.ok (fsignum v), s)
    | .IFuncInt i =>
      match eval_instr fx ps cs ns fuel (get_instr cs i) s with
      | none => none
      | some (.error err, s) => some (.error err, s)
      | some (.ok v, s) => some (.ok (ftrunc v), s)
    | .IFuncCeil i =>
      match eval_instr fx ps cs ns fuel (get_instr cs i) s with
      | none => none
      | some (.error err, s) => some (.error err, s)
      | some (.ok v, s) => some (.ok (fceil v), s)
    | .IFuncFloor i =>
      match eval_instr fx ps cs ns fuel (get_instr cs i) s with
      | none => none
      | some (.error err, s) => some (.error err, s)
      | some (.ok v, s) => some (.ok (ffloor v), s)
    | .IFuncMin li ric =>
      match eval_instr fx ps cs ns fuel (get_instr cs li) s with
      | none => none
      | some (.error err, s) => some (.error err, s)
      | some (.ok left, s) =>
        match eval_ic fx ps cs ns fuel ric s with
        | none => none
        | some (.error err, s) => some (.error err, s)
        | some (.ok right, s) =>
          if left.isNan || right.isNan then some (.ok .nan, s)
          else if flt left right then some (.ok left, s)
          else some (.ok right, s)
    | .IFuncMax li ric =>
      match eval_instr fx ps cs ns fuel (get_instr cs li) s with
      | none => none
      | some (.error err, s) => some (.error err, s)
      | some (.ok left, s) =>
        match eval_ic fx ps cs ns fuel ric s with
        | none => none
        | some (.error err, s) => some (.error err, s)
        | some (.ok right, s) =>
          if left.isNan || right.isNan then some (.ok .nan, s)
          else if fgt left right then some (.ok left, s)
          else some (.ok right, s)
    | .IEQ l r =>
      match eval_ic fx ps cs ns fuel l s with
      | none => none
      | some (.error err, s) => some (.error err, s)
      | some (.ok lv, s) =>
        match eval_ic fx ps cs ns fuel r s with
        | none => none
        | some (.error err, s) => some (.error err, s)
        | some (.ok rv, s) => some (.ok (bool_to_f32 (f32_eq lv rv)), s)
    | .INE l r =>
      match eval_ic fx ps cs ns fuel l s with
      | none => none
      | some (.error err, s) => some (.error err, s)
      | some (.ok lv, s) =>
        match eval_ic fx ps cs ns fuel r s with
        | none => none
        | some (.error err, s) => some (.error err, s)
        | some (.ok rv, s) => some (.ok (bool_to_f32 (f32_ne lv rv)), s)
    | .ILT l r =>
      match eval_ic fx ps cs ns fuel l s with
      | none => none
      | some (.error err, s) => some (.error err, s)
      | some (.ok lv, s) =>
        match eval_ic fx ps cs ns fuel r s with
        | none => none
        | some (.error err, s) => some (.error err, s)
        | some (.ok rv, s) => some (.ok (bool_to_f32 (flt lv rv)), s)
    | .ILTE l r =>
      match eval_ic fx ps cs ns fuel l s with
      | none => none
      | some (.error err, s) => some (.error err, s)
      | some (.ok lv, s) =>
        match eval_ic fx ps cs ns fuel r s with
        | none => none
        | some (.error err, s) => some (.error err, s)
        | some (.ok rv, s) => some (.ok (bool_to_f32 (fle lv rv)), s)
    | .IGTE l r =>
      match eval_ic fx ps cs ns fuel l s with
      | none => none
      | some (.error err, s) => some (.error err, s)
      | some (.ok lv, s) =>
        match eval_ic fx ps cs ns fuel r s with
        | none => none
        | some (.error err, s) => some (.error err, s)
        | some (.ok rv, s) => some (.ok (bool_to_f32 (fge lv rv)), s)
    | .IGT l r =>
      match eval_ic fx ps cs ns fuel l s with
      | none => none
      | some (.error err, s) => some (.error err, s)
      | some (.ok lv, s) =>
        match eval_ic fx ps cs ns fuel r s with
        | none => none
        | some (.error err, s) => some (.error err, s)
        | some (.ok rv, s) => some (.ok (bool_to_f32 (fgt lv rv)), s)
    | .INot i =>
      match eval_instr fx ps cs ns fuel (get_instr cs i) s with
      | none => none
      | some (.error err, s) => some (.error err, s)
      | some (.ok v, s) => some (.ok (bool_to_f32 (f32_eq v (.num 0))), s)
    | .IAND lefti rightic =>
      match eval_instr fx ps cs ns fuel (get_instr cs lefti) s with
      | none => none
      | some (.error err, s) => some (.error err, s)
      | some (.ok left, s) =>
        if f32_eq left (.num 0) then some (.ok left, s)
        else eval_ic fx ps cs ns fuel rightic s
    | .IOR lefti rightic =>
      match eval_instr fx ps cs ns fuel (get_instr cs lefti) s with
      | none => none
      | some (.error err, s) => some (.error err, s)
      | some (.ok left, s) =>
        if f32_ne left (.num 0) then some (.ok left, s)
        else eval_ic fx ps cs ns fuel rightic s
    | .IPrintFunc pf => eval_print fx ps ns fuel pf s
    | .IConst c => some (.ok c, s)
termination_by structural fuel _ _ => fuel

/-- The `eval_ic_ref!` macro: inline constants short-circuit, handles are
dereferenced through the compile slab. -/
def eval_ic {σ : Type} (fx : Foreign) (ps : ParseSlab) (cs : CompileSlab)
    (ns : Ns σ) : Nat → IC → σ → Option (Except Error F × σ)
  | 0, _, _ => none
  | fuel + 1, ic, s =>
    match ic with
    | .C c => some (.ok c, s)
    | .I i => eval_instr fx ps cs ns fuel (get_instr cs i) s
termination_by structural fuel _ _ => fuel

/-- The argument-evaluation loop of the `IFunc` arm. -/
def ifunc_args {σ : Type} (fx : Foreign) (ps : ParseSlab) (cs : CompileSlab)
    (ns : Ns σ) : Nat → List IC → List F → σ → Option (Except Error (List F) × σ)
  | 0, _, _, _ => none
  | fuel + 1, ics, acc, s =>
    match ics with
    | [] => some (.ok acc, s)
    | ic :: rest =>
      match eval_ic fx ps cs ns fuel ic s with
      | none => none
      | some (.error err, s) => some (.error err, s)
      | some (.ok v, s) => ifunc_args fx ps cs ns fuel rest (acc ++ [v]) s
termination_by structural fuel _ _ _ => fuel

end

/-! ## Variable collection (`_var_names` / `var_names`) -/

/-- `BTreeSet::insert`, modelled on lists up to set membership. -/
def insert_name (dst : List String) (n : String) : List String :=
  if n ∈ dst then dst else dst ++ [n]

mutual

/-- `Expression::_var_names`. -/
def vn_expr (ps : ParseSlab) (cs : CompileSlab) :
    Nat → Expression → List String → Option (List String)
  | 0, _, _ => none
  | fuel + 1, e, dst =>
    match vn_value ps cs fuel e.first dst with
    | none => none
    | some dst => vn_pairs ps cs fuel e.pairs dst
termination_by structural fuel _ _ => fuel

/-- The pair loop of `Expression::_var_names`. -/
def vn_pairs (ps : ParseSlab) (cs : CompileSlab) :
    Nat → List ExprPair → List String → Option (List String)
  | 0, _, _ => none
  | fuel + 1, pairs, dst =>
    match pairs with
    | [] => some dst
    | p :: rest =>
      match vn_value ps cs fuel p.val dst with
      | none => none
      | some dst => vn_pairs ps cs fuel rest dst
termination_by structural fuel _ _ => fuel

/-- `Value::_var_names`. -/
def vn_value (ps : ParseSlab) (cs : CompileSlab) :
    Nat → Value → List String → Option (List String)
  | 0, _, _ => none
  | fuel + 1, v, dst =>
    match v with
    | .EConstant _ => some dst
    | .EUnaryOp u => vn_unary ps cs fuel u dst
    | .EStdFunc f => vn_stdfunc ps cs fuel f dst
    | .EPrintFunc pf => vn_print ps cs fuel pf dst
termination_by structural fuel _ _ => fuel

/-- `UnaryOp::_var_names`. -/
def vn_unary (ps : ParseSlab) (cs : CompileSlab) :
    Nat → UnaryOp → List String → Option (List String)
  | 0, _, _ => none
  | fuel + 1, u, dst =>
    match u with
    | .EPos vi => vn_value ps cs fuel (get_val ps vi) dst
    | .ENeg vi => vn_value ps cs fuel (get_val ps vi) dst
    | .ENot vi => vn_value ps cs fuel (get_val ps vi) dst
    | .EParentheses xi => vn_expr ps cs fuel (get_expr ps xi) dst
termination_by structural fuel _ _ => fuel

/-- The expression-list loops of `StdFunc::_var_names` (`EFunc` args and
`EFuncMin`/`EFuncMax` rest). -/
def vn_args (ps : ParseSlab) (cs : CompileSlab) :
    Nat → List ExpressionI → List String → Option (List String)
  | 0, _, _ => none
  | fuel + 1, xis, dst =>
    match xis with
    | [] => some dst
    | xi :: rest =>
      match vn_expr ps cs fuel (get_expr ps xi) dst with
      | none => none
      | some dst => vn_args ps cs fuel rest dst
termination_by structural fuel _ _ => fuel

/-- `StdFunc::_var_names`. -/
def vn_stdfunc (ps : ParseSlab) (cs : CompileSlab) :
    Nat → StdFunc → List String → Option (List String)
  | 0, _, _ => none
  | fuel + 1, f, dst =>
    match f with
    | .EVar s => some (insert_name dst s)
    | .EFunc name args => vn_args ps cs fuel args (insert_name dst name)
    | .EFuncInt xi => vn_expr ps cs fuel (get_expr ps xi) dst
    | .EFuncCeil xi => vn_expr ps cs fuel (get_expr ps xi) dst
    | .EFuncFloor xi => vn_expr ps cs fuel (get_expr ps xi) dst
    | .EFuncAbs xi => vn_expr ps cs fuel (get_expr ps xi) dst
    | .EFuncSign xi => vn_expr ps cs fuel (get_expr ps xi) dst
    | .EFuncSin xi => vn_expr ps cs fuel (get_expr ps xi) dst
    | .EFuncCos xi => vn_expr ps cs fuel (get_expr ps xi) dst
    | .EFuncTan xi => vn_expr ps cs fuel (get_expr ps xi) dst
    | .EFuncASin xi => vn_expr ps cs fuel (get_expr ps xi) dst
    | .EFuncACos xi => vn_expr ps cs fuel (get_expr ps xi) dst
    | .EFuncATan xi => vn_expr ps cs fuel (get_expr ps xi) dst
    | .EFuncSinH xi => vn_expr ps cs fuel (get_expr ps xi) dst
    | .EFuncCosH xi => vn_expr ps cs fuel (get_expr ps xi) dst
    | .EFuncTanH xi => vn_expr ps cs fuel (get_expr ps xi) dst
    | .EFuncASinH xi => vn_expr ps cs fuel (get_expr ps xi) dst
    | .EFuncACosH xi => vn_expr ps cs fuel (get_expr ps xi) dst
    | .EFuncATanH xi => vn_expr ps cs fuel (get_expr ps xi) dst
    | .EFuncE => some dst
    | .EFuncPi => some dst
    | .EFuncLog opt expr =>
      let step : Option (List String) :=
        match opt with
        | some xi => vn_expr ps cs fuel (get_expr ps xi) dst
        | none => some dst
      match step with
      | none => none
      | some dst => vn_expr ps cs fuel (get_expr ps expr) dst
    | .EFuncRound opt expr =>
      let step : Option (List String) :=
        match opt with
        | some xi => vn_expr ps cs fuel (get_expr ps xi) dst
        | none => some dst
      match step with
      | none => none
      | some dst => vn_expr ps cs fuel (get_expr ps expr) dst
    | .EFuncMin first rest =>
      match vn_expr ps cs fuel (get_expr ps first) dst with
      | none => none
      | some dst => vn_args ps cs fuel rest dst
    | .EFuncMax first rest =>
      match vn_expr ps cs fuel (get_expr ps first) dst with
      | none => none
      | some dst => vn_args ps cs fuel rest dst
termination_by structural fuel _ _ => fuel

/-- `PrintFunc::_var_names`. -/
def vn_print (ps : ParseSlab) (cs : CompileSlab) :
    Nat → PrintFunc → List String → Option (List String)
  | 0, _, _ => none
  | fuel + 1, pf, dst => vn_print_items ps cs fuel pf.args dst
termination_by structural fuel _ _ => fuel

/-- The item loop of `PrintFunc::_var_names`. -/
def vn_print_items (ps : ParseSlab) (cs : CompileSlab) :
    Nat → List ExpressionOrString → List String → Option (List String)
  | 0, _, _ => none
  | fuel + 1, items, dst =>
    match items with
    | [] => some dst
    | .EExpr xi :: rest =>
      match vn_expr ps cs fuel (get_expr ps xi) dst with
      | none => none
      | some dst => vn_print_items ps cs fuel rest dst
    | .EStr _ :: rest => vn_print_items ps cs fuel rest dst
termination_by structural fuel _ _ => fuel

/-- The `ic_to_instr!`-then-`_var_names` step of `Instruction::_var_names`:
an inline constant contributes nothing. -/
def vn_ic (ps : ParseSlab) (cs : CompileSlab) :
    Nat → IC → List String → Option (List String)
  | 0, _, _ => none
  | fuel + 1, ic, dst =>
    match ic with
    | .C _ => some dst
    | .I i => vn_instr ps cs fuel (get_instr cs i) dst
termination_by structural fuel _ _ => fuel

/-- `Instruction::_var_names`. -/
def vn_instr (ps : ParseSlab) (cs : CompileSlab) :
    Nat → Instruction → List String → Option (List String)
  | 0, _, _ => none
  | fuel + 1, instr, dst =>
    match instr with
    | .IVar s => some (insert_name dst s)
    | .IFunc name args => vn_ics ps cs fuel args (insert_name dst name)
    | .IConst _ => some dst
    | .INeg ii => vn_instr ps cs fuel (get_instr cs ii) dst
    | .INot ii => vn_instr ps cs fuel (get_instr cs ii) dst
    | .IInv ii => vn_instr ps cs fuel (get_instr cs ii) dst
    | .IFuncInt ii => vn_instr ps cs fuel (get_instr cs ii) dst
    | .IFuncCeil ii => vn_instr ps cs fuel (get_instr cs ii) dst
    | .IFuncFloor ii => vn_instr ps cs fuel (get_instr cs ii) dst
    | .IFuncAbs ii => vn_instr ps cs fuel (get_instr cs ii) dst
    | .IFuncSign ii => vn_instr ps cs fuel (get_instr cs ii) dst
    | .IFuncSin ii => vn_instr ps cs fuel (get_instr cs ii) dst
    | .IFuncCos ii => vn_instr ps cs fuel (get_instr cs ii) dst
    | .IFuncTan ii => vn_instr ps cs fuel (get_instr cs ii) dst
    | .IFuncASin ii => vn_instr ps cs fuel (get_instr cs ii) dst
    | .IFuncACos ii => vn_instr ps cs fuel (get_instr cs ii) dst
    | .IFuncATan ii => vn_instr ps cs fuel (get_instr cs ii) dst
    | .IFuncSinH ii => vn_instr ps cs fuel (get_instr cs ii) dst
    | .IFuncCosH ii => vn_instr ps cs fuel (get_instr cs ii) dst
    | .IFuncTanH ii => vn_instr ps cs fuel (get_instr cs ii) dst
    | .IFuncASinH ii => vn_instr ps cs fuel (get_instr cs ii) dst
    | .IFuncACosH ii => vn_instr ps cs fuel (get_instr cs ii) dst
    | .IFuncATanH ii => vn_instr ps cs fuel (get_instr cs ii) dst
    | .ILT lic ric =>
      match vn_ic ps cs fuel lic dst with
      | none => none
      | some dst => vn_ic ps cs fuel ric dst
    | .ILTE lic ric =>
      match vn_ic ps cs fuel lic dst with
      | none => none
      | some dst => vn_ic ps cs fuel ric dst
    | .IEQ lic ric =>
      match vn_ic ps cs fuel lic dst with
      | none => none
      | some dst => vn_ic ps cs fuel ric dst
    | .INE lic ric =>
      match vn_ic ps cs fuel lic dst with
      | none => none
      | some dst => vn_ic ps cs fuel ric dst
    | .IGTE lic ric =>
      match vn_ic ps cs fuel lic dst with
      | none => none
      | some dst => vn_ic ps cs fuel ric dst
    | .IGT lic ric =>
      match vn_ic ps cs fuel lic dst with
      | none => none
      | some dst => vn_ic ps cs fuel ric dst
    | .IMod lic ric =>
      match vn_ic ps cs fuel lic dst with
      | none => none
      | some dst => vn_ic ps cs fuel ric dst
    | .IExp lic ric =>
      match vn_ic ps cs fuel lic dst with
      | none => none
      | some dst => vn_ic ps cs fuel ric dst
    | .IFuncLog lic ric =>
      match vn_ic ps cs fuel lic dst with
      | none => none
      | some dst => vn_ic ps cs fuel ric dst
    | .IFuncRound lic ric =>
      match vn_ic ps cs fuel lic dst with
      | none => none
      | some dst => vn_ic ps cs fuel ric dst
    | .IAdd li ric =>
      match vn_instr ps cs fuel (get_instr cs li) dst with
      | none => none
      | some dst => vn_ic ps cs fuel ric dst
    | .IMul li ric =>
      match vn_instr ps cs fuel (get_instr cs li) dst with
      | none => none
      | some dst => vn_ic ps cs fuel ric dst
    | .IOR li ric =>
      match vn_instr ps cs fuel (get_instr cs li) dst with
      | none => none
      | some dst => vn_ic ps cs fuel ric dst
    | .IAND li ric =>
      match vn_instr ps cs fuel (get_instr cs li) dst with
      | none => none
      | some dst => vn_ic ps cs fuel ric dst
    | .IFuncMin li ric =>
      match vn_instr ps cs fuel (get_instr cs li) dst with
      | none => none
      | some dst => vn_ic ps cs fuel ric dst
    | .IFuncMax li ric =>
      match vn_instr ps cs fuel (get_instr cs li) dst with
      | none => none
      | some dst => vn_ic ps cs fuel ric dst
    | .IPrintFunc pf => vn_print ps cs fuel pf dst
termination_by structural fuel _ _ => fuel

/-- The IC loop of the `IFunc` arm of `Instruction::_var_names`. -/
def vn_ics (ps : ParseSlab) (cs : CompileSlab) :
    Nat → List IC → List String → Option (List String)
  | 0, _, _ => none
  | fuel + 1, ics, dst =>
    match ics with
    | [] => some dst
    | ic :: rest =>
      match vn_ic ps cs fuel ic dst with
      | none => none
      | some dst => vn_ics ps cs fuel rest dst
termination_by structural fuel _ _ => fuel

end

/-- `Evaler::var_names` for a parsed expression: walk with an empty set. -/
def var_names_expr (ps : ParseSlab) (fuel : Nat) (e : Expression) :
    Option (List String) :=
  vn_expr ps [] fuel e []

/-- `Evaler::var_names` for a compiled instruction. -/
def var_names_instr (ps : ParseSlab) (cs : CompileSlab) (fuel : Nat)
    (instr : Instruction) : Option (List String) :=
  vn_instr ps cs fuel instr []

mutual

/-- Modelled from the spec: the set of identifiers that appear as a `Var` or
`Func` name anywhere in the tree (including short-circuit branches),
collected by an independent structural walk.  Used as the specification side
for the variable-collection claim. -/
def an_expr (ps : ParseSlab) : Nat → Expression → Option (List String)
  | 0, _ => none
  | fuel + 1, e =>
    match an_value ps fuel e.first with
    | none => none
    | some l =>
      match an_pairs ps fuel e.pairs with
      | none => none
      | some l' => some (l ++ l')
termination_by structural fuel _ => fuel

/-- Modelled from the spec: names in the pair list. -/
def an_pairs (ps : ParseSlab) : Nat → List ExprPair → Option (List String)
  | 0, _ => none
  | fuel + 1, pairs =>
    match pairs with
    | [] => some []
    | p :: rest =>
      match an_value ps fuel p.val with
      | none => none
      | some l =>
        match an_pairs ps fuel rest with
        | none => none
        | some l' => some (l ++ l')
termination_by structural fuel _ => fuel

/-- Modelled from the spec: names in a value. -/
def an_value (ps : ParseSlab) : Nat → Value → Option (List String)
  | 0, _ => none
  | fuel + 1, v =>
    match v with
    | .EConstant _ => some []
    | .EUnaryOp u => an_unary ps fuel u
    | .EStdFunc f => an_stdfunc ps fuel f
    | .EPrintFunc pf => an_print ps fuel pf
termination_by structural fuel _ => fuel

/-- Modelled from the spec: names under a unary operator. -/
def an_unary (ps : ParseSlab) : Nat → UnaryOp → Option (List String)
  | 0, _ => none
  | fuel + 1, u =>
    match u with
    | .EPos vi => an_value ps fuel (get_val ps vi)
    | .ENeg vi => an_value ps fuel (get_val ps vi)
    | .ENot vi => an_value ps fuel (get_val ps vi)
    | .EParentheses xi => an_expr ps fuel (get_expr ps xi)
termination_by structural fuel _ => fuel

/-- Modelled from the spec: names in a list of argument expressions. -/
def an_args (ps : ParseSlab) : Nat → List ExpressionI → Option (List String)
  | 0, _ => none
  | fuel + 1, xis =>
    match xis with
    | [] => some []
    | xi :: rest =>
      match an_expr ps fuel (get_expr ps xi) with
      | none => none
      | some l =>
        match an_args ps fuel rest with
        | none => none
        | some l' => some (l ++ l')
termination_by structural fuel _ => fuel

/-- Modelled from the spec: names in a standard function: a `Var` or `Func`
contributes its own name, every argument expression is searched. -/
def an_stdfunc (ps : ParseSlab) : Nat → StdFunc → Option (List String)
  | 0, _ => none
  | fuel + 1, f =>
    match f with
    | .EVar s => some [s]
    | .EFunc name args =>
      match an_args ps fuel args with
      | none => none
      | some l => some (name :: l)
    | .EFuncInt xi => an_expr ps fuel (get_expr ps xi)
    | .EFuncCeil xi => an_expr ps fuel (get_expr ps xi)
    | .EFuncFloor xi => an_expr ps fuel (get_expr ps xi)
    | .EFuncAbs xi => an_expr ps fuel (get_expr ps xi)
    | .EFuncSign xi => an_expr ps fuel (get_expr ps xi)
    | .EFuncSin xi => an_expr ps fuel (get_expr ps xi)
    | .EFuncCos xi => an_expr ps fuel (get_expr ps xi)
    | .EFuncTan xi => an_expr ps fuel (get_expr ps xi)
    | .EFuncASin xi => an_expr ps fuel (get_expr ps xi)
    | .EFuncACos xi => an_expr ps fuel (get_expr ps xi)
    | .EFuncATan xi => an_expr ps fuel (get_expr ps xi)
    | .EFuncSinH xi => an_expr ps fuel (get_expr ps xi)
    | .EFuncCosH xi => an_expr ps fuel (get_expr ps xi)
    | .EFuncTanH xi => an_expr ps fuel (get_expr ps xi)
    | .EFuncASinH xi => an_expr ps fuel (get_expr ps xi)
    | .EFuncACosH xi => an_expr ps fuel (get_expr ps xi)
    | .EFuncATanH xi => an_expr ps fuel (get_expr ps xi)
    | .EFuncE => some []
    | .EFuncPi => some []
    | .EFuncLog opt expr =>
      let step : Option (List String) :=
        match opt with
        | some xi => an_expr ps fuel (get_expr ps xi)
        | none => some []
      match step with
      | none => none
      | some l =>
        match an_expr ps fuel (get_expr ps expr) with
        | none => none
        | some l' => some (l ++ l')
    | .EFuncRound opt expr =>
      let step : Option (List String) :=
        match opt with
        | some xi => an_expr ps fuel (get_expr ps xi)
        | none => some []
      match step with
      | none => none
      | some l =>
        match an_expr ps fuel (get_expr ps expr) with
        | none => none
        | some l' => some (l ++ l')
    | .EFuncMin first rest =>
      match an_expr ps fuel (get_expr ps first) with
      | none => none
      | some l =>
        match an_args ps fuel rest with
        | none => none
        | some l' => some (l ++ l')
    | .EFuncMax first rest =>
      match an_expr ps fuel (get_expr ps first) with
      | none => none
      | some l =>
        match an_args ps fuel rest with
        | none => none
        | some l' => some (l ++ l')
termination_by structural fuel _ => fuel

/-- Modelled from the spec: names in a print call. -/
def an_print (ps : ParseSlab) : Nat → PrintFunc → Option (List String)
  | 0, _ => none
  | fuel + 1, pf => an_print_items ps fuel pf.args
termination_by structural fuel _ => fuel

/-- Modelled from the spec: names in print items. -/
def an_print_items (ps : ParseSlab) : Nat → List ExpressionOrString → Option (List String)
  | 0, _ => none
  | fuel + 1, items =>
    match items with
    | [] => some []
    | .EExpr xi :: rest =>
      match an_expr ps fuel (get_expr ps xi) with
      | none => none
      | some l =>
        match an_print_items ps fuel rest with
        | none => none
        | some l' => some (l ++ l')
    | .EStr _ :: rest => an_print_items ps fuel rest
termination_by structural fuel _ => fuel

end

/-! ## Parser (parser.rs).  Input is the byte string (`&[u8]`). -/

abbrev Bytes := List UInt8

/-- The `is_space!` macro: space, newline, tab, carriage return. -/
def is_space (b : UInt8) : Bool :=
  b.toNat = 32 || b.toNat = 10 || b.toNat = 9 || b.toNat = 13

/-- The `spaces!` macro: skip leading whitespace. -/
def spaces (bs : Bytes) : Bytes := bs.dropWhile is_space

/-- `Parser::is_varname_byte`. -/
def is_varname_byte (b : UInt8) (i : Nat) : Bool :=
  (65 ≤ b.toNat && b.toNat ≤ 90) || (97 ≤ b.toNat && b.toNat ≤ 122) ||
  b.toNat = 95 || (decide (i > 0) && (48 ≤ b.toNat && b.toNat ≤ 57))

/-- Decode bytes as characters one-to-one (used for ASCII tokens, exactly the
`from_utf8_unchecked` calls of the source, which are only applied to ASCII
token bytes). -/
def bytes_to_str (bs : Bytes) : String :=
  String.mk (bs.map (fun b => Char.ofNat b.toNat))

/-- `str::from_utf8`, modelled for the ASCII plane: non-ASCII bytes are
rejected (the source accepts any valid UTF-8 here; this only affects the
text carried inside `Utf8ErrorWhileParsing`/`UnparsedTokensRemaining`
payloads and quoted print strings, never which constructor is produced for
ASCII input). -/
def utf8_decode (bs : Bytes) : Option String :=
  if bs.all (fun b => b.toNat < 128) then some (bytes_to_str bs) else none

/-- Length of the leading varname token. -/
def varname_len : Bytes → Nat → Nat
  | [], _ => 0
  | b :: rest, i => if is_varname_byte b i then varname_len rest (i + 1) + 1 else 0

/-- `Parser::read_varname`: `none` is the `Pass` token. -/
def read_varname (bs : Bytes) : Option String × Bytes :=
  let bs := spaces bs
  let toklen := varname_len bs 0
  if toklen = 0 then (none, bs)
  else (some (bytes_to_str (bs.take toklen)), bs.drop toklen)

/-- `Parser::read_open_parenthesis`: accepts `(` or `[`. -/
def read_open_parenthesis (bs : Bytes) : Option UInt8 × Bytes :=
  let bs := spaces bs
  match bs with
  | [] => (none, [])
  | b :: r =>
    if b.toNat = 40 || b.toNat = 91 then (some b, r) else (none, b :: r)

def is_digit_byte (b : UInt8) : Bool := 48 ≤ b.toNat && b.toNat ≤ 57

/-- The token-scanning loop of `Parser::read_const`.  Arguments are the
remaining bytes and the `sign_ok`/`specials_ok`/`suffix_ok`/`saw_val` flags;
the result is the token length from this point plus the final
`suffix_ok`/`saw_val` flags.  The NaN/inf branch is the `alpha-keywords`
build (enabled, as in the crate's test suite). -/
def const_scan : Bytes → Bool → Bool → Bool → Bool → Nat × Bool × Bool
  | [], _, _, suffix_ok, saw_val => (0, suffix_ok, saw_val)
  | b :: rest, sign_ok, specials_ok, suffix_ok, saw_val =>
    if is_digit_byte b || b.toNat = 46 then
      let (n, so, sv) := const_scan rest false false suffix_ok true
      (n + 1, so, sv)
    else if sign_ok && (b.toNat = 45 || b.toNat = 43) then
      let (n, so, sv) := const_scan rest false specials_ok suffix_ok saw_val
      (n + 1, so, sv)
    else if saw_val && (b.toNat = 101 || b.toNat = 69) then
      let (n, so, sv) := const_scan rest true specials_ok false saw_val
      (n + 1, so, sv)
    else if specials_ok &&
        (match rest with
         | b1 :: b2 :: _ =>
           (b.toNat = 78 && b1.toNat = 97 && b2.toNat = 78) ||
           (b.toNat = 105 && b1.toNat = 110 && b2.toNat = 102)
         | _ => false) then
      (3, false, true)
    else (0, suffix_ok, saw_val)

/-- `Parser::read_const`: scan a numeric token, apply an SI suffix by
appending `e<exp>`, then hand the text to the stdlib float parser. -/
def read_const (fx : Foreign) (bs0 : Bytes) : Except Error (Option F × Bytes) :=
  let bs := spaces bs0
  let (toklen, suffix_ok, saw_val) := const_scan bs true true true false
  if !saw_val then .ok (none, bs)
  else
    let tok := bytes_to_str (bs.take toklen)
    let (tok, toklen) :=
      if suffix_ok then
        match bs.drop toklen with
        | [] => (tok, toklen)
        | b :: brest =>
          let (exp, suffixlen) : Int × Nat :=
            if b.toNat = 107 || b.toNat = 75 then (3, 1)
            else if b.toNat = 77 then (6, 1)
            else if b.toNat = 71 then (9, 1)
            else if b.toNat = 84 then (12, 1)
            else if b.toNat = 109 then (-3, 1)
            else if b.toNat = 117 || b.toNat = 181 then (-6, 1)
            else if b.toNat = 194 &&
                (match brest with | b2 :: _ => b2.toNat = 181 | [] => false) then (-6, 2)
            else if b.toNat = 110 then (-9, 1)
            else if b.toNat = 112 then (-12, 1)
            else (0, 0)
          if exp ≠ 0 then (tok ++ "e" ++ toString exp, toklen + suffixlen)
          else (tok, toklen)
      else (tok, toklen)
    match fx.parse_f32 tok with
    | some v => .ok (some v, bs.drop toklen)
    | none => .error (.ParseF32 tok)

/-- `Parser::read_binaryop`: `none` is the `Pass` token (never an error). -/
def read_binaryop (bs0 : Bytes) : Option BinaryOp × Bytes :=
  let bs := spaces bs0
  match bs with
  | [] => (none, [])
  | b :: r =>
    if b.toNat = 43 then (some .EAdd, r)
    else if b.toNat = 45 then (some .ESub, r)
    else if b.toNat = 42 then (some .EMul, r)
    else if b.toNat = 47 then (some .EDiv, r)
    else if b.toNat = 37 then (some .EMod, r)
    else if b.toNat = 94 then (some .EExp, r)
    else if b.toNat = 60 then
      match r with
      | r1 :: r2 => if r1.toNat = 61 then (some .ELTE, r2) else (some .ELT, r1 :: r2)
      | [] => (some .ELT, [])
    else if b.toNat = 62 then
      match r with
      | r1 :: r2 => if r1.toNat = 61 then (some .EGTE, r2) else (some .EGT, r1 :: r2)
      | [] => (some .EGT, [])
    else if b.toNat = 61 then
      match r with
      | r1 :: r2 => if r1.toNat = 61 then (some .EEQ, r2) else (none, b :: r)
      | [] => (none, b :: r)
    else if b.toNat = 33 then
      match r with
      | r1 :: r2 => if r1.toNat = 61 then (some .ENE, r2) else (none, b :: r)
      | [] => (none, b :: r)
    else if b.toNat = 111 then
      match r with
      | r1 :: r2 => if r1.toNat = 114 then (some .EOR, r2) else (none, b :: r)
      | [] => (none, b :: r)
    else if b.toNat = 124 then
      match r with
      | r1 :: r2 => if r1.toNat = 124 then (some .EOR, r2) else (none, b :: r)
      | [] => (none, b :: r)
    else if b.toNat = 97 then
      match r with
      | r1 :: r2 :: r3 =>
        if r1.toNat = 110 && r2.toNat = 100 then (some .EAND, r3) else (none, b :: r)
      | _ => (none, b :: r)
    else if b.toNat = 38 then
      match r with
      | r1 :: r2 => if r1.toNat = 38 then (some .EAND, r2) else (none, b :: r)
      | [] => (none, b :: r)
    else (none, b :: r)

/-- `Parser::read_string`: `.ok (none, _)` is the `Pass` token. -/
def read_string (bs0 : Bytes) : Except Error (Option String × Bytes) :=
  let bs := spaces bs0
  match bs with
  | [] => .error (.EofWhileParsing "opening quote of string")
  | b :: r =>
    if b.toNat ≠ 34 then .ok (none, b :: r)
    else
      let content := r.takeWhile (fun c => c.toNat ≠ 34)
      let rest := r.drop content.length
      match utf8_decode content with
      | none => .error (.Utf8ErrorWhileParsing "string")
      | some out =>
        match rest with
        | [] => .error (.EofWhileParsing "string")
        | c :: r2 =>
          if c.toNat = 34 then .ok (some out, r2) else .error .Unreachable

/-- The parser configuration (`pub struct Parser`). -/
structure Parser where
  expr_len_limit : Nat
  expr_depth_limit : Nat

def DEFAULT_EXPR_LEN_LIMIT : Nat := 4096
def DEFAULT_EXPR_DEPTH_LIMIT : Nat := 32

/-- `Parser::new`. -/
def Parser.new : Parser := ⟨DEFAULT_EXPR_LEN_LIMIT, DEFAULT_EXPR_DEPTH_LIMIT⟩

mutual

/-- `Parser::read_expression`. -/
def read_expression (p : Parser) (fx : Foreign) :
    Nat → ParseSlab → Bytes → Nat → Bool →
    Option (Except Error (ExpressionI × ParseSlab × Bytes))
  | 0, _, _, _, _ => none
  | fuel + 1, ps, bs, depth, expect_eof =>
    if depth > p.expr_depth_limit then some (.error .TooDeep)
    else
      match read_value p fx fuel ps bs depth with
      | none => none
      | some (.error e) => some (.error e)
      | some (.ok (first, ps, bs)) =>
        match expr_pairs_loop p fx fuel ps bs depth [] with
        | none => none
        | some (.error e) => some (.error e)
        | some (.ok (pairs, ps, bs)) =>
          let bs := spaces bs
          if expect_eof && !bs.isEmpty then
            let bs_str :=
              match utf8_decode bs with
              | some str => str
              | none => "Utf8Error while handling UnparsedTokensRemaining error"
            some (.error (.UnparsedTokensRemaining bs_str))
          else
            match push_expr ps ⟨first, pairs⟩ with
            | .error e => some (.error e)
            | .ok (xi, ps) => some (.ok (xi, ps, bs))
termination_by structural fuel _ _ _ _ => fuel

/-- The binary-operator loop of `read_expression`. -/
def expr_pairs_loop (p : Parser) (fx : Foreign) :
    Nat → ParseSlab → Bytes → Nat → List ExprPair →
    Option (Except Error (List ExprPair × ParseSlab × Bytes))
  | 0, _, _, _, _ => none
  | fuel + 1, ps, bs, depth, acc =>
    match read_binaryop bs with
    | (none, bs) => some (.ok (acc, ps, bs))
    | (some bop, bs) =>
      match read_value p fx fuel ps bs depth with
      | none => none
      | some (.error e) => some (.error e)
      | some (.ok (val, ps, bs)) =>
        expr_pairs_loop p fx fuel ps bs depth (acc ++ [⟨bop, val⟩])
termination_by structural fuel _ _ _ _ => fuel

/-- `Parser::read_value`. -/
def read_value (p : Parser) (fx : Foreign) :
    Nat → ParseSlab → Bytes → Nat →
    Option (Except Error (Value × ParseSlab × Bytes))
  | 0, _, _, _ => none
  | fuel + 1, ps, bs, depth =>
    if depth > p.expr_depth_limit then some (.error .TooDeep)
    else
      match read_const fx bs with
      | .error e => some (.error e)
      | .ok (some c, bs) => some (.ok (.EConstant c, ps, bs))
      | .ok (none, bs) =>
        match read_unaryop p fx fuel ps bs depth with
        | none => none
        | some (.error e) => some (.error e)
        | some (.ok (some u, ps, bs)) => some (.ok (.EUnaryOp u, ps, bs))
        | some (.ok (none, ps, bs)) =>
          match read_callable p fx fuel ps bs depth with
          | none => none
          | some (.error e) => some (.error e)
          | some (.ok (some v, ps, bs)) => some (.ok (v, ps, bs))
          | some (.ok (none, _ps, bs)) =>
            if bs.isEmpty then some (.error (.EofWhileParsing "value"))
            else some (.error .InvalidValue)
termination_by structural fuel _ _ _ => fuel

/-- `Parser::read_unaryop`: `.ok (none, ..)` is the `Pass` token. -/
def read_unaryop (p : Parser) (fx : Foreign) :
    Nat → ParseSlab → Bytes → Nat →
    Option (Except Error (Option UnaryOp × ParseSlab × Bytes))
  | 0, _, _, _ => none
  | fuel + 1, ps, bs, depth =>
    let bs := spaces bs
    match bs with
    | [] => some (.ok (none, ps, []))
    | b :: r =>
      if b.toNat = 43 then
        match read_value p fx fuel ps r (depth + 1) with
        | none => none
        | some (.error e) => some (.error e)
        | some (.ok (v, ps, bs)) =>
          match push_val ps v with
          | .error e => some (.error e)
          | .ok (vi, ps) => some (.ok (some (.EPos vi), ps, bs))
      else if b.toNat = 45 then
        match read_value p fx fuel ps r (depth + 1) with
        | none => none
        | some (.error e) => some (.error e)
        | some (.ok (v, ps, bs)) =>
          match push_val ps v with
          | .error e => some (.error e)
          | .ok (vi, ps) => some (.ok (some (.ENeg vi), ps, bs))
      else if b.toNat = 40 then
        match read_expression p fx fuel ps r (depth + 1) false with
        | none => none
        | some (.error e) => some (.error e)
        | some (.ok (xi, ps, bs)) =>
          let bs := spaces bs
          match bs with
          | [] => some (.error (.EofWhileParsing "parentheses"))
          | c :: r2 =>
            if c.toNat ≠ 41 then some (.error (.Expected ")"))
            else some (.ok (some (.EParentheses xi), ps, r2))
      else if b.toNat = 91 then
        match read_expression p fx fuel ps r (depth + 1) false with
        | none => none
        | some (.error e) => some (.error e)
        | some (.ok (xi, ps, bs)) =>
          let bs := spaces bs
          match bs with
          | [] => some (.error (.EofWhileParsing "square brackets"))
          | c :: r2 =>
            if c.toNat ≠ 93 then some (.error (.Expected "]"))
            else some (.ok (some (.EParentheses xi), ps, r2))
      else if b.toNat = 33 then
        match read_value p fx fuel ps r (depth + 1) with
        | none => none
        | some (.error e) => some (.error e)
        | some (.ok (v, ps, bs)) =>
          match push_val ps v with
          | .error e => some (.error e)
          | .ok (vi, ps) => some (.ok (some (.ENot vi), ps, bs))
      else some (.ok (none, ps, b :: r))
termination_by structural fuel _ _ _ => fuel

/-- `Parser::read_callable`: `.ok (none, ..)` is the `Pass` token. -/
def read_callable (p : Parser) (fx : Foreign) :
    Nat → ParseSlab → Bytes → Nat →
    Option (Except Error (Option Value × ParseSlab × Bytes))
  | 0, _, _, _ => none
  | fuel + 1, ps, bs, depth =>
    match read_varname bs with
    | (none, bs) => some (.ok (none, ps, bs))
    | (some varname, bs) =>
      match read_open_parenthesis bs with
      | (none, bs) => some (.ok (some (.EStdFunc (.EVar varname)), ps, bs))
      | (some open_parenth, bs) =>
        if varname = "print" then
          match read_printfunc p fx fuel ps bs depth open_parenth with
          | none => none
          | some (.error e) => some (.error e)
          | some (.ok (pf, ps, bs)) => some (.ok (some (.EPrintFunc pf), ps, bs))
        else
          match read_func p fx fuel varname ps bs depth open_parenth with
          | none => none
          | some (.error e) => some (.error e)
          | some (.ok (f, ps, bs)) => some (.ok (some (.EStdFunc f), ps, bs))
termination_by structural fuel _ _ _ => fuel

/-- The argument loop of `Parser::read_func`. -/
def func_args_loop (p : Parser) (fx : Foreign) (fname : String) (close_parenth : Nat) :
    Nat → ParseSlab → Bytes → Nat → List ExpressionI →
    Option (Except Error (List ExpressionI × ParseSlab × Bytes))
  | 0, _, _, _, _ => none
  | fuel + 1, ps, bs, depth, args =>
    let bs := spaces bs
    match bs with
    | [] => some (.error (.EofWhileParsing fname))
    | b :: r =>
      if b.toNat = close_parenth then some (.ok (args, ps, r))
      else
        let sep_step : Except Error Bytes :=
          if args.isEmpty then .ok (b :: r)
          else if b.toNat = 44 || b.toNat = 59 then .ok r
          else .error (.Expected "',' or ';'")
        match sep_step with
        | .error e => some (.error e)
        | .ok bs =>
          match read_expression p fx fuel ps bs (depth + 1) false with
          | none => none
          | some (.error e) => some (.error e)
          | some (.ok (xi, ps, bs)) =>
            func_args_loop p fx fname close_parenth fuel ps bs depth (args ++ [xi])
termination_by structural fuel _ _ _ _ => fuel

/-- `Parser::read_func`: read the argument list, then resolve the name
against the builtins (with their exact `WrongArgs` messages) or fall back to
a user `EFunc`. -/
def read_func (p : Parser) (fx : Foreign) :
    Nat → String → ParseSlab → Bytes → Nat → UInt8 →
    Option (Except Error (StdFunc × ParseSlab × Bytes))
  | 0, _, _, _, _, _ => none
  | fuel + 1, fname, ps, bs, depth, open_parenth =>
    let close_step : Except Error Nat :=
      if open_parenth.toNat = 40 then .ok 41
      else if open_parenth.toNat = 91 then .ok 93
      else .error (.Expected "'(' or '['")
    match close_step with
    | .error e => some (.error e)
    | .ok close_parenth =>
      match func_args_loop p fx fname close_parenth fuel ps bs depth [] with
      | none => none
      | some (.error e) => some (.error e)
      | some (.ok (args, ps, bs)) =>
        let res : Except Error StdFunc :=
          if fname = "int" then
            match args with
            | [xi] => .ok (.EFuncInt xi)
            | _ => .error (.WrongArgs "int: expected one arg")
          else if fname = "ceil" then
            match args with
            | [xi] => .ok (.EFuncCeil xi)
            | _ => .error (.WrongArgs "ceil: expected one arg")
          else if fname = "floor" then
            match args with
            | [xi] => .ok (.EFuncFloor xi)
            | _ => .error (.WrongArgs "floor: expected one arg")
          else if fname = "abs" then
            match args with
            | [xi] => .ok (.EFuncAbs xi)
            | _ => .error (.WrongArgs "abs: expected one arg")
          else if fname = "sign" then
            match args with
            | [xi] => .ok (.EFuncSign xi)
            | _ => .error (.WrongArgs "sign: expected one arg")
          else if fname = "log" then
            match args with
            | [xi] => .ok (.EFuncLog none xi)
            | [bi, xi] => .ok (.EFuncLog (some bi) xi)
            | _ => .error (.WrongArgs "expected log(x) or log(base,x)")
          else if fname = "round" then
            match args with
            | [xi] => .ok (.EFuncRound none xi)
            | [mi, xi] => .ok (.EFuncRound (some mi) xi)
            | _ => .error (.WrongArgs "round: expected round(x) or round(modulus,x)")
          else if fname = "min" then
            match args with
            | [] => .error (.WrongArgs "min: expected one or more args")
            | first :: rest => .ok (.EFuncMin first rest)
          else if fname = "max" then
            match args with
            | [] => .error (.WrongArgs "max: expected one or more args")
            | first :: rest => .ok (.EFuncMax first rest)
          else if fname = "e" then
            match args with
            | [] => .ok .EFuncE
            | _ => .error (.WrongArgs "e: expected no args")
          else if fname = "pi" then
            match args with
            | [] => .ok .EFuncPi
            | _ => .error (.WrongArgs "pi: expected no args")
          else if fname = "sin" then
            match args with
            | [xi] => .ok (.EFuncSin xi)
            | _ => .error (.WrongArgs "sin: expected one arg")
          else if fname = "cos" then
            match args with
            | [xi] => .ok (.EFuncCos xi)
            | _ => .error (.WrongArgs "cos: expected one arg")
          else if fname = "tan" then
            match args with
            | [xi] => .ok (.EFuncTan xi)
            | _ => .error (.WrongArgs "tan: expected one arg")
          else if fname = "asin" then
            match args with
            | [xi] => .ok (.EFuncASin xi)
            | _ => .error (.WrongArgs "asin: expected one arg")
          else if fname = "acos" then
            match args with
            | [xi] => .ok (.EFuncACos xi)
            | _ => .error (.WrongArgs "acos: expected one arg")
          else if fname = "atan" then
            match args with
            | [xi] => .ok (.EFuncATan xi)
            | _ => .error (.WrongArgs "atan: expected one arg")
          else if fname = "sinh" then
            match args with
            | [xi] => .ok (.EFuncSinH xi)
            | _ => .error (.WrongArgs "sinh: expected one arg")
          else if fname = "cosh" then
            match args with
            | [xi] => .ok (.EFuncCosH xi)
            | _ => .error (.WrongArgs "cosh: expected one arg")
          else if fname = "tanh" then
            match args with
            | [xi] => .ok (.EFuncTanH xi)
            | _ => .error (.WrongArgs "tanh: expected one arg")
          else if fname = "asinh" then
            match args with
            | [xi] => .ok (.EFuncASinH xi)
            | _ => .error (.WrongArgs "asinh: expected one arg")
          else if fname = "acosh" then
            match args with
            | [xi] => .ok (.EFuncACosH xi)
            | _ => .error (.WrongArgs "acosh: expected one arg")
          else if fname = "atanh" then
            match args with
            | [xi] => .ok (.EFuncATanH xi)
            | _ => .error (.WrongArgs "atanh: expected one arg")
          else .ok (.EFunc fname args)
        match res with
        | .error e => some (.error e)
        | .ok f => some (.ok (f, ps, bs))
termination_by structural fuel _ _ _ _ _ => fuel

/-- The argument loop of `Parser::read_printfunc`. -/
def print_args_loop (p : Parser) (fx : Foreign) (close_parenth : Nat) :
    Nat → ParseSlab → Bytes → Nat → List ExpressionOrString →
    Option (Except Error (List ExpressionOrString × ParseSlab × Bytes))
  | 0, _, _, _, _ => none
  | fuel + 1, ps, bs, depth, args =>
    let bs := spaces bs
    match bs with
    | [] => some (.error (.EofWhileParsing "print"))
    | b :: r =>
      if b.toNat = close_parenth then some (.ok (args, ps, r))
      else
        let sep_step : Except Error Bytes :=
          if args.isEmpty then .ok (b :: r)
          else if b.toNat = 44 || b.toNat = 59 then .ok r
          else .error (.Expected "',' or ';'")
        match sep_step with
        | .error e => some (.error e)
        | .ok bs =>
          match read_expressionorstring p fx fuel ps bs (depth + 1) with
          | none => none
          | some (.error e) => some (.error e)
          | some (.ok (a, ps, bs)) =>
            print_args_loop p fx close_parenth fuel ps bs depth (args ++ [a])
termination_by structural fuel _ _ _ _ => fuel

/-- `Parser::read_printfunc`. -/
def read_printfunc (p : Parser) (fx : Foreign) :
    Nat → ParseSlab → Bytes → Nat → UInt8 →
    Option (Except Error (PrintFunc × ParseSlab × Bytes))
  | 0, _, _, _, _ => none
  | fuel + 1, ps, bs, depth, open_parenth =>
    let close_step : Except Error Nat :=
      if open_parenth.toNat = 40 then .ok 41
      else if open_parenth.toNat = 91 then .ok 93
      else .error (.Expected "'(' or '['")
    match close_step with
    | .error e => some (.error e)
    | .ok close_parenth =>
      match print_args_loop p fx close_parenth fuel ps bs depth [] with
      | none => none
      | some (.error e) => some (.error e)
      | some (.ok (args, ps, bs)) => some (.ok (⟨args⟩, ps, bs))
termination_by structural fuel _ _ _ _ => fuel

/-- `Parser::read_expressionorstring`. -/
def read_expressionorstring (p : Parser) (fx : Foreign) :
    Nat → ParseSlab → Bytes → Nat →
    Option (Except Error (ExpressionOrString × ParseSlab × Bytes))
  | 0, _, _, _ => none
  | fuel + 1, ps, bs, depth =>
    match read_string bs with
    | .error e => some (.error e)
    | .ok (some str, bs) => some (.ok (.EStr str, ps, bs))
    | .ok (none, bs) =>
      match read_expression p fx fuel ps bs (depth + 1) false with
      | none => none
      | some (.error e) => some (.error e)
      | some (.ok (xi, ps, bs)) => some (.ok (.EExpr xi, ps, bs))
termination_by structural fuel _ _ _ => fuel

end

/-- `Parser::parse_noclear` on an (empty) slab: the length limit is checked
before anything else. -/
def parse_noclear (p : Parser) (fx : Foreign) (fuel : Nat) (ps : ParseSlab)
    (bs : Bytes) : Option (Except Error (ExpressionI × ParseSlab)) :=
  if bs.length > p.expr_len_limit then some (.error .TooLong)
  else
    match read_expression p fx fuel ps bs 0 true with
    | none => none
    | some (.error e) => some (.error e)
    | some (.ok (xi, ps, _)) => some (.ok (xi, ps))

/-- `Parser::parse`: the slab is cleared first, so parsing always starts
from the empty slab. -/
def Parser.parse (p : Parser) (fx : Foreign) (fuel : Nat) (bs : Bytes) :
    Option (Except Error (ExpressionI × ParseSlab)) :=
  parse_noclear p fx fuel ParseSlab.empty bs

/-! ## Concrete fixtures used by the claim theorems -/

/-- `EmptyNamespace` (evalns.rs): lookup always returns `None`. -/
def empty_ns : Ns Unit := fun s _ _ => (none, s)

/-- A counting namespace: returns 1 for every lookup and counts how many
times the name "f" was looked up (the "counting namespace" of the spec's
short-circuit property). -/
def counting_ns : Ns Nat := fun s name _ =>
  (some (.num 1), if name = "f" then s + 1 else s)

/-- A pure namespace with x = 1 and y = NaN. -/
def ns_x1_ynan : Ns Unit := fun s name _ =>
  (if name = "x" then some (.num 1) else if name = "y" then some F.nan else none, s)

/-- A pure namespace with n = NaN. -/
def ns_n_nan : Ns Unit := fun s name _ =>
  (if name = "n" then some F.nan else none, s)

/-- A junk foreign-function record for concrete test inputs whose evaluation
never reaches a transcendental function; its float parser only knows the
literal "1". -/
def fx0 : Foreign where
  powf := fun _ _ => F.nan
  sin := fun _ => F.nan
  cos := fun _ => F.nan
  tan := fun _ => F.nan
  asin := fun _ => F.nan
  acos := fun _ => F.nan
  atan := fun _ => F.nan
  sinh := fun _ => F.nan
  cosh := fun _ => F.nan
  tanh := fun _ => F.nan
  asinh := fun _ => F.nan
  acosh := fun _ => F.nan
  atanh := fun _ => F.nan
  log2 := fun _ => F.nan
  log10 := fun _ => F.nan
  logb := fun _ _ => F.nan
  const_e := F.nan
  const_pi := F.nan
  parse_f32 := fun str => if str = "1" then some (.num 1) else none

/-- AST of `0 && f()`. -/
def e_and_f : Expression := ⟨.EConstant (.num 0), [⟨.EAND, .EStdFunc (.EFunc "f" [])⟩]⟩

/-- AST of `1 || f()`. -/
def e_or_f : Expression := ⟨.EConstant (.num 1), [⟨.EOR, .EStdFunc (.EFunc "f" [])⟩]⟩

/-- Parse slab holding the argument expressions `1` and `n`. -/
def ps_1n : ParseSlab := ⟨[⟨.EConstant (.num 1), []⟩, ⟨.EStdFunc (.EVar "n"), []⟩], []⟩

/-- AST of `min(1, n)` over `ps_1n`. -/
def e_min_1n : Expression := ⟨.EStdFunc (.EFuncMin 0 [1]), []⟩

/-- AST of `max(1, n)` over `ps_1n`. -/
def e_max_1n : Expression := ⟨.EStdFunc (.EFuncMax 0 [1]), []⟩

/-- Parse slab holding the constant argument expressions `1` and `NaN`. -/
def ps_1nan : ParseSlab := ⟨[⟨.EConstant (.num 1), []⟩, ⟨.EConstant .nan, []⟩], []⟩

/-- Parse slab holding the argument expressions `x` and `y`. -/
def ps_xy : ParseSlab := ⟨[⟨.EStdFunc (.EVar "x"), []⟩, ⟨.EStdFunc (.EVar "y"), []⟩], []⟩

/-- AST of `min(x, y)` over `ps_xy`. -/
def e_min_xy : Expression := ⟨.EStdFunc (.EFuncMin 0 [1]), []⟩

/-- AST of the chained comparison `a < b < c` (three constant operands). -/
def chain_lt (a b c : F) : Expression :=
  ⟨.EConstant a, [⟨.ELT, .EConstant b⟩, ⟨.ELT, .EConstant c⟩]⟩

/-- Parse slab holding `0 < 1/2` and `1/2 < 7/10` as sub-expressions. -/
def ps_cmp : ParseSlab :=
  ⟨[⟨.EConstant (.num 0), [⟨.ELT, .EConstant (.num ⟨1, 2⟩)⟩]⟩,
    ⟨.EConstant (.num ⟨1, 2⟩), [⟨.ELT, .EConstant (.num ⟨7, 10⟩)⟩]⟩], []⟩

/-- AST of `(0 < 1/2) && (1/2 < 7/10)` over `ps_cmp`. -/
def e_and_cmp : Expression :=
  ⟨.EUnaryOp (.EParentheses 0), [⟨.EAND, .EUnaryOp (.EParentheses 1)⟩]⟩

/-- AST of `x + y + z`. -/
def e_xyz : Expression :=
  ⟨.EStdFunc (.EVar "x"),
   [⟨.EAdd, .EStdFunc (.EVar "y")⟩, ⟨.EAdd, .EStdFunc (.EVar "z")⟩]⟩

/-- AST of `a || b` with constant operands. -/
def or_expr (a b : F) : Expression := ⟨.EConstant a, [⟨.EOR, .EConstant b⟩]⟩

/-- AST of `a && b` with constant operands. -/
def and_expr (a b : F) : Expression := ⟨.EConstant a, [⟨.EAND, .EConstant b⟩]⟩

/-- The bytes of the input string `1||x`. -/
def bytes_1orx : Bytes := [49, 124, 124, 120]

/-- A balanced input with 33 nested opening parentheses: `(((...(1)...)))`. -/
def deep_input : Bytes := List.replicate 33 40 ++ [49] ++ List.replicate 33 41

/-- A balanced 4097-byte input of parentheses around `1`. -/
def long_input : Bytes := List.replicate 2048 40 ++ [49] ++ List.replicate 2048 41

/-- The parse slab produced by parsing `1||x`. -/
def ps8 : ParseSlab :=
  ⟨[⟨.EConstant (.num 1), [⟨.EOR, .EStdFunc (.EVar "x")⟩]⟩], []⟩

/-- Is this instruction an `IConst`? -/
def is_iconst : Instruction → Bool
  | .IConst _ => true
  | _ => false

/-- A standard function that is not a `Var` or a user `Func` (builtins are
allowed: their arguments are separate slab expressions). -/
def stdfunc_no_callables : StdFunc → Bool
  | .EVar _ => false
  | .EFunc _ _ => false
  | _ => true

/-- The local (one-node) part of "contains no Var/Func/UnsafeVar/PrintFunc":
constants and unary operators are fine (their children are slab nodes,
covered by `ps_no_callables`), `Var`/`Func`/`PrintFunc` are not. -/
def value_no_callables : Value → Bool
  | .EConstant _ => true
  | .EUnaryOp _ => true
  | .EStdFunc f => stdfunc_no_callables f
  | .EPrintFunc _ => false

def expr_no_callables (e : Expression) : Bool :=
  value_no_callables e.first && e.pairs.all (fun p => value_no_callables p.val)

def slice_no_callables (sl : ExprSlice) : Bool :=
  value_no_callables sl.first && sl.pairs.all (fun p => value_no_callables p.val)

/-- Every expression and value stored in the parse slab is callable-free.
Together with `expr_no_callables` of the root this captures "the input
contains no Var/Func/UnsafeVar/PrintFunc" (the parser stores every
sub-expression in the slab). -/
def ps_no_callables (ps : ParseSlab) : Bool :=
  ps.exprs.all expr_no_callables && ps.vals.all value_no_callables

/-- Recognizers for the three involution instruction forms. -/
def is_ineg : Instruction → Bool
  | .INeg _ => true
  | _ => false

def is_inot : Instruction → Bool
  | .INot _ => true
  | _ => false

def is_iinv : Instruction → Bool
  | .IInv _ => true
  | _ => false

/-- A node is free of a directly nested involution: an `INeg`/`INot`/`IInv`
must point inside the slab at a child that is not the same wrapper (other
instruction kinds are unconstrained). -/
def inv_node_ok (cs : CompileSlab) : Instruction → Bool
  | .INeg i => decide (i < cs.length) && !(is_ineg (get_instr cs i))
  | .INot i => decide (i < cs.length) && !(is_inot (get_instr cs i))
  | .IInv i => decide (i < cs.length) && !(is_iinv (get_instr cs i))
  | _ => true

/-- Every stored node of the slab is free of directly nested involutions. -/
def slab_inv_ok (cs : CompileSlab) : Bool := cs.all (inv_node_ok cs)

/-- How the compiler evolves a slab: it only appends and resets taken slots
to the default node, so an existing slot either keeps its node or holds the
default. -/
def slab_evolves (cs cs' : CompileSlab) : Prop :=
  cs.length ≤ cs'.length ∧
  ∀ i, i < cs.length → get_instr cs' i = get_instr cs i ∨ get_instr cs' i = default

/-- Recognizer for the `Undefined` error constructor. -/
def is_undefined : Error → Bool
  | .Undefined _ => true
  | _ => false

/-- An evaluation result carries an `Undefined` error. -/
def res_undef {α : Type} : Except Error α → Bool
  | .error e => is_undefined e
  | .ok _ => false

/-! ## Claim theorems -/

/-- C3 counterexample: the claim that evaluating `0 && f()` (resp.
`1 || f()`) never invokes the namespace lookup for `f` is false in
interpreter mode: `Expression::eval` evaluates every operand eagerly before
reducing, so a counting namespace observes one lookup of `f` (final count 1,
not 0) for each input. -/
theorem C3_counter_interpreter_invokes_lookup :
    eval_expr_ast fx0 ParseSlab.empty counting_ns 100 e_and_f 0 =
      some (.ok (.num 0), 1) ∧
    eval_expr_ast fx0 ParseSlab.empty counting_ns 100 e_or_f 0 =
      some (.ok (.num 1), 1) := by
  exact ⟨by decide, by decide⟩

/-- C3 (amended): in compiled mode the claim holds — compiling `0 && f()`
(resp. `1 || f()`) short-circuits on the constant left operand before the
`f()` slice is ever compiled, producing a bare constant, and evaluating that
constant performs no lookup.  Both results and the final namespace state are
independent of the namespace, for every namespace and every sufficient
fuel. -/
theorem C3_amended_compiled_never_invokes_lookup :
    ∀ (σ : Type) (ns : Ns σ) (s : σ) (fx : Foreign) (fuel : Nat),
    compile_expr fx ParseSlab.empty ns (fuel + 9) e_and_f [] s =
      some (.IConst (.num 0), [], s) ∧
    eval_instr fx ParseSlab.empty [] ns (fuel + 1) (.IConst (.num 0)) s =
      some (.ok (.num 0), s) ∧
    compile_expr fx ParseSlab.empty ns (fuel + 9) e_or_f [] s =
      some (.IConst (.num 1), [], s) ∧
    eval_instr fx ParseSlab.empty [] ns (fuel + 1) (.IConst (.num 1)) s =
      some (.ok (.num 1), s) :=
  fun _ _ _ _ _ => ⟨rfl, rfl, rfl, rfl⟩

/-- C4: evaluating `min(1, n)` and `max(1, n)` with `n = NaN` in interpreter
mode returns 1, not NaN (Rust `f32::min`/`max` drop the NaN and the
`saw_nan` flag only inspects the accumulator), and compile-time folding of
`min(1, NaN)` / `max(1, NaN)` also returns the constant 1; only the compiled
`IFuncMin`/`IFuncMax` instructions — whose code comments state that NaN must
propagate — actually return NaN.  This exhibits the failing inputs for the
claim and the sites where the documented intent is honored. -/
theorem C4_min_max_trailing_nan_not_propagated :
    eval_expr_ast fx0 ps_1n ns_n_nan 100 e_min_1n () = some (.ok (.num 1), ()) ∧
    eval_expr_ast fx0 ps_1n ns_n_nan 100 e_max_1n () = some (.ok (.num 1), ()) ∧
    compile_expr fx0 ps_1nan empty_ns 100 e_min_1n [] () =
      some (.IConst (.num 1), [], ()) ∧
    compile_expr fx0 ps_1nan empty_ns 100 e_max_1n [] () =
      some (.IConst (.num 1), [], ()) ∧
    (∀ (σ : Type) (ns : Ns σ) (s : σ) (fx : Foreign) (fuel : Nat),
      eval_instr fx ps_1n [.IConst (.num 1)] ns (fuel + 2) (.IFuncMin 0 (.C .nan)) s =
        some (.ok .nan, s) ∧
      eval_instr fx ps_1n [.IConst .nan] ns (fuel + 2) (.IFuncMin 0 (.C (.num 1))) s =
        some (.ok .nan, s) ∧
      eval_instr fx ps_1n [.IConst (.num 1)] ns (fuel + 2) (.IFuncMax 0 (.C .nan)) s =
        some (.ok .nan, s)) :=
  ⟨by decide, by decide, by decide, by decide, fun _ _ _ _ _ => ⟨rfl, rfl, rfl⟩⟩

/-- C1: interpreter mode and compiled mode disagree on `min(x, y)` under the
pure namespace `{x: 1, y: NaN}` — the interpreter returns 1 (Rust `f32::min`
drops the NaN), the compiled `IFuncMin` propagates NaN — and 1 and NaN are
not equal under the 8-epsilon comparison, so
`eval(parse(s)) == eval(compile(parse(s)))` fails at this input. -/
theorem C1_modes_disagree_on_min_nan :
    eval_expr_ast fx0 ps_xy ns_x1_ynan 100 e_min_xy () = some (.ok (.num 1), ()) ∧
    compile_expr fx0 ps_xy ns_x1_ynan 100 e_min_xy [] () =
      some (.IFuncMin 0 (.I 1), [.IVar "x", .IVar "y"], ()) ∧
    eval_instr fx0 ps_xy [.IVar "x", .IVar "y"] ns_x1_ynan 100
      (.IFuncMin 0 (.I 1)) () = some (.ok .nan, ()) ∧
    f32_eq (.num 1) .nan = false := by
  exact ⟨by decide, by decide, by decide, by decide⟩

/-- C5 counterexample: the chained comparison `0 < 1/2 < 7/10` evaluates to
0 in both interpreter and compiled mode (the second comparison receives the
first comparison's 0/1 result as its left operand), while
`(0 < 1/2) && (1/2 < 7/10)` evaluates to 1 — so `a<b<c` is not
`(a<b) and (b<c)`. -/
theorem C5_counter_chain_is_not_pairwise_and :
    eval_expr_ast fx0 ParseSlab.empty empty_ns 100
      (chain_lt (.num 0) (.num ⟨1, 2⟩) (.num ⟨7, 10⟩)) () = some (.ok (.num 0), ()) ∧
    eval_expr_ast fx0 ps_cmp empty_ns 100 e_and_cmp () = some (.ok (.num 1), ()) ∧
    compile_expr fx0 ParseSlab.empty empty_ns 100
      (chain_lt (.num 0) (.num ⟨1, 2⟩) (.num ⟨7, 10⟩)) [] () =
      some (.IConst (.num 0), [], ()) := by
  exact ⟨by decide, by decide, by decide⟩

/-- C5 (amended): for all operand values a, b, c, the chained comparison
`a<b<c` evaluates — in both interpreter and compiled mode — by left-to-right
reduction over the comparison group: the result is `((a<b) < c)`, where each
comparison yields 0 or 1 and that 0/1 result becomes the left operand of the
next comparison. -/
theorem C5_amended_chain_reduces_left_to_right :
    ∀ (fx : Foreign) (σ : Type) (ns : Ns σ) (s : σ) (a b c : F) (fuel : Nat),
    eval_expr_ast fx ParseSlab.empty ns (fuel + 4) (chain_lt a b c) s =
      some (.ok (bool_to_f32 (flt (bool_to_f32 (flt a b)) c)), s) ∧
    compile_expr fx ParseSlab.empty ns (fuel + 7) (chain_lt a b c) [] s =
      some (.IConst (bool_to_f32 (flt (bool_to_f32 (flt a b)) c)), [], s) :=
  fun _ _ _ _ _ _ _ _ => ⟨rfl, rfl⟩

/-- C6 counterexample: compiling `x + y + z` yields `IAdd 2 (I 3)` whose
left operand handle 2 refers to the slab entry `IAdd 0 (I 1)` — a left-nested
`Add(Add(..))` in the compiled output (`compile_add` chains three or more
non-constant terms through the left branch). -/
theorem C6_counter_left_nested_add :
    compile_expr fx0 ParseSlab.empty empty_ns 100 e_xyz [] () =
      some (.IAdd 2 (.I 3), [.IVar "x", .IVar "y", .IAdd 0 (.I 1), .IVar "z"], ()) ∧
    get_instr [Instruction.IVar "x", .IVar "y", .IAdd 0 (.I 1), .IVar "z"] 2 =
      .IAdd 0 (.I 1) := by
  exact ⟨by decide, by decide⟩

/-- C10: the logical operators return operand values, not booleans: `a || b`
is a when `|a - 0| > 8ε` and b otherwise; `a && b` is a when `|a - 0| ≤ 8ε`
and b otherwise — in the interpreter (`binaryop_eval`, and end to end on the
two-operand expression) and in compiled mode (`IOR`/`IAND`).  Comparison
operators instead always return `bool_to_f32` of the comparison, i.e.
exactly 1 or 0, in both modes. -/
theorem C10_logic_ops_return_operand_values :
    ∀ (fx : Foreign) (σ : Type) (ns : Ns σ) (s : σ) (a b : F) (fuel : Nat),
    binaryop_eval fx .EOR (some a) (some b) = (if f32_ne a (.num 0) then a else b) ∧
    binaryop_eval fx .EAND (some a) (some b) = (if f32_eq a (.num 0) then a else b) ∧
    eval_expr_ast fx ParseSlab.empty ns (fuel + 3) (or_expr a b) s =
      some (.ok (if f32_ne a (.num 0) then a else b), s) ∧
    eval_expr_ast fx ParseSlab.empty ns (fuel + 3) (and_expr a b) s =
      some (.ok (if f32_eq a (.num 0) then a else b), s) ∧
    eval_instr fx ParseSlab.empty [.IConst a] ns (fuel + 2) (.IOR 0 (.C b)) s =
      some (.ok (if f32_ne a (.num 0) then a else b), s) ∧
    eval_instr fx ParseSlab.empty [.IConst a] ns (fuel + 2) (.IAND 0 (.C b)) s =
      some (.ok (if f32_eq a (.num 0) then a else b), s) ∧
    binaryop_eval fx .ELT (some a) (some b) = bool_to_f32 (flt a b) ∧
    binaryop_eval fx .ELTE (some a) (some b) = bool_to_f32 (fle a b) ∧
    binaryop_eval fx .EEQ (some a) (some b) = bool_to_f32 (f32_eq a b) ∧
    binaryop_eval fx .ENE (some a) (some b) = bool_to_f32 (f32_ne a b) ∧
    binaryop_eval fx .EGTE (some a) (some b) = bool_to_f32 (fge a b) ∧
    binaryop_eval fx .EGT (some a) (some b) = bool_to_f32 (fgt a b) ∧
    eval_instr fx ParseSlab.empty [] ns (fuel + 2) (.ILT (.C a) (.C b)) s =
      some (.ok (bool_to_f32 (flt a b)), s) ∧
    (∀ x : Bool, bool_to_f32 x = .num 0 ∨ bool_to_f32 x = .num 1) := by
  intro fx σ ns s a b fuel
  refine ⟨rfl, rfl, rfl, rfl, ?_, ?_, rfl, rfl, rfl, rfl, rfl, rfl, rfl, ?_⟩
  · cases h : f32_ne a (.num 0) <;>
      simp [eval_instr, eval_ic, get_instr, h]
  · cases h : f32_eq a (.num 0) <;>
      simp [eval_instr, eval_ic, get_instr, h]
  · intro x
    cases x
    · exact Or.inl rfl
    · exact Or.inr rfl

/-- C7: with default limits, any input longer than 4096 bytes is rejected
with `TooLong` (the length check precedes everything else), and the balanced
input of 33 nested opening parentheses is rejected with `TooDeep` (the depth
counter is incremented at every parenthesis descent and checked against the
default depth limit 32). -/
theorem C7_length_and_depth_limits :
    (∀ (fuel : Nat) (bs : Bytes) (fx : Foreign),
      bs.length > DEFAULT_EXPR_LEN_LIMIT →
      Parser.new.parse fx fuel bs = some (.error .TooLong)) ∧
    Parser.new.parse fx0 200 deep_input = some (.error .TooDeep) := by
  constructor
  · intro fuel bs fx h
    simp [Parser.parse, parse_noclear, Parser.new, DEFAULT_EXPR_LEN_LIMIT] at h ⊢
    omega
  · decide

/-- C7 witness: the 4097-byte balanced-parenthesis input is rejected with
`TooLong`. -/
theorem C7_length_and_depth_limits_witness :
    Parser.new.parse fx0 200 long_input = some (.error .TooLong) :=
  C7_length_and_depth_limits.1 200 long_input fx0
    (by simp only [long_input, List.length_append, List.length_replicate,
          List.length_cons, List.length_nil, DEFAULT_EXPR_LEN_LIMIT]
        omega)

/-- C8 counterexample: parsing `1||x` succeeds, but compiling it
short-circuits on the nonzero constant 1 and produces the bare constant
`IConst 1`, whose `var_names` is empty — even though `x` appears textually
in the input (byte 120 = 'x') and `var_names` of the parsed expression does
contain "x".  So `var_names` of the compiled instruction does not contain
every identifier appearing textually in the input. -/
theorem C8_counter_compiled_var_names_drop_eliminated_branch :
    Parser.new.parse fx0 100 bytes_1orx = some (.ok (0, ps8)) ∧
    compile_expr fx0 ps8 empty_ns 100 (get_expr ps8 0) [] () =
      some (.IConst (.num 1), [], ()) ∧
    var_names_instr ps8 [] 100 (.IConst (.num 1)) = some [] ∧
    var_names_expr ps8 100 (get_expr ps8 0) = some ["x"] ∧
    an_expr ps8 100 (get_expr ps8 0) = some ["x"] ∧
    (120 : UInt8) ∈ bytes_1orx := by
  refine ⟨by decide, by decide, by decide, by decide, by decide, by decide⟩


/-! ## Helper lemmas for the constant-folding claim -/

theorem all_mem_true {α : Type} {p : α → Bool} {l : List α} (h : l.all p = true)
    {x : α} (hx : x ∈ l) : p x = true :=
  List.all_eq_true.mp h x hx

theorem all_get?_true {α : Type} {p : α → Bool} :
    ∀ {l : List α}, l.all p = true → ∀ {i : Nat} {x : α}, l.get? i = some x → p x = true := by
  intro l
  induction l with
  | nil => intro _ i x hg; simp [List.get?] at hg
  | cons y ys ih =>
    intro h i x hg
    simp only [List.all_cons, Bool.and_eq_true] at h
    cases i with
    | zero =>
      have : y = x := Option.some.inj hg
      exact this ▸ h.1
    | succ j => exact ih h.2 hg

theorem all_getD {α : Type} {p : α → Bool} {l : List α} (h : l.all p = true)
    (i : Nat) (d : α) (hd : p d = true) : p (l.getD i d) = true := by
  induction l generalizing i with
  | nil => simpa [List.getD] using hd
  | cons x xs ih =>
    simp only [List.all_cons, Bool.and_eq_true] at h
    cases i with
    | zero => simpa [List.getD] using h.1
    | succ j => simpa [List.getD] using ih h.2 j

theorem all_reverse_true {α : Type} {p : α → Bool} {l : List α} (h : l.all p = true) :
    l.reverse.all p = true := by
  rw [List.all_eq_true] at h ⊢
  intro x hx
  exact h x (List.mem_reverse.mp hx)

theorem get_expr_nc {ps : ParseSlab} (h : ps_no_callables ps = true) (i : ExpressionI) :
    expr_no_callables (get_expr ps i) = true := by
  have hall : ps.exprs.all expr_no_callables = true := by
    simp only [ps_no_callables, Bool.and_eq_true] at h
    exact h.1
  exact all_getD hall i default (by decide)

theorem get_val_nc {ps : ParseSlab} (h : ps_no_callables ps = true) (i : ValueI) :
    value_no_callables (get_val ps i) = true := by
  have hall : ps.vals.all value_no_callables = true := by
    simp only [ps_no_callables, Bool.and_eq_true] at h
    exact h.2
  exact all_getD hall i default (by decide)

theorem split_go_nc (bop : BinaryOp) :
    ∀ (pairs : List ExprPair) (cur : ExprSlice),
      pairs.all (fun p => value_no_callables p.val) = true →
      slice_no_callables cur = true →
      (split_go bop pairs cur).all slice_no_callables = true := by
  intro pairs
  induction pairs with
  | nil =>
    intro cur _ hc
    simp [split_go, hc]
  | cons p rest ih =>
    intro cur hall hc
    simp only [List.all_cons, Bool.and_eq_true] at hall
    simp only [split_go]
    by_cases hop : p.op = bop
    · simp only [hop, if_true]
      simp only [List.all_cons, Bool.and_eq_true]
      refine ⟨hc, ?_⟩
      exact ih ⟨p.val, []⟩ hall.2 (by simp [slice_no_callables, hall.1])
    · simp only [hop, if_false]
      refine ih ⟨cur.first, cur.pairs ++ [p]⟩ hall.2 ?_
      simp only [slice_no_callables, Bool.and_eq_true] at hc ⊢
      refine ⟨hc.1, ?_⟩
      simp [List.all_append, hc.2, hall.1]

theorem split_nc {sl : ExprSlice} (h : slice_no_callables sl = true) (bop : BinaryOp) :
    (sl.split bop).all slice_no_callables = true := by
  simp only [slice_no_callables, Bool.and_eq_true] at h
  exact split_go_nc bop sl.pairs ⟨sl.first, []⟩ h.2 (by simp [slice_no_callables, h.1])

theorem split_multi_go_nc (search : List BinaryOp) :
    ∀ (pairs : List ExprPair) (cur : ExprSlice),
      pairs.all (fun p => value_no_callables p.val) = true →
      slice_no_callables cur = true →
      (split_multi_go search pairs cur).1.all slice_no_callables = true := by
  intro pairs
  induction pairs with
  | nil =>
    intro cur _ hc
    simp [split_multi_go, hc]
  | cons p rest ih =>
    intro cur hall hc
    simp only [List.all_cons, Bool.and_eq_true] at hall
    simp only [split_multi_go]
    by_cases hop : search.contains p.op
    · simp only [hop, if_true]
      simp only [List.all_cons, Bool.and_eq_true]
      refine ⟨hc, ?_⟩
      exact ih ⟨p.val, []⟩ hall.2 (by simp [slice_no_callables, hall.1])
    · simp only [hop, if_false]
      refine ih ⟨cur.first, cur.pairs ++ [p]⟩ hall.2 ?_
      simp only [slice_no_callables, Bool.and_eq_true] at hc ⊢
      refine ⟨hc.1, ?_⟩
      simp [List.all_append, hc.2, hall.1]

theorem split_multi_nc {sl : ExprSlice} (h : slice_no_callables sl = true)
    (search : List BinaryOp) :
    (sl.split_multi search).1.all slice_no_callables = true := by
  simp only [slice_no_callables, Bool.and_eq_true] at h
  exact split_multi_go_nc search sl.pairs ⟨sl.first, []⟩ h.2
    (by simp [slice_no_callables, h.1])

theorem compile_add_go_all_const :
    ∀ (instrs : List Instruction), instrs.all is_iconst = true →
      ∀ (out : Instruction) (out_set : Bool) (c : F) (cs : CompileSlab),
      ∃ c', compile_add_go instrs out out_set c cs = (out, out_set, c', cs) := by
  intro instrs
  induction instrs with
  | nil => intro _ out out_set c cs; exact ⟨c, rfl⟩
  | cons instr rest ih =>
    intro hall out out_set c cs
    simp only [List.all_cons, Bool.and_eq_true] at hall
    obtain ⟨h1, h2⟩ := hall
    cases instr <;> simp [is_iconst] at h1
    case IConst cc =>
      simp only [compile_add_go]
      exact ih h2 out out_set (fadd c cc) cs

theorem compile_add_all_const {instrs : List Instruction} {cs : CompileSlab}
    (h : instrs.all is_iconst = true) :
    ∃ c, compile_add instrs cs = (.IConst c, cs) := by
  obtain ⟨c', hgo⟩ := compile_add_go_all_const instrs h (.IConst (.num 0)) false (.num 0) cs
  by_cases hne : f32_ne c' (.num 0) = true
  · exact ⟨c', by simp [compile_add, hgo, hne]⟩
  · exact ⟨.num 0, by simp [compile_add, hgo, hne]⟩

theorem compile_mul_go_all_const :
    ∀ (instrs : List Instruction), instrs.all is_iconst = true →
      ∀ (out : Instruction) (out_set : Bool) (c : F) (cs : CompileSlab),
      ∃ c', compile_mul_go instrs out out_set c cs = (out, out_set, c', cs) := by
  intro instrs
  induction instrs with
  | nil => intro _ out out_set c cs; exact ⟨c, rfl⟩
  | cons instr rest ih =>
    intro hall out out_set c cs
    simp only [List.all_cons, Bool.and_eq_true] at hall
    obtain ⟨h1, h2⟩ := hall
    cases instr <;> simp [is_iconst] at h1
    case IConst cc =>
      simp only [compile_mul_go]
      exact ih h2 out out_set (fmul c cc) cs

theorem compile_mul_all_const {instrs : List Instruction} {cs : CompileSlab}
    (h : instrs.all is_iconst = true) :
    ∃ c, compile_mul instrs cs = (.IConst c, cs) := by
  obtain ⟨c', hgo⟩ := compile_mul_go_all_const instrs h (.IConst (.num 1)) false (.num 1) cs
  by_cases hne : f32_ne c' (.num 1) = true
  · exact ⟨c', by simp [compile_mul, hgo, hne]⟩
  · exact ⟨.num 1, by simp [compile_mul, hgo, hne]⟩

theorem min_fold_go_all_const :
    ∀ (rest : List Instruction), rest.all is_iconst = true →
      ∀ (out : Instruction) (out_set : Bool) (cmin : F) (cs : CompileSlab),
      ∃ c', min_fold_go rest out out_set cmin true cs = (out, out_set, c', true, cs) := by
  intro rest
  induction rest with
  | nil => intro _ out out_set cmin cs; exact ⟨cmin, rfl⟩
  | cons instr rest ih =>
    intro hall out out_set cmin cs
    simp only [List.all_cons, Bool.and_eq_true] at hall
    obtain ⟨h1, h2⟩ := hall
    cases instr <;> simp [is_iconst] at h1
    case IConst f =>
      simp only [min_fold_go, if_true]
      cases hf : flt f cmin <;> simp only [hf, Bool.false_eq_true, if_true, if_false]
      · exact ih h2 out out_set cmin cs
      · exact ih h2 out out_set f cs

theorem min_fold_all_const {first : Instruction} {rest : List Instruction}
    {cs : CompileSlab} (h1 : is_iconst first = true) (h2 : rest.all is_iconst = true) :
    ∃ c, min_fold first rest cs = (.IConst c, cs) := by
  cases first <;> simp [is_iconst] at h1
  case IConst f =>
    obtain ⟨c', hgo⟩ := min_fold_go_all_const rest h2 (.IConst (.num 0)) false f cs
    exact ⟨c', by simp [min_fold, hgo]⟩

theorem max_fold_go_all_const :
    ∀ (rest : List Instruction), rest.all is_iconst = true →
      ∀ (out : Instruction) (out_set : Bool) (cmax : F) (cs : CompileSlab),
      ∃ c', max_fold_go rest out out_set cmax true cs = (out, out_set, c', true, cs) := by
  intro rest
  induction rest with
  | nil => intro _ out out_set cmax cs; exact ⟨cmax, rfl⟩
  | cons instr rest ih =>
    intro hall out out_set cmax cs
    simp only [List.all_cons, Bool.and_eq_true] at hall
    obtain ⟨h1, h2⟩ := hall
    cases instr <;> simp [is_iconst] at h1
    case IConst f =>
      simp only [max_fold_go, if_true]
      cases hf : fgt f cmax <;> simp only [hf, Bool.false_eq_true, if_true, if_false]
      · exact ih h2 out out_set cmax cs
      · exact ih h2 out out_set f cs

theorem max_fold_all_const {first : Instruction} {rest : List Instruction}
    {cs : CompileSlab} (h1 : is_iconst first = true) (h2 : rest.all is_iconst = true) :
    ∃ c, max_fold first rest cs = (.IConst c, cs) := by
  cases first <;> simp [is_iconst] at h1
  case IConst f =>
    obtain ⟨c', hgo⟩ := max_fold_go_all_const rest h2 (.IConst (.num 0)) false f cs
    exact ⟨c', by simp [max_fold, hgo]⟩

/-- Main constant-folding invariant: over a slab with no `Var`/`Func`/`Print`
values, every function of the compiler mutual block returns a `IConst`
result (loops additionally preserve all-constant accumulators). -/
theorem compile_nc_main {σ : Type} (fx : Foreign) (ps : ParseSlab) (ns : Ns σ)
    (hps : ps_no_callables ps = true) :
    ∀ fuel : Nat,
      (∀ e cs s r, expr_no_callables e = true →
        compile_expr fx ps ns fuel e cs s = some r → is_iconst r.1 = true) ∧
      (∀ sl cs s r, slice_no_callables sl = true →
        compile_slice fx ps ns fuel sl cs s = some r → is_iconst r.1 = true) ∧
      (∀ sl cs s r, slice_no_callables sl = true →
        process_comparisons fx ps ns fuel sl cs s = some r → is_iconst r.1 = true) ∧
      (∀ ops i xss out cs s r, xss.all slice_no_callables = true → is_iconst out = true →
        cmp_loop fx ps ns fuel ops i xss out cs s = some r → is_iconst r.1 = true) ∧
      (∀ xss out cs s r, xss.all slice_no_callables = true → is_iconst out = true →
        or_loop fx ps ns fuel xss out false cs s = some r → is_iconst r.1 = true) ∧
      (∀ xss out out_set cs s r, xss.all slice_no_callables = true → is_iconst out = true →
        and_loop fx ps ns fuel xss out out_set cs s = some r → is_iconst r.1 = true) ∧
      (∀ xss instrs cs s r, xss.all slice_no_callables = true → instrs.all is_iconst = true →
        add_gather fx ps ns fuel xss instrs cs s = some r → r.1.all is_iconst = true) ∧
      (∀ xss b instrs cs s r, xss.all slice_no_callables = true → instrs.all is_iconst = true →
        sub_gather fx ps ns fuel xss b instrs cs s = some r → r.1.all is_iconst = true) ∧
      (∀ xss instrs cs s r, xss.all slice_no_callables = true → instrs.all is_iconst = true →
        mul_gather fx ps ns fuel xss instrs cs s = some r → r.1.all is_iconst = true) ∧
      (∀ xss b instrs cs s r, xss.all slice_no_callables = true → instrs.all is_iconst = true →
        div_gather fx ps ns fuel xss b instrs cs s = some r → r.1.all is_iconst = true) ∧
      (∀ xss out out_set cs s r, xss.all slice_no_callables = true → is_iconst out = true →
        mod_loop fx ps ns fuel xss out out_set cs s = some r → is_iconst r.1 = true) ∧
      (∀ xss out out_set cs s r, xss.all slice_no_callables = true → is_iconst out = true →
        exp_loop fx ps ns fuel xss out out_set cs s = some r → is_iconst r.1 = true) ∧
      (∀ v cs s r, value_no_callables v = true →
        compile_value fx ps ns fuel v cs s = some r → is_iconst r.1 = true) ∧
      (∀ u cs s r, compile_unary fx ps ns fuel u cs s = some r → is_iconst r.1 = true) ∧
      (∀ li acc cs s r, acc.all is_iconst = true →
        minmax_rest fx ps ns fuel li acc cs s = some r → r.1.all is_iconst = true) ∧
      (∀ op mk xi cs s r, process_unary_fn fx ps ns op mk fuel xi cs s = some r →
        is_iconst r.1 = true) ∧
      (∀ f cs s r, stdfunc_no_callables f = true →
        compile_stdfunc fx ps ns fuel f cs s = some r → is_iconst r.1 = true) := by
  intro fuel
  induction fuel with
  | zero =>
    exact ⟨fun e cs s r _ h => Option.noConfusion h,
           fun sl cs s r _ h => Option.noConfusion h,
           fun sl cs s r _ h => Option.noConfusion h,
           fun ops i xss out cs s r _ _ h => Option.noConfusion h,
           fun xss out cs s r _ _ h => Option.noConfusion h,
           fun xss out os cs s r _ _ h => Option.noConfusion h,
           fun xss instrs cs s r _ _ h => Option.noConfusion h,
           fun xss b instrs cs s r _ _ h => Option.noConfusion h,
           fun xss instrs cs s r _ _ h => Option.noConfusion h,
           fun xss b instrs cs s r _ _ h => Option.noConfusion h,
           fun xss out os cs s r _ _ h => Option.noConfusion h,
           fun xss out os cs s r _ _ h => Option.noConfusion h,
           fun v cs s r _ h => Option.noConfusion h,
           fun u cs s r h => Option.noConfusion h,
           fun li acc cs s r _ h => Option.noConfusion h,
           fun op mk xi cs s r h => Option.noConfusion h,
           fun f cs s r _ h => Option.noConfusion h⟩
  | succ fuel ih =>
    obtain ⟨ihe, ihs, ihpc, ihcmp, ihor, ihand, ihadd, ihsub, ihmul, ihdiv, ihmod,
      ihexp, ihv, ihu, ihmm, ihpu, ihsf⟩ := ih
    refine ⟨?_, ?_, ?_, ?_, ?_, ?_, ?_, ?_, ?_, ?_, ?_, ?_, ?_, ?_, ?_, ?_, ?_⟩
    -- compile_expr
    · intro e cs s r he h
      simp only [compile_expr] at h
      exact ihs (ExprSlice.from_expr e) cs s r he h
    -- compile_slice
    · intro sl cs s r hnc h
      obtain ⟨v0, prs⟩ := sl
      cases prs with
      | nil =>
        simp only [compile_slice] at h
        refine ihv v0 cs s r ?_ h
        simp only [slice_no_callables, List.all_nil, Bool.and_true] at hnc
        exact hnc
      | cons p0 rest =>
        simp only [compile_slice] at h
        cases hlo : List.foldl (fun acc p => if p.op.prec < acc.prec then p.op else acc)
            p0.op (p0 :: rest) with
        | EOR =>
          rw [hlo] at h
          replace h : or_loop fx ps ns fuel (ExprSlice.split ⟨v0, p0 :: rest⟩ .EOR)
              (Instruction.IConst (.num 0)) false cs s = some r := h
          exact ihor _ (.IConst (.num 0)) cs s r (split_nc hnc .EOR) rfl h
        | EAND =>
          rw [hlo] at h
          replace h : and_loop fx ps ns fuel (ExprSlice.split ⟨v0, p0 :: rest⟩ .EAND)
              (Instruction.IConst (.num 1)) false cs s = some r := h
          exact ihand _ (.IConst (.num 1)) false cs s r (split_nc hnc .EAND) rfl h
        | ENE =>
          rw [hlo] at h
          replace h : process_comparisons fx ps ns fuel ⟨v0, p0 :: rest⟩ cs s = some r := h
          exact ihpc _ cs s r hnc h
        | EEQ =>
          rw [hlo] at h
          replace h : process_comparisons fx ps ns fuel ⟨v0, p0 :: rest⟩ cs s = some r := h
          exact ihpc _ cs s r hnc h
        | EGTE =>
          rw [hlo] at h
          replace h : process_comparisons fx ps ns fuel ⟨v0, p0 :: rest⟩ cs s = some r := h
          exact ihpc _ cs s r hnc h
        | ELTE =>
          rw [hlo] at h
          replace h : process_comparisons fx ps ns fuel ⟨v0, p0 :: rest⟩ cs s = some r := h
          exact ihpc _ cs s r hnc h
        | EGT =>
          rw [hlo] at h
          replace h : process_comparisons fx ps ns fuel ⟨v0, p0 :: rest⟩ cs s = some r := h
          exact ihpc _ cs s r hnc h
        | ELT =>
          rw [hlo] at h
          replace h : process_comparisons fx ps ns fuel ⟨v0, p0 :: rest⟩ cs s = some r := h
          exact ihpc _ cs s r hnc h
        | EAdd =>
          rw [hlo] at h
          cases hg : add_gather fx ps ns fuel (ExprSlice.split ⟨v0, p0 :: rest⟩ .EAdd)
              [] cs s with
          | none =>
            rw [hg] at h
            exact Option.noConfusion h
          | some t =>
            obtain ⟨instrs, cs2, s2⟩ := t
            rw [hg] at h
            have hall : instrs.all is_iconst = true :=
              ihadd _ [] cs s (instrs, cs2, s2) (split_nc hnc .EAdd) rfl hg
            obtain ⟨c, hca⟩ := compile_add_all_const hall
            replace h : some ((compile_add instrs cs2).1, (compile_add instrs cs2).2, s2)
                = some r := h
            rw [hca] at h
            obtain rfl := Option.some.inj h
            rfl
        | ESub =>
          rw [hlo] at h
          cases hg : sub_gather fx ps ns fuel (ExprSlice.split ⟨v0, p0 :: rest⟩ .ESub)
              true [] cs s with
          | none =>
            rw [hg] at h
            exact Option.noConfusion h
          | some t =>
            obtain ⟨instrs, cs2, s2⟩ := t
            rw [hg] at h
            have hall : instrs.all is_iconst = true :=
              ihsub _ true [] cs s (instrs, cs2, s2) (split_nc hnc .ESub) rfl hg
            obtain ⟨c, hca⟩ := compile_add_all_const hall
            replace h : some ((compile_add instrs cs2).1, (compile_add instrs cs2).2, s2)
                = some r := h
            rw [hca] at h
            obtain rfl := Option.some.inj h
            rfl
        | EMul =>
          rw [hlo] at h
          cases hg : mul_gather fx ps ns fuel (ExprSlice.split ⟨v0, p0 :: rest⟩ .EMul)
              [] cs s with
          | none =>
            rw [hg] at h
            exact Option.noConfusion h
          | some t =>
            obtain ⟨instrs, cs2, s2⟩ := t
            rw [hg] at h
            have hall : instrs.all is_iconst = true :=
              ihmul _ [] cs s (instrs, cs2, s2) (split_nc hnc .EMul) rfl hg
            obtain ⟨c, hca⟩ := compile_mul_all_const hall
            replace h : some ((compile_mul instrs cs2).1, (compile_mul instrs cs2).2, s2)
                = some r := h
            rw [hca] at h
            obtain rfl := Option.some.inj h
            rfl
        | EDiv =>
          rw [hlo] at h
          cases hg : div_gather fx ps ns fuel (ExprSlice.split ⟨v0, p0 :: rest⟩ .EDiv)
              true [] cs s with
          | none =>
            rw [hg] at h
            exact Option.noConfusion h
          | some t =>
            obtain ⟨instrs, cs2, s2⟩ := t
            rw [hg] at h
            have hall : instrs.all is_iconst = true :=
              ihdiv _ true [] cs s (instrs, cs2, s2) (split_nc hnc .EDiv) rfl hg
            obtain ⟨c, hca⟩ := compile_mul_all_const hall
            replace h : some ((compile_mul instrs cs2).1, (compile_mul instrs cs2).2, s2)
                = some r := h
            rw [hca] at h
            obtain rfl := Option.some.inj h
            rfl
        | EMod =>
          rw [hlo] at h
          replace h : mod_loop fx ps ns fuel (ExprSlice.split ⟨v0, p0 :: rest⟩ .EMod)
              (Instruction.IConst (.num 0)) false cs s = some r := h
          exact ihmod _ (.IConst (.num 0)) false cs s r (split_nc hnc .EMod) rfl h
        | EExp =>
          rw [hlo] at h
          replace h : exp_loop fx ps ns fuel
              (ExprSlice.split ⟨v0, p0 :: rest⟩ .EExp).reverse
              (Instruction.IConst (.num 0)) false cs s = some r := h
          exact ihexp _ (.IConst (.num 0)) false cs s r
            (all_reverse_true (split_nc hnc .EExp)) rfl h
    -- process_comparisons
    · intro sl cs s r hnc h
      rcases hxo : sl.split_multi CMP_OPS with ⟨xss, ops⟩
      have hsm : xss.all slice_no_callables = true := by
        have h' := split_multi_nc hnc CMP_OPS
        rw [hxo] at h'
        exact h'
      cases xss with
      | nil =>
        simp only [process_comparisons, hxo] at h
        exact ihcmp ops 0 [] (.IConst .nan) cs s r rfl rfl h
      | cons xs xtl =>
        cases hc : compile_slice fx ps ns fuel xs cs s with
        | none =>
          simp only [process_comparisons, hxo] at h
          rw [hc] at h
          exact Option.noConfusion h
        | some t =>
          obtain ⟨out, cs2, s2⟩ := t
          simp only [process_comparisons, hxo, hc] at h
          have hxs : slice_no_callables xs = true :=
            all_mem_true hsm (List.mem_cons_self xs xtl)
          exact ihcmp ops 0 (xs :: xtl) out cs2 s2 r hsm
            (ihs xs cs s (out, cs2, s2) hxs hc) h
    -- cmp_loop
    · intro ops i xss out cs s r hnc hout h
      cases ops with
      | nil =>
        simp only [cmp_loop] at h
        obtain rfl := Option.some.inj h
        exact hout
      | cons op rest =>
        cases out <;> simp [is_iconst] at hout
        case IConst l =>
          simp only [cmp_loop] at h
          cases hg : xss.get? (i + 1) with
          | none =>
            rw [hg] at h
            cases op <;> (refine ihcmp rest (i + 1) xss _ cs s r hnc ?_ h; rfl)
          | some xs =>
            cases hc : compile_slice fx ps ns fuel xs cs s with
            | none =>
              simp only [hg] at h
              rw [hc] at h
              exact Option.noConfusion h
            | some t =>
              obtain ⟨instruction, cs2, s2⟩ := t
              simp only [hg] at h
              rw [hc] at h
              have hxs : slice_no_callables xs = true := all_get?_true hnc hg
              have hic : is_iconst instruction = true :=
                ihs xs cs s (instruction, cs2, s2) hxs hc
              cases instruction <;> simp [is_iconst] at hic
              case IConst rr =>
                cases op <;> (refine ihcmp rest (i + 1) xss _ cs2 s2 r hnc ?_ h; rfl)
    -- or_loop
    · intro xss out cs s r hnc hout h
      cases xss with
      | nil =>
        simp only [or_loop] at h
        obtain rfl := Option.some.inj h
        exact hout
      | cons xs rest =>
        have hxs : slice_no_callables xs = true := by
          simp only [List.all_cons, Bool.and_eq_true] at hnc
          exact hnc.1
        have hrest : rest.all slice_no_callables = true := by
          simp only [List.all_cons, Bool.and_eq_true] at hnc
          exact hnc.2
        cases hc : compile_slice fx ps ns fuel xs cs s with
        | none =>
          simp only [or_loop] at h
          rw [hc] at h
          exact Option.noConfusion h
        | some t =>
          obtain ⟨instr, cs2, s2⟩ := t
          have hic : is_iconst instr = true := ihs xs cs s (instr, cs2, s2) hxs hc
          cases instr <;> simp [is_iconst] at hic
          case IConst c =>
            simp only [or_loop, hc] at h
            replace h : (if f32_ne c (.num 0) = true
                then some (Instruction.IConst c, cs2, s2)
                else or_loop fx ps ns fuel rest out false cs2 s2) = some r := h
            by_cases hz : f32_ne c (.num 0) = true
            · rw [if_pos hz] at h
              obtain rfl := Option.some.inj h
              rfl
            · rw [if_neg hz] at h
              exact ihor rest out cs2 s2 r hrest hout h
    -- and_loop
    · intro xss out out_set cs s r hnc hout h
      cases xss with
      | nil =>
        simp only [and_loop] at h
        obtain rfl := Option.some.inj h
        exact hout
      | cons xs rest =>
        have hxs : slice_no_callables xs = true := by
          simp only [List.all_cons, Bool.and_eq_true] at hnc
          exact hnc.1
        have hrest : rest.all slice_no_callables = true := by
          simp only [List.all_cons, Bool.and_eq_true] at hnc
          exact hnc.2
        cases hc : compile_slice fx ps ns fuel xs cs s with
        | none =>
          simp only [and_loop] at h
          rw [hc] at h
          exact Option.noConfusion h
        | some t =>
          obtain ⟨instr, cs2, s2⟩ := t
          have hic : is_iconst instr = true := ihs xs cs s (instr, cs2, s2) hxs hc
          cases instr <;> simp [is_iconst] at hic
          case IConst c =>
            cases out <;> simp [is_iconst] at hout
            case IConst l =>
              simp only [and_loop, hc] at h
              cases out_set <;>
                (replace h : (if f32_eq c (.num 0) = true
                    then some (Instruction.IConst c, cs2, s2)
                    else and_loop fx ps ns fuel rest (Instruction.IConst c) true cs2 s2)
                    = some r := h
                 by_cases hz : f32_eq c (.num 0) = true
                 · rw [if_pos hz] at h
                   obtain rfl := Option.some.inj h
                   rfl
                 · rw [if_neg hz] at h
                   exact ihand rest (.IConst c) true cs2 s2 r hrest rfl h)
    -- add_gather
    · intro xss instrs cs s r hnc hall h
      cases xss with
      | nil =>
        simp only [add_gather] at h
        obtain rfl := Option.some.inj h
        exact hall
      | cons xs rest =>
        have hxs : slice_no_callables xs = true := by
          simp only [List.all_cons, Bool.and_eq_true] at hnc
          exact hnc.1
        have hrest : rest.all slice_no_callables = true := by
          simp only [List.all_cons, Bool.and_eq_true] at hnc
          exact hnc.2
        cases hc : compile_slice fx ps ns fuel xs cs s with
        | none =>
          simp only [add_gather] at h
          rw [hc] at h
          exact Option.noConfusion h
        | some t =>
          obtain ⟨instr, cs2, s2⟩ := t
          have hic : is_iconst instr = true := ihs xs cs s (instr, cs2, s2) hxs hc
          cases instr <;> simp [is_iconst] at hic
          case IConst c =>
            simp only [add_gather, hc] at h
            refine ihadd rest (instrs ++ [.IConst c]) cs2 s2 r hrest ?_ h
            simp [List.all_append, hall, is_iconst]
    -- sub_gather
    · intro xss b instrs cs s r hnc hall h
      cases xss with
      | nil =>
        simp only [sub_gather] at h
        obtain rfl := Option.some.inj h
        exact hall
      | cons xs rest =>
        have hxs : slice_no_callables xs = true := by
          simp only [List.all_cons, Bool.and_eq_true] at hnc
          exact hnc.1
        have hrest : rest.all slice_no_callables = true := by
          simp only [List.all_cons, Bool.and_eq_true] at hnc
          exact hnc.2
        cases hc : compile_slice fx ps ns fuel xs cs s with
        | none =>
          simp only [sub_gather] at h
          rw [hc] at h
          exact Option.noConfusion h
        | some t =>
          obtain ⟨instr, cs2, s2⟩ := t
          have hic : is_iconst instr = true := ihs xs cs s (instr, cs2, s2) hxs hc
          cases instr <;> simp [is_iconst] at hic
          case IConst c =>
            simp only [sub_gather, hc] at h
            cases b
            · replace h : sub_gather fx ps ns fuel rest false
                  (instrs ++ [Instruction.IConst (fneg c)]) cs2 s2 = some r := h
              refine ihsub rest false (instrs ++ [.IConst (fneg c)]) cs2 s2 r hrest ?_ h
              simp [List.all_append, hall, is_iconst]
            · replace h : sub_gather fx ps ns fuel rest false
                  (instrs ++ [Instruction.IConst c]) cs2 s2 = some r := h
              refine ihsub rest false (instrs ++ [.IConst c]) cs2 s2 r hrest ?_ h
              simp [List.all_append, hall, is_iconst]
    -- mul_gather
    · intro xss instrs cs s r hnc hall h
      cases xss with
      | nil =>
        simp only [mul_gather] at h
        obtain rfl := Option.some.inj h
        exact hall
      | cons xs rest =>
        have hxs : slice_no_callables xs = true := by
          simp only [List.all_cons, Bool.and_eq_true] at hnc
          exact hnc.1
        have hrest : rest.all slice_no_callables = true := by
          simp only [List.all_cons, Bool.and_eq_true] at hnc
          exact hnc.2
        cases hc : compile_slice fx ps ns fuel xs cs s with
        | none =>
          simp only [mul_gather] at h
          rw [hc] at h
          exact Option.noConfusion h
        | some t =>
          obtain ⟨instr, cs2, s2⟩ := t
          have hic : is_iconst instr = true := ihs xs cs s (instr, cs2, s2) hxs hc
          cases instr <;> simp [is_iconst] at hic
          case IConst c =>
            simp only [mul_gather, hc] at h
            refine ihmul rest (instrs ++ [.IConst c]) cs2 s2 r hrest ?_ h
            simp [List.all_append, hall, is_iconst]
    -- div_gather
    · intro xss b instrs cs s r hnc hall h
      cases xss with
      | nil =>
        simp only [div_gather] at h
        obtain rfl := Option.some.inj h
        exact hall
      | cons xs rest =>
        have hxs : slice_no_callables xs = true := by
          simp only [List.all_cons, Bool.and_eq_true] at hnc
          exact hnc.1
        have hrest : rest.all slice_no_callables = true := by
          simp only [List.all_cons, Bool.and_eq_true] at hnc
          exact hnc.2
        cases hc : compile_slice fx ps ns fuel xs cs s with
        | none =>
          simp only [div_gather] at h
          rw [hc] at h
          exact Option.noConfusion h
        | some t =>
          obtain ⟨instr, cs2, s2⟩ := t
          have hic : is_iconst instr = true := ihs xs cs s (instr, cs2, s2) hxs hc
          cases instr <;> simp [is_iconst] at hic
          case IConst c =>
            simp only [div_gather, hc] at h
            cases b
            · replace h : div_gather fx ps ns fuel rest false
                  (instrs ++ [Instruction.IConst (fdiv (.num 1) c)]) cs2 s2 = some r := h
              refine ihdiv rest false (instrs ++ [.IConst (fdiv (.num 1) c)]) cs2 s2 r
                hrest ?_ h
              simp [List.all_append, hall, is_iconst]
            · replace h : div_gather fx ps ns fuel rest false
                  (instrs ++ [Instruction.IConst c]) cs2 s2 = some r := h
              refine ihdiv rest false (instrs ++ [.IConst c]) cs2 s2 r hrest ?_ h
              simp [List.all_append, hall, is_iconst]
    -- mod_loop
    · intro xss out out_set cs s r hnc hout h
      cases xss with
      | nil =>
        simp only [mod_loop] at h
        obtain rfl := Option.some.inj h
        exact hout
      | cons xs rest =>
        have hxs : slice_no_callables xs = true := by
          simp only [List.all_cons, Bool.and_eq_true] at hnc
          exact hnc.1
        have hrest : rest.all slice_no_callables = true := by
          simp only [List.all_cons, Bool.and_eq_true] at hnc
          exact hnc.2
        cases hc : compile_slice fx ps ns fuel xs cs s with
        | none =>
          simp only [mod_loop] at h
          rw [hc] at h
          exact Option.noConfusion h
        | some t =>
          obtain ⟨instr, cs2, s2⟩ := t
          have hic : is_iconst instr = true := ihs xs cs s (instr, cs2, s2) hxs hc
          cases instr <;> simp [is_iconst] at hic
          case IConst c =>
            cases out <;> simp [is_iconst] at hout
            case IConst l =>
              simp only [mod_loop, hc] at h
              cases out_set
              · replace h : mod_loop fx ps ns fuel rest (Instruction.IConst c) true cs2 s2
                    = some r := h
                exact ihmod rest (.IConst c) true cs2 s2 r hrest rfl h
              · replace h : mod_loop fx ps ns fuel rest
                    (Instruction.IConst (fmod l c)) true cs2 s2 = some r := h
                exact ihmod rest (.IConst (fmod l c)) true cs2 s2 r hrest rfl h
    -- exp_loop
    · intro xss out out_set cs s r hnc hout h
      cases xss with
      | nil =>
        simp only [exp_loop] at h
        obtain rfl := Option.some.inj h
        exact hout
      | cons xs rest =>
        have hxs : slice_no_callables xs = true := by
          simp only [List.all_cons, Bool.and_eq_true] at hnc
          exact hnc.1
        have hrest : rest.all slice_no_callables = true := by
          simp only [List.all_cons, Bool.and_eq_true] at hnc
          exact hnc.2
        cases hc : compile_slice fx ps ns fuel xs cs s with
        | none =>
          simp only [exp_loop] at h
          rw [hc] at h
          exact Option.noConfusion h
        | some t =>
          obtain ⟨instr, cs2, s2⟩ := t
          have hic : is_iconst instr = true := ihs xs cs s (instr, cs2, s2) hxs hc
          cases instr <;> simp [is_iconst] at hic
          case IConst c =>
            cases out <;> simp [is_iconst] at hout
            case IConst l =>
              simp only [exp_loop, hc] at h
              cases out_set
              · replace h : exp_loop fx ps ns fuel rest (Instruction.IConst c) true cs2 s2
                    = some r := h
                exact ihexp rest (.IConst c) true cs2 s2 r hrest rfl h
              · replace h : exp_loop fx ps ns fuel rest
                    (Instruction.IConst (fx.powf c l)) true cs2 s2 = some r := h
                exact ihexp rest (.IConst (fx.powf c l)) true cs2 s2 r hrest rfl h
    -- compile_value
    · intro v cs s r hv h
      cases v with
      | EConstant c =>
        simp only [compile_value] at h
        obtain rfl := Option.some.inj h
        rfl
      | EUnaryOp u =>
        simp only [compile_value] at h
        exact ihu u cs s r h
      | EStdFunc f =>
        simp only [compile_value] at h
        exact ihsf f cs s r hv h
      | EPrintFunc pf =>
        simp [value_no_callables] at hv
    -- compile_unary
    · intro u cs s r h
      cases u with
      | EPos i =>
        simp only [compile_unary] at h
        exact ihv (get_val ps i) cs s r (get_val_nc hps i) h
      | ENeg i =>
        cases hc : compile_value fx ps ns fuel (get_val ps i) cs s with
        | none =>
          simp only [compile_unary] at h
          rw [hc] at h
          exact Option.noConfusion h
        | some t =>
          obtain ⟨instr, cs2, s2⟩ := t
          have hic : is_iconst instr = true :=
            ihv (get_val ps i) cs s (instr, cs2, s2) (get_val_nc hps i) hc
          cases instr <;> simp [is_iconst] at hic
          case IConst c =>
            simp only [compile_unary, hc] at h
            obtain rfl := Option.some.inj h
            rfl
      | ENot i =>
        cases hc : compile_value fx ps ns fuel (get_val ps i) cs s with
        | none =>
          simp only [compile_unary] at h
          rw [hc] at h
          exact Option.noConfusion h
        | some t =>
          obtain ⟨instr, cs2, s2⟩ := t
          have hic : is_iconst instr = true :=
            ihv (get_val ps i) cs s (instr, cs2, s2) (get_val_nc hps i) hc
          cases instr <;> simp [is_iconst] at hic
          case IConst c =>
            simp only [compile_unary, hc] at h
            obtain rfl := Option.some.inj h
            rfl
      | EParentheses i =>
        simp only [compile_unary] at h
        exact ihe (get_expr ps i) cs s r (get_expr_nc hps i) h
    -- minmax_rest
    · intro li acc cs s r hall h
      cases li with
      | nil =>
        simp only [minmax_rest] at h
        obtain rfl := Option.some.inj h
        exact hall
      | cons i rest =>
        cases hc : compile_expr fx ps ns fuel (get_expr ps i) cs s with
        | none =>
          simp only [minmax_rest] at h
          rw [hc] at h
          exact Option.noConfusion h
        | some t =>
          obtain ⟨instr, cs2, s2⟩ := t
          simp only [minmax_rest, hc] at h
          have hic : is_iconst instr = true :=
            ihe (get_expr ps i) cs s (instr, cs2, s2) (get_expr_nc hps i) hc
          refine ihmm rest (acc ++ [instr]) cs2 s2 r ?_ h
          simp [List.all_append, hall, hic]
    -- process_unary_fn
    · intro op mk xi cs s r h
      cases hc : compile_expr fx ps ns fuel (get_expr ps xi) cs s with
      | none =>
        simp only [process_unary_fn] at h
        rw [hc] at h
        exact Option.noConfusion h
      | some t =>
        obtain ⟨instr, cs2, s2⟩ := t
        have hic : is_iconst instr = true :=
          ihe (get_expr ps xi) cs s (instr, cs2, s2) (get_expr_nc hps xi) hc
        cases instr <;> simp [is_iconst] at hic
        case IConst c =>
          simp only [process_unary_fn, hc] at h
          obtain rfl := Option.some.inj h
          rfl
    -- compile_stdfunc
    · intro f cs s r hf h
      cases f with
      | EVar name => simp [stdfunc_no_callables] at hf
      | EFunc name exprs => simp [stdfunc_no_callables] at hf
      | EFuncInt x =>
        simp only [compile_stdfunc] at h
        exact ihpu ftrunc Instruction.IFuncInt x cs s r h
      | EFuncCeil x =>
        simp only [compile_stdfunc] at h
        exact ihpu fceil Instruction.IFuncCeil x cs s r h
      | EFuncFloor x =>
        simp only [compile_stdfunc] at h
        exact ihpu ffloor Instruction.IFuncFloor x cs s r h
      | EFuncAbs x =>
        simp only [compile_stdfunc] at h
        exact ihpu fabs Instruction.IFuncAbs x cs s r h
      | EFuncSign x =>
        simp only [compile_stdfunc] at h
        exact ihpu fsignum Instruction.IFuncSign x cs s r h
      | EFuncLog base_opt xpr =>
        cases base_opt with
        | none =>
          cases hc2 : compile_expr fx ps ns fuel (get_expr ps xpr) cs s with
          | none =>
            simp only [compile_stdfunc] at h
            rw [hc2] at h
            exact Option.noConfusion h
          | some t =>
            obtain ⟨instr, cs2, s2⟩ := t
            have hic : is_iconst instr = true :=
              ihe (get_expr ps xpr) cs s (instr, cs2, s2) (get_expr_nc hps xpr) hc2
            cases instr <;> simp [is_iconst] at hic
            case IConst n =>
              simp only [compile_stdfunc, hc2] at h
              obtain rfl := Option.some.inj h
              rfl
        | some bi =>
          cases hc1 : compile_expr fx ps ns fuel (get_expr ps bi) cs s with
          | none =>
            simp only [compile_stdfunc] at h
            rw [hc1] at h
            exact Option.noConfusion h
          | some t1 =>
            obtain ⟨base, cs1, s1⟩ := t1
            have hb : is_iconst base = true :=
              ihe (get_expr ps bi) cs s (base, cs1, s1) (get_expr_nc hps bi) hc1
            cases base <;> simp [is_iconst] at hb
            case IConst b =>
              cases hc2 : compile_expr fx ps ns fuel (get_expr ps xpr) cs1 s1 with
              | none =>
                simp only [compile_stdfunc, hc1] at h
                rw [hc2] at h
                exact Option.noConfusion h
              | some t2 =>
                obtain ⟨instr, cs2, s2⟩ := t2
                have hic : is_iconst instr = true :=
                  ihe (get_expr ps xpr) cs1 s1 (instr, cs2, s2) (get_expr_nc hps xpr) hc2
                cases instr <;> simp [is_iconst] at hic
                case IConst n =>
                  simp only [compile_stdfunc, hc1, hc2] at h
                  obtain rfl := Option.some.inj h
                  rfl
      | EFuncRound mod_opt xpr =>
        cases mod_opt with
        | none =>
          cases hc2 : compile_expr fx ps ns fuel (get_expr ps xpr) cs s with
          | none =>
            simp only [compile_stdfunc] at h
            rw [hc2] at h
            exact Option.noConfusion h
          | some t =>
            obtain ⟨instr, cs2, s2⟩ := t
            have hic : is_iconst instr = true :=
              ihe (get_expr ps xpr) cs s (instr, cs2, s2) (get_expr_nc hps xpr) hc2
            cases instr <;> simp [is_iconst] at hic
            case IConst n =>
              simp only [compile_stdfunc, hc2] at h
              obtain rfl := Option.some.inj h
              rfl
        | some mi =>
          cases hc1 : compile_expr fx ps ns fuel (get_expr ps mi) cs s with
          | none =>
            simp only [compile_stdfunc] at h
            rw [hc1] at h
            exact Option.noConfusion h
          | some t1 =>
            obtain ⟨modulus, cs1, s1⟩ := t1
            have hb : is_iconst modulus = true :=
              ihe (get_expr ps mi) cs s (modulus, cs1, s1) (get_expr_nc hps mi) hc1
            cases modulus <;> simp [is_iconst] at hb
            case IConst m =>
              cases hc2 : compile_expr fx ps ns fuel (get_expr ps xpr) cs1 s1 with
              | none =>
                simp only [compile_stdfunc, hc1] at h
                rw [hc2] at h
                exact Option.noConfusion h
              | some t2 =>
                obtain ⟨instr, cs2, s2⟩ := t2
                have hic : is_iconst instr = true :=
                  ihe (get_expr ps xpr) cs1 s1 (instr, cs2, s2) (get_expr_nc hps xpr) hc2
                cases instr <;> simp [is_iconst] at hic
                case IConst n =>
                  simp only [compile_stdfunc, hc1, hc2] at h
                  obtain rfl := Option.some.inj h
                  rfl
      | EFuncMin fi li =>
        cases hc1 : compile_expr fx ps ns fuel (get_expr ps fi) cs s with
        | none =>
          simp only [compile_stdfunc] at h
          rw [hc1] at h
          exact Option.noConfusion h
        | some t1 =>
          obtain ⟨first, cs1, s1⟩ := t1
          have h1 : is_iconst first = true :=
            ihe (get_expr ps fi) cs s (first, cs1, s1) (get_expr_nc hps fi) hc1
          cases hc2 : minmax_rest fx ps ns fuel li [] cs1 s1 with
          | none =>
            simp only [compile_stdfunc, hc1] at h
            rw [hc2] at h
            exact Option.noConfusion h
          | some t2 =>
            obtain ⟨rest, cs2, s2⟩ := t2
            have h2 : rest.all is_iconst = true := ihmm li [] cs1 s1 (rest, cs2, s2) rfl hc2
            obtain ⟨c, hmf⟩ := @min_fold_all_const first rest cs2 h1 h2
            simp only [compile_stdfunc, hc1, hc2, hmf] at h
            obtain rfl := Option.some.inj h
            rfl
      | EFuncMax fi li =>
        cases hc1 : compile_expr fx ps ns fuel (get_expr ps fi) cs s with
        | none =>
          simp only [compile_stdfunc] at h
          rw [hc1] at h
          exact Option.noConfusion h
        | some t1 =>
          obtain ⟨first, cs1, s1⟩ := t1
          have h1 : is_iconst first = true :=
            ihe (get_expr ps fi) cs s (first, cs1, s1) (get_expr_nc hps fi) hc1
          cases hc2 : minmax_rest fx ps ns fuel li [] cs1 s1 with
          | none =>
            simp only [compile_stdfunc, hc1] at h
            rw [hc2] at h
            exact Option.noConfusion h
          | some t2 =>
            obtain ⟨rest, cs2, s2⟩ := t2
            have h2 : rest.all is_iconst = true := ihmm li [] cs1 s1 (rest, cs2, s2) rfl hc2
            obtain ⟨c, hmf⟩ := @max_fold_all_const first rest cs2 h1 h2
            simp only [compile_stdfunc, hc1, hc2, hmf] at h
            obtain rfl := Option.some.inj h
            rfl
      | EFuncE =>
        simp only [compile_stdfunc] at h
        obtain rfl := Option.some.inj h
        rfl
      | EFuncPi =>
        simp only [compile_stdfunc] at h
        obtain rfl := Option.some.inj h
        rfl
      | EFuncSin x =>
        simp only [compile_stdfunc] at h
        exact ihpu fx.sin Instruction.IFuncSin x cs s r h
      | EFuncCos x =>
        simp only [compile_stdfunc] at h
        exact ihpu fx.cos Instruction.IFuncCos x cs s r h
      | EFuncTan x =>
        simp only [compile_stdfunc] at h
        exact ihpu fx.tan Instruction.IFuncTan x cs s r h
      | EFuncASin x =>
        simp only [compile_stdfunc] at h
        exact ihpu fx.asin Instruction.IFuncASin x cs s r h
      | EFuncACos x =>
        simp only [compile_stdfunc] at h
        exact ihpu fx.acos Instruction.IFuncACos x cs s r h
      | EFuncATan x =>
        simp only [compile_stdfunc] at h
        exact ihpu fx.atan Instruction.IFuncATan x cs s r h
      | EFuncSinH x =>
        simp only [compile_stdfunc] at h
        exact ihpu fx.sinh Instruction.IFuncSinH x cs s r h
      | EFuncCosH x =>
        simp only [compile_stdfunc] at h
        exact ihpu fx.cosh Instruction.IFuncCosH x cs s r h
      | EFuncTanH x =>
        simp only [compile_stdfunc] at h
        exact ihpu fx.tanh Instruction.IFuncTanH x cs s r h
      | EFuncASinH x =>
        simp only [compile_stdfunc] at h
        exact ihpu fx.asinh Instruction.IFuncASinH x cs s r h
      | EFuncACosH x =>
        simp only [compile_stdfunc] at h
        exact ihpu fx.acosh Instruction.IFuncACosH x cs s r h
      | EFuncATanH x =>
        simp only [compile_stdfunc] at h
        exact ihpu fx.atanh Instruction.IFuncATanH x cs s r h

/-- C2: over a slab in which no `Var`, `Func`, `UnsafeVar` or `PrintFunc`
value occurs, compiling any expression that itself contains none of those
(every parse of a string without them yields such a slab) returns a single
`IConst` instruction, never any other instruction variant. -/
theorem C2_constant_expressions_compile_to_const {σ : Type} (fx : Foreign)
    (ps : ParseSlab) (ns : Ns σ) (fuel : Nat) (e : Expression) (cs : CompileSlab)
    (s : σ) (out : Instruction) (cs' : CompileSlab) (s' : σ)
    (hps : ps_no_callables ps = true) (he : expr_no_callables e = true)
    (h : compile_expr fx ps ns fuel e cs s = some (out, cs', s')) :
    is_iconst out = true :=
  (compile_nc_main fx ps ns hps fuel).1 e cs s (out, cs', s') he h

/-- Witness for C2: compiling `2 + 3` over the empty slab yields the single
constant instruction `IConst 5`. -/
theorem C2_constant_expressions_compile_to_const_witness :
    ps_no_callables ⟨[], []⟩ = true ∧
    expr_no_callables ⟨.EConstant (.num 2), [⟨.EAdd, .EConstant (.num 3)⟩]⟩ = true ∧
    is_iconst (.IConst (.num 5)) = true :=
  ⟨by decide, by decide,
   C2_constant_expressions_compile_to_const fx0 ⟨[], []⟩ empty_ns 10
     ⟨.EConstant (.num 2), [⟨.EAdd, .EConstant (.num 3)⟩]⟩ [] ()
     (.IConst (.num 5)) [] () (by decide) (by decide) (by decide)⟩

/-! ## Helper lemmas for the nested-involution claim -/

theorem getD_append_lt {α : Type} (l l' : List α) (d : α) :
    ∀ i, i < l.length → (l ++ l').getD i d = l.getD i d := by
  induction l with
  | nil => intro i hi; simp at hi
  | cons x xs ih =>
    intro i hi
    cases i with
    | zero => simp [List.getD]
    | succ j => simpa [List.getD] using ih j (by simpa using hi)

theorem getD_append_self {α : Type} (l : List α) (x d : α) :
    (l ++ [x]).getD l.length d = x := by
  induction l with
  | nil => simp [List.getD]
  | cons y ys ih => simp [List.getD]

theorem getD_set_eq {α : Type} (l : List α) (x d : α) :
    ∀ i, i < l.length → (l.set i x).getD i d = x := by
  induction l with
  | nil => intro i hi; simp at hi
  | cons y ys ih =>
    intro i hi
    cases i with
    | zero => simp [List.getD]
    | succ j => simpa [List.set, List.getD] using ih j (by simpa using hi)

theorem getD_set_ne {α : Type} (l : List α) (x d : α) :
    ∀ i j, i ≠ j → (l.set i x).getD j d = l.getD j d := by
  induction l with
  | nil => intro i j _; simp [List.set]
  | cons y ys ih =>
    intro i j hne
    cases i with
    | zero =>
      cases j with
      | zero => exact absurd rfl hne
      | succ k => simp [List.set, List.getD]
    | succ m =>
      cases j with
      | zero => simp [List.set, List.getD]
      | succ k => simpa [List.set, List.getD] using ih m k (by omega)

theorem evolves_refl (cs : CompileSlab) : slab_evolves cs cs :=
  ⟨le_refl _, fun _ _ => Or.inl rfl⟩

theorem evolves_trans {a b c : CompileSlab} (h1 : slab_evolves a b)
    (h2 : slab_evolves b c) : slab_evolves a c := by
  refine ⟨le_trans h1.1 h2.1, fun i hi => ?_⟩
  rcases h2.2 i (lt_of_lt_of_le hi h1.1) with h | h
  · rw [h]; exact h1.2 i hi
  · exact Or.inr h

theorem evolves_push (cs : CompileSlab) (x : Instruction) :
    slab_evolves cs (cs ++ [x]) := by
  refine ⟨by simp, fun i hi => Or.inl ?_⟩
  exact getD_append_lt cs [x] default i hi

theorem evolves_set (cs : CompileSlab) (i : Nat) :
    slab_evolves cs (cs.set i default) := by
  refine ⟨by simp, fun j hj => ?_⟩
  by_cases hij : i = j
  · subst hij
    exact Or.inr (getD_set_eq cs default default i hj)
  · exact Or.inl (getD_set_ne cs default default i j hij)

theorem inv_node_ok_mono {cs cs' : CompileSlab} (he : slab_evolves cs cs')
    {x : Instruction} (hx : inv_node_ok cs x = true) : inv_node_ok cs' x = true := by
  cases x <;> try rfl
  case INeg i =>
    simp only [inv_node_ok, Bool.and_eq_true, decide_eq_true_eq,
      Bool.not_eq_eq_eq_not, Bool.not_true] at hx ⊢
    refine ⟨lt_of_lt_of_le hx.1 he.1, ?_⟩
    rcases he.2 i hx.1 with h | h
    · rw [h]; exact hx.2
    · rw [h]; rfl
  case INot i =>
    simp only [inv_node_ok, Bool.and_eq_true, decide_eq_true_eq,
      Bool.not_eq_eq_eq_not, Bool.not_true] at hx ⊢
    refine ⟨lt_of_lt_of_le hx.1 he.1, ?_⟩
    rcases he.2 i hx.1 with h | h
    · rw [h]; exact hx.2
    · rw [h]; rfl
  case IInv i =>
    simp only [inv_node_ok, Bool.and_eq_true, decide_eq_true_eq,
      Bool.not_eq_eq_eq_not, Bool.not_true] at hx ⊢
    refine ⟨lt_of_lt_of_le hx.1 he.1, ?_⟩
    rcases he.2 i hx.1 with h | h
    · rw [h]; exact hx.2
    · rw [h]; rfl

theorem all_inv_mono {cs cs' : CompileSlab} (he : slab_evolves cs cs')
    {l : List Instruction} (hl : l.all (inv_node_ok cs) = true) :
    l.all (inv_node_ok cs') = true := by
  rw [List.all_eq_true] at hl ⊢
  intro x hx
  exact inv_node_ok_mono he (hl x hx)

theorem getD_ok {cs : CompileSlab} (hs : slab_inv_ok cs = true) (i : Nat) :
    inv_node_ok cs (cs.getD i default) = true :=
  all_getD hs i default rfl

theorem get_instr_ok {cs : CompileSlab} (hs : slab_inv_ok cs = true) (i : Nat) :
    inv_node_ok cs (get_instr cs i) = true :=
  getD_ok hs i

theorem slab_inv_ok_push {cs : CompileSlab} {x : Instruction}
    (hs : slab_inv_ok cs = true) (hx : inv_node_ok cs x = true) :
    slab_inv_ok (cs ++ [x]) = true := by
  have he := evolves_push cs x
  simp only [slab_inv_ok, List.all_eq_true]
  intro y hy
  rcases List.mem_append.mp hy with h | h
  · exact inv_node_ok_mono he (all_mem_true hs h)
  · have : y = x := by simpa using h
    subst this
    exact inv_node_ok_mono he hx

theorem slab_inv_ok_set {cs : CompileSlab} (hs : slab_inv_ok cs = true) (i : Nat) :
    slab_inv_ok (cs.set i default) = true := by
  have he := evolves_set cs i
  simp only [slab_inv_ok, List.all_eq_true]
  intro y hy
  rcases List.mem_or_eq_of_mem_set hy with h | h
  · exact inv_node_ok_mono he (all_mem_true hs h)
  · subst h
    rfl

theorem take_instr_ok {cs : CompileSlab} (hs : slab_inv_ok cs = true) (i : Nat) :
    slab_inv_ok (take_instr cs i).2 = true ∧
    inv_node_ok (take_instr cs i).2 (take_instr cs i).1 = true ∧
    slab_evolves cs (take_instr cs i).2 :=
  ⟨slab_inv_ok_set hs i, inv_node_ok_mono (evolves_set cs i) (getD_ok hs i),
   evolves_set cs i⟩

theorem push_neg_ok {cs : CompileSlab} {x : Instruction} (hne : is_ineg x = false) :
    inv_node_ok (cs ++ [x]) (.INeg cs.length) = true := by
  have h1 : get_instr (cs ++ [x]) cs.length = x := getD_append_self cs x default
  simp [inv_node_ok, h1, hne]

theorem push_not_ok {cs : CompileSlab} {x : Instruction} (hne : is_inot x = false) :
    inv_node_ok (cs ++ [x]) (.INot cs.length) = true := by
  have h1 : get_instr (cs ++ [x]) cs.length = x := getD_append_self cs x default
  simp [inv_node_ok, h1, hne]

theorem push_inv_ok {cs : CompileSlab} {x : Instruction} (hne : is_iinv x = false) :
    inv_node_ok (cs ++ [x]) (.IInv cs.length) = true := by
  have h1 : get_instr (cs ++ [x]) cs.length = x := getD_append_self cs x default
  simp [inv_node_ok, h1, hne]

theorem neg_wrap_ok {cs : CompileSlab} {instr : Instruction}
    (hs : slab_inv_ok cs = true) (hx : inv_node_ok cs instr = true) :
    slab_inv_ok (neg_wrap instr cs).2 = true ∧
    inv_node_ok (neg_wrap instr cs).2 (neg_wrap instr cs).1 = true ∧
    slab_evolves cs (neg_wrap instr cs).2 := by
  cases instr
  case IConst c => exact ⟨hs, rfl, evolves_refl cs⟩
  case INeg i => exact take_instr_ok hs i
  all_goals exact ⟨slab_inv_ok_push hs hx, push_neg_ok rfl, evolves_push cs _⟩

theorem not_wrap_ok {cs : CompileSlab} {instr : Instruction}
    (hs : slab_inv_ok cs = true) (hx : inv_node_ok cs instr = true) :
    slab_inv_ok (not_wrap instr cs).2 = true ∧
    inv_node_ok (not_wrap instr cs).2 (not_wrap instr cs).1 = true ∧
    slab_evolves cs (not_wrap instr cs).2 := by
  cases instr
  case IConst c => exact ⟨hs, rfl, evolves_refl cs⟩
  case INot i => exact take_instr_ok hs i
  all_goals exact ⟨slab_inv_ok_push hs hx, push_not_ok rfl, evolves_push cs _⟩

theorem inv_wrap_ok {cs : CompileSlab} {instr : Instruction}
    (hs : slab_inv_ok cs = true) (hx : inv_node_ok cs instr = true) :
    slab_inv_ok (inv_wrap instr cs).2 = true ∧
    inv_node_ok (inv_wrap instr cs).2 (inv_wrap instr cs).1 = true ∧
    slab_evolves cs (inv_wrap instr cs).2 := by
  cases instr
  case IConst c => exact ⟨hs, rfl, evolves_refl cs⟩
  case IInv i => exact take_instr_ok hs i
  all_goals exact ⟨slab_inv_ok_push hs hx, push_inv_ok rfl, evolves_push cs _⟩

theorem instr_to_ic_ok {cs : CompileSlab} {x : Instruction}
    (hs : slab_inv_ok cs = true) (hx : inv_node_ok cs x = true) :
    slab_inv_ok (instr_to_ic cs x).1 = true ∧ slab_evolves cs (instr_to_ic cs x).1 := by
  cases x
  case IConst c => exact ⟨hs, evolves_refl cs⟩
  all_goals exact ⟨slab_inv_ok_push hs hx, evolves_push cs _⟩

theorem compile_add_go_cons_nonconst {instr : Instruction}
    (hni : is_iconst instr = false) (rest : List Instruction) (out : Instruction)
    (os : Bool) (c : F) (cs : CompileSlab) :
    compile_add_go (instr :: rest) out os c cs =
      if os = true then
        compile_add_go rest (.IAdd cs.length (.I (cs ++ [out]).length)) true c
          ((cs ++ [out]) ++ [instr])
      else compile_add_go rest instr true c cs := by
  cases instr <;> first | rfl | simp [is_iconst] at hni

theorem compile_add_go_ok :
    ∀ (instrs : List Instruction) (out : Instruction) (os : Bool) (c : F)
      (cs : CompileSlab), slab_inv_ok cs = true → inv_node_ok cs out = true →
      instrs.all (inv_node_ok cs) = true →
      slab_inv_ok (compile_add_go instrs out os c cs).2.2.2 = true ∧
      inv_node_ok (compile_add_go instrs out os c cs).2.2.2
        (compile_add_go instrs out os c cs).1 = true ∧
      slab_evolves cs (compile_add_go instrs out os c cs).2.2.2 := by
  intro instrs
  induction instrs with
  | nil => intro out os c cs hs hout _; exact ⟨hs, hout, evolves_refl cs⟩
  | cons instr rest ih =>
    intro out os c cs hs hout hall
    simp only [List.all_cons, Bool.and_eq_true] at hall
    obtain ⟨h1, h2⟩ := hall
    by_cases hci : is_iconst instr = true
    · cases instr <;> simp [is_iconst] at hci
      rename_i cc
      exact ih out os (fadd c cc) cs hs hout h2
    · have hci' : is_iconst instr = false := by
        cases hb : is_iconst instr
        · rfl
        · exact absurd hb hci
      rw [compile_add_go_cons_nonconst hci' rest out os c cs]
      cases os
      · exact ih instr true c cs hs h1 h2
      · have e1 := evolves_push cs out
        have hs1 := slab_inv_ok_push hs hout
        have e2 := evolves_push (cs ++ [out]) instr
        have hs2 := slab_inv_ok_push hs1 (inv_node_ok_mono e1 h1)
        have e12 := evolves_trans e1 e2
        have hres := ih (.IAdd cs.length (.I (cs ++ [out]).length)) true c
          ((cs ++ [out]) ++ [instr]) hs2 rfl (all_inv_mono e12 h2)
        exact ⟨hres.1, hres.2.1, evolves_trans e12 hres.2.2⟩

theorem compile_add_tail_ok (cs : CompileSlab) (t : Instruction × Bool × F × CompileSlab)
    (hs' : slab_inv_ok t.2.2.2 = true) (hout' : inv_node_ok t.2.2.2 t.1 = true)
    (he' : slab_evolves cs t.2.2.2) :
    slab_inv_ok (if f32_ne t.2.2.1 (.num 0) = true then
        (if t.2.1 = true then
          (Instruction.IAdd t.2.2.2.length (IC.C t.2.2.1), t.2.2.2 ++ [t.1])
         else (Instruction.IConst t.2.2.1, t.2.2.2))
      else (t.1, t.2.2.2)).2 = true ∧
    inv_node_ok (if f32_ne t.2.2.1 (.num 0) = true then
        (if t.2.1 = true then
          (Instruction.IAdd t.2.2.2.length (IC.C t.2.2.1), t.2.2.2 ++ [t.1])
         else (Instruction.IConst t.2.2.1, t.2.2.2))
      else (t.1, t.2.2.2)).2
      (if f32_ne t.2.2.1 (.num 0) = true then
        (if t.2.1 = true then
          (Instruction.IAdd t.2.2.2.length (IC.C t.2.2.1), t.2.2.2 ++ [t.1])
         else (Instruction.IConst t.2.2.1, t.2.2.2))
      else (t.1, t.2.2.2)).1 = true ∧
    slab_evolves cs (if f32_ne t.2.2.1 (.num 0) = true then
        (if t.2.1 = true then
          (Instruction.IAdd t.2.2.2.length (IC.C t.2.2.1), t.2.2.2 ++ [t.1])
         else (Instruction.IConst t.2.2.1, t.2.2.2))
      else (t.1, t.2.2.2)).2 := by
  obtain ⟨out, os, c, cs'⟩ := t
  by_cases hne : f32_ne c (.num 0) = true
  · rw [if_pos hne]
    cases os
    · exact ⟨hs', rfl, he'⟩
    · exact ⟨slab_inv_ok_push hs' hout', rfl, evolves_trans he' (evolves_push cs' out)⟩
  · rw [if_neg hne]
    exact ⟨hs', hout', he'⟩

theorem compile_add_ok {instrs : List Instruction} {cs : CompileSlab}
    (hs : slab_inv_ok cs = true) (hall : instrs.all (inv_node_ok cs) = true) :
    slab_inv_ok (compile_add instrs cs).2 = true ∧
    inv_node_ok (compile_add instrs cs).2 (compile_add instrs cs).1 = true ∧
    slab_evolves cs (compile_add instrs cs).2 := by
  obtain ⟨hs', hout', he'⟩ :=
    compile_add_go_ok instrs (.IConst (.num 0)) false (.num 0) cs hs rfl hall
  exact compile_add_tail_ok cs (compile_add_go instrs (.IConst (.num 0)) false (.num 0) cs)
    hs' hout' he'

theorem compile_mul_go_cons_nonconst {instr : Instruction}
    (hni : is_iconst instr = false) (rest : List Instruction) (out : Instruction)
    (os : Bool) (c : F) (cs : CompileSlab) :
    compile_mul_go (instr :: rest) out os c cs =
      if os = true then
        compile_mul_go rest (.IMul cs.length (.I (cs ++ [out]).length)) true c
          ((cs ++ [out]) ++ [instr])
      else compile_mul_go rest instr true c cs := by
  cases instr <;> first | rfl | simp [is_iconst] at hni

theorem compile_mul_go_ok :
    ∀ (instrs : List Instruction) (out : Instruction) (os : Bool) (c : F)
      (cs : CompileSlab), slab_inv_ok cs = true → inv_node_ok cs out = true →
      instrs.all (inv_node_ok cs) = true →
      slab_inv_ok (compile_mul_go instrs out os c cs).2.2.2 = true ∧
      inv_node_ok (compile_mul_go instrs out os c cs).2.2.2
        (compile_mul_go instrs out os c cs).1 = true ∧
      slab_evolves cs (compile_mul_go instrs out os c cs).2.2.2 := by
  intro instrs
  induction instrs with
  | nil => intro out os c cs hs hout _; exact ⟨hs, hout, evolves_refl cs⟩
  | cons instr rest ih =>
    intro out os c cs hs hout hall
    simp only [List.all_cons, Bool.and_eq_true] at hall
    obtain ⟨h1, h2⟩ := hall
    by_cases hci : is_iconst instr = true
    · cases instr <;> simp [is_iconst] at hci
      rename_i cc
      exact ih out os (fmul c cc) cs hs hout h2
    · have hci' : is_iconst instr = false := by
        cases hb : is_iconst instr
        · rfl
        · exact absurd hb hci
      rw [compile_mul_go_cons_nonconst hci' rest out os c cs]
      cases os
      · exact ih instr true c cs hs h1 h2
      · have e1 := evolves_push cs out
        have hs1 := slab_inv_ok_push hs hout
        have e2 := evolves_push (cs ++ [out]) instr
        have hs2 := slab_inv_ok_push hs1 (inv_node_ok_mono e1 h1)
        have e12 := evolves_trans e1 e2
        have hres := ih (.IMul cs.length (.I (cs ++ [out]).length)) true c
          ((cs ++ [out]) ++ [instr]) hs2 rfl (all_inv_mono e12 h2)
        exact ⟨hres.1, hres.2.1, evolves_trans e12 hres.2.2⟩

theorem compile_mul_tail_ok (cs : CompileSlab) (t : Instruction × Bool × F × CompileSlab)
    (hs' : slab_inv_ok t.2.2.2 = true) (hout' : inv_node_ok t.2.2.2 t.1 = true)
    (he' : slab_evolves cs t.2.2.2) :
    slab_inv_ok (if f32_ne t.2.2.1 (.num 1) = true then
        (if t.2.1 = true then
          (Instruction.IMul t.2.2.2.length (IC.C t.2.2.1), t.2.2.2 ++ [t.1])
         else (Instruction.IConst t.2.2.1, t.2.2.2))
      else (t.1, t.2.2.2)).2 = true ∧
    inv_node_ok (if f32_ne t.2.2.1 (.num 1) = true then
        (if t.2.1 = true then
          (Instruction.IMul t.2.2.2.length (IC.C t.2.2.1), t.2.2.2 ++ [t.1])
         else (Instruction.IConst t.2.2.1, t.2.2.2))
      else (t.1, t.2.2.2)).2
      (if f32_ne t.2.2.1 (.num 1) = true then
        (if t.2.1 = true then
          (Instruction.IMul t.2.2.2.length (IC.C t.2.2.1), t.2.2.2 ++ [t.1])
         else (Instruction.IConst t.2.2.1, t.2.2.2))
      else (t.1, t.2.2.2)).1 = true ∧
    slab_evolves cs (if f32_ne t.2.2.1 (.num 1) = true then
        (if t.2.1 = true then
          (Instruction.IMul t.2.2.2.length (IC.C t.2.2.1), t.2.2.2 ++ [t.1])
         else (Instruction.IConst t.2.2.1, t.2.2.2))
      else (t.1, t.2.2.2)).2 := by
  obtain ⟨out, os, c, cs'⟩ := t
  by_cases hne : f32_ne c (.num 1) = true
  · rw [if_pos hne]
    cases os
    · exact ⟨hs', rfl, he'⟩
    · exact ⟨slab_inv_ok_push hs' hout', rfl, evolves_trans he' (evolves_push cs' out)⟩
  · rw [if_neg hne]
    exact ⟨hs', hout', he'⟩

theorem compile_mul_ok {instrs : List Instruction} {cs : CompileSlab}
    (hs : slab_inv_ok cs = true) (hall : instrs.all (inv_node_ok cs) = true) :
    slab_inv_ok (compile_mul instrs cs).2 = true ∧
    inv_node_ok (compile_mul instrs cs).2 (compile_mul instrs cs).1 = true ∧
    slab_evolves cs (compile_mul instrs cs).2 := by
  obtain ⟨hs', hout', he'⟩ :=
    compile_mul_go_ok instrs (.IConst (.num 1)) false (.num 1) cs hs rfl hall
  exact compile_mul_tail_ok cs (compile_mul_go instrs (.IConst (.num 1)) false (.num 1) cs)
    hs' hout' he'

theorem min_fold_go_cons_nonconst {instr : Instruction}
    (hni : is_iconst instr = false) (rest : List Instruction) (out : Instruction)
    (os : Bool) (cmin : F) (cset : Bool) (cs : CompileSlab) :
    min_fold_go (instr :: rest) out os cmin cset cs =
      if os = true then
        min_fold_go rest (.IFuncMin cs.length (.I (cs ++ [out]).length)) true cmin cset
          ((cs ++ [out]) ++ [instr])
      else min_fold_go rest instr true cmin cset cs := by
  cases instr <;> first | rfl | simp [is_iconst] at hni

theorem min_fold_go_cons_const (cc : F) (rest : List Instruction) (out : Instruction)
    (os : Bool) (cmin : F) (cset : Bool) (cs : CompileSlab) :
    min_fold_go (.IConst cc :: rest) out os cmin cset cs =
      min_fold_go rest out os
        (if cset = true then (if flt cc cmin = true then cc else cmin) else cc) true cs := by
  cases cset
  · rfl
  · simp only [min_fold_go]
    by_cases hf : flt cc cmin = true
    · simp [hf]
    · simp [hf]

theorem min_fold_go_ok :
    ∀ (rest : List Instruction) (out : Instruction) (os : Bool) (cmin : F) (cset : Bool)
      (cs : CompileSlab), slab_inv_ok cs = true → inv_node_ok cs out = true →
      rest.all (inv_node_ok cs) = true →
      slab_inv_ok (min_fold_go rest out os cmin cset cs).2.2.2.2 = true ∧
      inv_node_ok (min_fold_go rest out os cmin cset cs).2.2.2.2
        (min_fold_go rest out os cmin cset cs).1 = true ∧
      slab_evolves cs (min_fold_go rest out os cmin cset cs).2.2.2.2 := by
  intro rest
  induction rest with
  | nil => intro out os cmin cset cs hs hout _; exact ⟨hs, hout, evolves_refl cs⟩
  | cons instr rest ih =>
    intro out os cmin cset cs hs hout hall
    simp only [List.all_cons, Bool.and_eq_true] at hall
    obtain ⟨h1, h2⟩ := hall
    by_cases hci : is_iconst instr = true
    · cases instr <;> simp [is_iconst] at hci
      rename_i cc
      rw [min_fold_go_cons_const cc rest out os cmin cset cs]
      exact ih out os _ true cs hs hout h2
    · have hci' : is_iconst instr = false := by
        cases hb : is_iconst instr
        · rfl
        · exact absurd hb hci
      rw [min_fold_go_cons_nonconst hci' rest out os cmin cset cs]
      cases os
      · exact ih instr true cmin cset cs hs h1 h2
      · have e1 := evolves_push cs out
        have hs1 := slab_inv_ok_push hs hout
        have e2 := evolves_push (cs ++ [out]) instr
        have hs2 := slab_inv_ok_push hs1 (inv_node_ok_mono e1 h1)
        have e12 := evolves_trans e1 e2
        have hres := ih (.IFuncMin cs.length (.I (cs ++ [out]).length)) true cmin cset
          ((cs ++ [out]) ++ [instr]) hs2 rfl (all_inv_mono e12 h2)
        exact ⟨hres.1, hres.2.1, evolves_trans e12 hres.2.2⟩

theorem minmax_fold_tail_ok (mk : InstructionI → IC → Instruction)
    (hmk : ∀ (csx : CompileSlab) (j : InstructionI) (ic : IC),
      inv_node_ok csx (mk j ic) = true)
    (cs : CompileSlab) (t : Instruction × Bool × F × Bool × CompileSlab)
    (hs' : slab_inv_ok t.2.2.2.2 = true) (hout' : inv_node_ok t.2.2.2.2 t.1 = true)
    (he' : slab_evolves cs t.2.2.2.2) :
    slab_inv_ok (if t.2.2.2.1 = true then
        (if t.2.1 = true then
          (mk t.2.2.2.2.length (IC.C t.2.2.1), t.2.2.2.2 ++ [t.1])
         else (Instruction.IConst t.2.2.1, t.2.2.2.2))
      else (t.1, t.2.2.2.2)).2 = true ∧
    inv_node_ok (if t.2.2.2.1 = true then
        (if t.2.1 = true then
          (mk t.2.2.2.2.length (IC.C t.2.2.1), t.2.2.2.2 ++ [t.1])
         else (Instruction.IConst t.2.2.1, t.2.2.2.2))
      else (t.1, t.2.2.2.2)).2
      (if t.2.2.2.1 = true then
        (if t.2.1 = true then
          (mk t.2.2.2.2.length (IC.C t.2.2.1), t.2.2.2.2 ++ [t.1])
         else (Instruction.IConst t.2.2.1, t.2.2.2.2))
      else (t.1, t.2.2.2.2)).1 = true ∧
    slab_evolves cs (if t.2.2.2.1 = true then
        (if t.2.1 = true then
          (mk t.2.2.2.2.length (IC.C t.2.2.1), t.2.2.2.2 ++ [t.1])
         else (Instruction.IConst t.2.2.1, t.2.2.2.2))
      else (t.1, t.2.2.2.2)).2 := by
  obtain ⟨out, os, cmin, cset, cs'⟩ := t
  cases cset
  · exact ⟨hs', hout', he'⟩
  · cases os
    · exact ⟨hs', rfl, he'⟩
    · exact ⟨slab_inv_ok_push hs' hout', hmk _ _ _, evolves_trans he' (evolves_push cs' out)⟩

theorem min_fold_ok {first : Instruction} {rest : List Instruction} {cs : CompileSlab}
    (hs : slab_inv_ok cs = true) (h1 : inv_node_ok cs first = true)
    (h2 : rest.all (inv_node_ok cs) = true) :
    slab_inv_ok (min_fold first rest cs).2 = true ∧
    inv_node_ok (min_fold first rest cs).2 (min_fold first rest cs).1 = true ∧
    slab_evolves cs (min_fold first rest cs).2 := by
  cases first
  case IConst f =>
    obtain ⟨hs', hout', he'⟩ :=
      min_fold_go_ok rest (.IConst (.num 0)) false f true cs hs rfl h2
    exact minmax_fold_tail_ok (fun j ic => .IFuncMin j ic) (fun _ _ _ => rfl) cs
      (min_fold_go rest (.IConst (.num 0)) false f true cs) hs' hout' he'
  all_goals (
    obtain ⟨hs', hout', he'⟩ := min_fold_go_ok rest _ true (.num 0) false cs hs h1 h2
    exact minmax_fold_tail_ok (fun j ic => .IFuncMin j ic) (fun _ _ _ => rfl) cs
      (min_fold_go rest _ true (.num 0) false cs) hs' hout' he')

theorem max_fold_go_cons_nonconst {instr : Instruction}
    (hni : is_iconst instr = false) (rest : List Instruction) (out : Instruction)
    (os : Bool) (cmax : F) (cset : Bool) (cs : CompileSlab) :
    max_fold_go (instr :: rest) out os cmax cset cs =
      if os = true then
        max_fold_go rest (.IFuncMax cs.length (.I (cs ++ [out]).length)) true cmax cset
          ((cs ++ [out]) ++ [instr])
      else max_fold_go rest instr true cmax cset cs := by
  cases instr <;> first | rfl | simp [is_iconst] at hni

theorem max_fold_go_cons_const (cc : F) (rest : List Instruction) (out : Instruction)
    (os : Bool) (cmax : F) (cset : Bool) (cs : CompileSlab) :
    max_fold_go (.IConst cc :: rest) out os cmax cset cs =
      max_fold_go rest out os
        (if cset = true then (if fgt cc cmax = true then cc else cmax) else cc) true cs := by
  cases cset
  · rfl
  · simp only [max_fold_go]
    by_cases hf : fgt cc cmax = true
    · simp [hf]
    · simp [hf]

theorem max_fold_go_ok :
    ∀ (rest : List Instruction) (out : Instruction) (os : Bool) (cmax : F) (cset : Bool)
      (cs : CompileSlab), slab_inv_ok cs = true → inv_node_ok cs out = true →
      rest.all (inv_node_ok cs) = true →
      slab_inv_ok (max_fold_go rest out os cmax cset cs).2.2.2.2 = true ∧
      inv_node_ok (max_fold_go rest out os cmax cset cs).2.2.2.2
        (max_fold_go rest out os cmax cset cs).1 = true ∧
      slab_evolves cs (max_fold_go rest out os cmax cset cs).2.2.2.2 := by
  intro rest
  induction rest with
  | nil => intro out os cmax cset cs hs hout _; exact ⟨hs, hout, evolves_refl cs⟩
  | cons instr rest ih =>
    intro out os cmax cset cs hs hout hall
    simp only [List.all_cons, Bool.and_eq_true] at hall
    obtain ⟨h1, h2⟩ := hall
    by_cases hci : is_iconst instr = true
    · cases instr <;> simp [is_iconst] at hci
      rename_i cc
      rw [max_fold_go_cons_const cc rest out os cmax cset cs]
      exact ih out os _ true cs hs hout h2
    · have hci' : is_iconst instr = false := by
        cases hb : is_iconst instr
        · rfl
        · exact absurd hb hci
      rw [max_fold_go_cons_nonconst hci' rest out os cmax cset cs]
      cases os
      · exact ih instr true cmax cset cs hs h1 h2
      · have e1 := evolves_push cs out
        have hs1 := slab_inv_ok_push hs hout
        have e2 := evolves_push (cs ++ [out]) instr
        have hs2 := slab_inv_ok_push hs1 (inv_node_ok_mono e1 h1)
        have e12 := evolves_trans e1 e2
        have hres := ih (.IFuncMax cs.length (.I (cs ++ [out]).length)) true cmax cset
          ((cs ++ [out]) ++ [instr]) hs2 rfl (all_inv_mono e12 h2)
        exact ⟨hres.1, hres.2.1, evolves_trans e12 hres.2.2⟩

theorem max_fold_ok {first : Instruction} {rest : List Instruction} {cs : CompileSlab}
    (hs : slab_inv_ok cs = true) (h1 : inv_node_ok cs first = true)
    (h2 : rest.all (inv_node_ok cs) = true) :
    slab_inv_ok (max_fold first rest cs).2 = true ∧
    inv_node_ok (max_fold first rest cs).2 (max_fold first rest cs).1 = true ∧
    slab_evolves cs (max_fold first rest cs).2 := by
  cases first
  case IConst f =>
    obtain ⟨hs', hout', he'⟩ :=
      max_fold_go_ok rest (.IConst (.num 0)) false f true cs hs rfl h2
    exact minmax_fold_tail_ok (fun j ic => .IFuncMax j ic) (fun _ _ _ => rfl) cs
      (max_fold_go rest (.IConst (.num 0)) false f true cs) hs' hout' he'
  all_goals (
    obtain ⟨hs', hout', he'⟩ := max_fold_go_ok rest _ true (.num 0) false cs hs h1 h2
    exact minmax_fold_tail_ok (fun j ic => .IFuncMax j ic) (fun _ _ _ => rfl) cs
      (max_fold_go rest _ true (.num 0) false cs) hs' hout' he')

theorem pal_tail_ok (fuel : Nat)
    (ih : ∀ (instrs : List Instruction) (cs : CompileSlab) (li : InstructionI) (ric : IC),
      slab_inv_ok cs = true → instrs.all (inv_node_ok cs) = true →
      ∀ res, push_add_leaves fuel instrs cs li ric = some res →
        res.1.all (inv_node_ok res.2) = true ∧ slab_inv_ok res.2 = true ∧
        slab_evolves cs res.2)
    (instrs1 : List Instruction) (cs1 : CompileSlab) (li : InstructionI)
    (hs1 : slab_inv_ok cs1 = true) (hall1 : instrs1.all (inv_node_ok cs1) = true) :
    ∀ res, (match cs1.getD li default with
            | Instruction.IAdd lli lric =>
              push_add_leaves fuel instrs1 (cs1.set li default) lli lric
            | _ => some (instrs1 ++ [cs1.getD li default], cs1.set li default)) = some res →
      res.1.all (inv_node_ok res.2) = true ∧ slab_inv_ok res.2 = true ∧
      slab_evolves cs1 res.2 := by
  cases hti : cs1.getD li default
  case IAdd lli lric =>
    intro res h
    have h2 := ih instrs1 (cs1.set li default) lli lric (slab_inv_ok_set hs1 li)
      (all_inv_mono (evolves_set cs1 li) hall1) res h
    exact ⟨h2.1, h2.2.1, evolves_trans (evolves_set cs1 li) h2.2.2⟩
  all_goals (
    intro res h
    obtain rfl := Option.some.inj h
    refine ⟨?_, slab_inv_ok_set hs1 li, evolves_set cs1 li⟩
    have hX := getD_ok hs1 li
    rw [hti] at hX
    simp [List.all_append, all_inv_mono (evolves_set cs1 li) hall1,
      inv_node_ok_mono (evolves_set cs1 li) hX])

theorem push_add_leaves_ok :
    ∀ (fuel : Nat) (instrs : List Instruction) (cs : CompileSlab) (li : InstructionI)
      (ric : IC), slab_inv_ok cs = true → instrs.all (inv_node_ok cs) = true →
      ∀ res, push_add_leaves fuel instrs cs li ric = some res →
        res.1.all (inv_node_ok res.2) = true ∧ slab_inv_ok res.2 = true ∧
        slab_evolves cs res.2 := by
  intro fuel
  induction fuel with
  | zero => intro instrs cs li ric _ _ res h; exact Option.noConfusion h
  | succ fuel ih =>
    intro instrs cs li ric hs hall
    cases ric with
    | C c =>
      intro res h
      replace h : (match cs.getD li default with
          | Instruction.IAdd lli lric =>
            push_add_leaves fuel (instrs ++ [Instruction.IConst c]) (cs.set li default)
              lli lric
          | _ => some ((instrs ++ [Instruction.IConst c]) ++ [cs.getD li default],
                       cs.set li default)) = some res := h
      have hall1 : (instrs ++ [Instruction.IConst c]).all (inv_node_ok cs) = true := by
        simp [List.all_append, hall, inv_node_ok]
      exact pal_tail_ok fuel ih (instrs ++ [Instruction.IConst c]) cs li hs hall1 res h
    | I ri =>
      intro res h
      replace h : (match (match cs.getD ri default with
          | Instruction.IAdd rli rric =>
            push_add_leaves fuel instrs (cs.set ri default) rli rric
          | _ => some (instrs ++ [cs.getD ri default], cs.set ri default)) with
        | none => (none : Option (List Instruction × CompileSlab))
        | some (instrs2, cs2) =>
          match cs2.getD li default with
          | Instruction.IAdd lli lric =>
            push_add_leaves fuel instrs2 (cs2.set li default) lli lric
          | _ => some (instrs2 ++ [cs2.getD li default], cs2.set li default)) = some res := h
      cases hti : cs.getD ri default
      case IAdd rli rric =>
        simp only [hti] at h
        cases hstep : push_add_leaves fuel instrs (cs.set ri default) rli rric with
        | none =>
          rw [hstep] at h
          exact Option.noConfusion h
        | some t =>
          obtain ⟨instrs2, cs2⟩ := t
          rw [hstep] at h
          have h2 := ih instrs (cs.set ri default) rli rric (slab_inv_ok_set hs ri)
            (all_inv_mono (evolves_set cs ri) hall) (instrs2, cs2) hstep
          replace h : (match cs2.getD li default with
              | Instruction.IAdd lli lric =>
                push_add_leaves fuel instrs2 (cs2.set li default) lli lric
              | _ => some (instrs2 ++ [cs2.getD li default], cs2.set li default))
              = some res := h
          have h3 := pal_tail_ok fuel ih instrs2 cs2 li h2.2.1 h2.1 res h
          exact ⟨h3.1, h3.2.1,
            evolves_trans (evolves_trans (evolves_set cs ri) h2.2.2) h3.2.2⟩
      all_goals (
        simp only [hti] at h
        rw [← hti] at h
        replace h : (match (cs.set ri default).getD li default with
            | Instruction.IAdd lli lric =>
              push_add_leaves fuel (instrs ++ [cs.getD ri default])
                ((cs.set ri default).set li default) lli lric
            | _ => some ((instrs ++ [cs.getD ri default]) ++
                           [(cs.set ri default).getD li default],
                         (cs.set ri default).set li default)) = some res := h
        have hall1 : (instrs ++ [cs.getD ri default]).all
            (inv_node_ok (cs.set ri default)) = true := by
          rw [List.all_eq_true]
          intro x hx
          rcases List.mem_append.mp hx with hx1 | hx1
          · exact inv_node_ok_mono (evolves_set cs ri) (all_mem_true hall hx1)
          · obtain rfl := List.mem_singleton.mp hx1
            exact inv_node_ok_mono (evolves_set cs ri) (getD_ok hs ri)
        have h3 := pal_tail_ok fuel ih (instrs ++ [cs.getD ri default]) (cs.set ri default)
          li (slab_inv_ok_set hs ri) hall1 res h
        exact ⟨h3.1, h3.2.1, evolves_trans (evolves_set cs ri) h3.2.2⟩)

theorem pml_tail_ok (fuel : Nat)
    (ih : ∀ (instrs : List Instruction) (cs : CompileSlab) (li : InstructionI) (ric : IC),
      slab_inv_ok cs = true → instrs.all (inv_node_ok cs) = true →
      ∀ res, push_mul_leaves fuel instrs cs li ric = some res →
        res.1.all (inv_node_ok res.2) = true ∧ slab_inv_ok res.2 = true ∧
        slab_evolves cs res.2)
    (instrs1 : List Instruction) (cs1 : CompileSlab) (li : InstructionI)
    (hs1 : slab_inv_ok cs1 = true) (hall1 : instrs1.all (inv_node_ok cs1) = true) :
    ∀ res, (match cs1.getD li default with
            | Instruction.IMul lli lric =>
              push_mul_leaves fuel instrs1 (cs1.set li default) lli lric
            | _ => some (instrs1 ++ [cs1.getD li default], cs1.set li default)) = some res →
      res.1.all (inv_node_ok res.2) = true ∧ slab_inv_ok res.2 = true ∧
      slab_evolves cs1 res.2 := by
  cases hti : cs1.getD li default
  case IMul lli lric =>
    intro res h
    have h2 := ih instrs1 (cs1.set li default) lli lric (slab_inv_ok_set hs1 li)
      (all_inv_mono (evolves_set cs1 li) hall1) res h
    exact ⟨h2.1, h2.2.1, evolves_trans (evolves_set cs1 li) h2.2.2⟩
  all_goals (
    intro res h
    obtain rfl := Option.some.inj h
    refine ⟨?_, slab_inv_ok_set hs1 li, evolves_set cs1 li⟩
    have hX := getD_ok hs1 li
    rw [hti] at hX
    simp [List.all_append, all_inv_mono (evolves_set cs1 li) hall1,
      inv_node_ok_mono (evolves_set cs1 li) hX])

theorem push_mul_leaves_ok :
    ∀ (fuel : Nat) (instrs : List Instruction) (cs : CompileSlab) (li : InstructionI)
      (ric : IC), slab_inv_ok cs = true → instrs.all (inv_node_ok cs) = true →
      ∀ res, push_mul_leaves fuel instrs cs li ric = some res →
        res.1.all (inv_node_ok res.2) = true ∧ slab_inv_ok res.2 = true ∧
        slab_evolves cs res.2 := by
  intro fuel
  induction fuel with
  | zero => intro instrs cs li ric _ _ res h; exact Option.noConfusion h
  | succ fuel ih =>
    intro instrs cs li ric hs hall
    cases ric with
    | C c =>
      intro res h
      replace h : (match cs.getD li default with
          | Instruction.IMul lli lric =>
            push_mul_leaves fuel (instrs ++ [Instruction.IConst c]) (cs.set li default)
              lli lric
          | _ => some ((instrs ++ [Instruction.IConst c]) ++ [cs.getD li default],
                       cs.set li default)) = some res := h
      have hall1 : (instrs ++ [Instruction.IConst c]).all (inv_node_ok cs) = true := by
        simp [List.all_append, hall, inv_node_ok]
      exact pml_tail_ok fuel ih (instrs ++ [Instruction.IConst c]) cs li hs hall1 res h
    | I ri =>
      intro res h
      replace h : (match (match cs.getD ri default with
          | Instruction.IMul rli rric =>
            push_mul_leaves fuel instrs (cs.set ri default) rli rric
          | _ => some (instrs ++ [cs.getD ri default], cs.set ri default)) with
        | none => (none : Option (List Instruction × CompileSlab))
        | some (instrs2, cs2) =>
          match cs2.getD li default with
          | Instruction.IMul lli lric =>
            push_mul_leaves fuel instrs2 (cs2.set li default) lli lric
          | _ => some (instrs2 ++ [cs2.getD li default], cs2.set li default)) = some res := h
      cases hti : cs.getD ri default
      case IMul rli rric =>
        simp only [hti] at h
        cases hstep : push_mul_leaves fuel instrs (cs.set ri default) rli rric with
        | none =>
          rw [hstep] at h
          exact Option.noConfusion h
        | some t =>
          obtain ⟨instrs2, cs2⟩ := t
          rw [hstep] at h
          have h2 := ih instrs (cs.set ri default) rli rric (slab_inv_ok_set hs ri)
            (all_inv_mono (evolves_set cs ri) hall) (instrs2, cs2) hstep
          replace h : (match cs2.getD li default with
              | Instruction.IMul lli lric =>
                push_mul_leaves fuel instrs2 (cs2.set li default) lli lric
              | _ => some (instrs2 ++ [cs2.getD li default], cs2.set li default))
              = some res := h
          have h3 := pml_tail_ok fuel ih instrs2 cs2 li h2.2.1 h2.1 res h
          exact ⟨h3.1, h3.2.1,
            evolves_trans (evolves_trans (evolves_set cs ri) h2.2.2) h3.2.2⟩
      all_goals (
        simp only [hti] at h
        rw [← hti] at h
        replace h : (match (cs.set ri default).getD li default with
            | Instruction.IMul lli lric =>
              push_mul_leaves fuel (instrs ++ [cs.getD ri default])
                ((cs.set ri default).set li default) lli lric
            | _ => some ((instrs ++ [cs.getD ri default]) ++
                           [(cs.set ri default).getD li default],
                         (cs.set ri default).set li default)) = some res := h
        have hall1 : (instrs ++ [cs.getD ri default]).all
            (inv_node_ok (cs.set ri default)) = true := by
          rw [List.all_eq_true]
          intro x hx
          rcases List.mem_append.mp hx with hx1 | hx1
          · exact inv_node_ok_mono (evolves_set cs ri) (all_mem_true hall hx1)
          · obtain rfl := List.mem_singleton.mp hx1
            exact inv_node_ok_mono (evolves_set cs ri) (getD_ok hs ri)
        have h3 := pml_tail_ok fuel ih (instrs ++ [cs.getD ri default]) (cs.set ri default)
          li (slab_inv_ok_set hs ri) hall1 res h
        exact ⟨h3.1, h3.2.1, evolves_trans (evolves_set cs ri) h3.2.2⟩)

theorem cmp_built_ok (op : BinaryOp) (lic ric : IC) (cs : CompileSlab) :
    inv_node_ok cs (match op with
      | BinaryOp.EEQ => Instruction.IEQ lic ric
      | BinaryOp.ENE => Instruction.INE lic ric
      | BinaryOp.ELT => Instruction.ILT lic ric
      | BinaryOp.EGT => Instruction.IGT lic ric
      | BinaryOp.ELTE => Instruction.ILTE lic ric
      | BinaryOp.EGTE => Instruction.IGTE lic ric
      | _ => Instruction.IConst F.nan) = true := by
  cases op <;> rfl

theorem cmp_folded_ok (op : BinaryOp) (l rr : F) (cs : CompileSlab) :
    inv_node_ok cs (match op with
      | BinaryOp.EEQ => Instruction.IConst (bool_to_f32 (f32_eq l rr))
      | BinaryOp.ENE => Instruction.IConst (bool_to_f32 (f32_ne l rr))
      | BinaryOp.ELT => Instruction.IConst (bool_to_f32 (flt l rr))
      | BinaryOp.EGT => Instruction.IConst (bool_to_f32 (fgt l rr))
      | BinaryOp.ELTE => Instruction.IConst (bool_to_f32 (fle l rr))
      | BinaryOp.EGTE => Instruction.IConst (bool_to_f32 (fge l rr))
      | _ => Instruction.IConst F.nan) = true := by
  cases op <;> rfl

theorem all_append_one {α : Type} {p : α → Bool} {l : List α} {x : α}
    (hl : l.all p = true) (hx : p x = true) : (l ++ [x]).all p = true := by
  rw [List.all_eq_true] at hl ⊢
  intro y hy
  rcases List.mem_append.mp hy with h1 | h1
  · exact hl y h1
  · obtain rfl := List.mem_singleton.mp h1
    exact hx

theorem iand_ok (cs : CompileSlab) (li : InstructionI) (ric : IC) :
    inv_node_ok cs (.IAND li ric) = true := rfl

/-- Main nested-involution invariant: starting from a slab whose nodes carry
no directly nested `INeg`/`INot`/`IInv`, every function of the compiler block
keeps the slab that way, returns a node that is also free of a directly
nested involution, and only evolves the slab by appends and take-resets. -/
theorem compile_inv_main {σ : Type} (fx : Foreign) (ps : ParseSlab) (ns : Ns σ) :
    ∀ fuel : Nat,
      (∀ e cs s r, slab_inv_ok cs = true →
        compile_expr fx ps ns fuel e cs s = some r →
        slab_inv_ok r.2.1 = true ∧ inv_node_ok r.2.1 r.1 = true ∧
        slab_evolves cs r.2.1) ∧
      (∀ sl cs s r, slab_inv_ok cs = true →
        compile_slice fx ps ns fuel sl cs s = some r →
        slab_inv_ok r.2.1 = true ∧ inv_node_ok r.2.1 r.1 = true ∧
        slab_evolves cs r.2.1) ∧
      (∀ sl cs s r, slab_inv_ok cs = true →
        process_comparisons fx ps ns fuel sl cs s = some r →
        slab_inv_ok r.2.1 = true ∧ inv_node_ok r.2.1 r.1 = true ∧
        slab_evolves cs r.2.1) ∧
      (∀ ops i xss out cs s r, slab_inv_ok cs = true → inv_node_ok cs out = true →
        cmp_loop fx ps ns fuel ops i xss out cs s = some r →
        slab_inv_ok r.2.1 = true ∧ inv_node_ok r.2.1 r.1 = true ∧
        slab_evolves cs r.2.1) ∧
      (∀ xss out os cs s r, slab_inv_ok cs = true → inv_node_ok cs out = true →
        or_loop fx ps ns fuel xss out os cs s = some r →
        slab_inv_ok r.2.1 = true ∧ inv_node_ok r.2.1 r.1 = true ∧
        slab_evolves cs r.2.1) ∧
      (∀ xss out os cs s r, slab_inv_ok cs = true → inv_node_ok cs out = true →
        and_loop fx ps ns fuel xss out os cs s = some r →
        slab_inv_ok r.2.1 = true ∧ inv_node_ok r.2.1 r.1 = true ∧
        slab_evolves cs r.2.1) ∧
      (∀ xss instrs cs s r, slab_inv_ok cs = true →
        instrs.all (inv_node_ok cs) = true →
        add_gather fx ps ns fuel xss instrs cs s = some r →
        r.1.all (inv_node_ok r.2.1) = true ∧ slab_inv_ok r.2.1 = true ∧
        slab_evolves cs r.2.1) ∧
      (∀ xss b instrs cs s r, slab_inv_ok cs = true →
        instrs.all (inv_node_ok cs) = true →
        sub_gather fx ps ns fuel xss b instrs cs s = some r →
        r.1.all (inv_node_ok r.2.1) = true ∧ slab_inv_ok r.2.1 = true ∧
        slab_evolves cs r.2.1) ∧
      (∀ xss instrs cs s r, slab_inv_ok cs = true →
        instrs.all (inv_node_ok cs) = true →
        mul_gather fx ps ns fuel xss instrs cs s = some r →
        r.1.all (inv_node_ok r.2.1) = true ∧ slab_inv_ok r.2.1 = true ∧
        slab_evolves cs r.2.1) ∧
      (∀ xss b instrs cs s r, slab_inv_ok cs = true →
        instrs.all (inv_node_ok cs) = true →
        div_gather fx ps ns fuel xss b instrs cs s = some r →
        r.1.all (inv_node_ok r.2.1) = true ∧ slab_inv_ok r.2.1 = true ∧
        slab_evolves cs r.2.1) ∧
      (∀ xss out os cs s r, slab_inv_ok cs = true → inv_node_ok cs out = true →
        mod_loop fx ps ns fuel xss out os cs s = some r →
        slab_inv_ok r.2.1 = true ∧ inv_node_ok r.2.1 r.1 = true ∧
        slab_evolves cs r.2.1) ∧
      (∀ xss out os cs s r, slab_inv_ok cs = true → inv_node_ok cs out = true →
        exp_loop fx ps ns fuel xss out os cs s = some r →
        slab_inv_ok r.2.1 = true ∧ inv_node_ok r.2.1 r.1 = true ∧
        slab_evolves cs r.2.1) ∧
      (∀ v cs s r, slab_inv_ok cs = true →
        compile_value fx ps ns fuel v cs s = some r →
        slab_inv_ok r.2.1 = true ∧ inv_node_ok r.2.1 r.1 = true ∧
        slab_evolves cs r.2.1) ∧
      (∀ u cs s r, slab_inv_ok cs = true →
        compile_unary fx ps ns fuel u cs s = some r →
        slab_inv_ok r.2.1 = true ∧ inv_node_ok r.2.1 r.1 = true ∧
        slab_evolves cs r.2.1) ∧
      (∀ exprs args f32s ac cs s r, slab_inv_ok cs = true →
        custom_loop fx ps ns fuel exprs args f32s ac cs s = some r →
        slab_inv_ok r.2.2.2.1 = true ∧ slab_evolves cs r.2.2.2.1) ∧
      (∀ li acc cs s r, slab_inv_ok cs = true → acc.all (inv_node_ok cs) = true →
        minmax_rest fx ps ns fuel li acc cs s = some r →
        r.1.all (inv_node_ok r.2.1) = true ∧ slab_inv_ok r.2.1 = true ∧
        slab_evolves cs r.2.1) ∧
      (∀ (op : F → F) (mk : InstructionI → Instruction),
        (∀ (csx : CompileSlab) (j : InstructionI), inv_node_ok csx (mk j) = true) →
        ∀ xi cs s r, slab_inv_ok cs = true →
        process_unary_fn fx ps ns op mk fuel xi cs s = some r →
        slab_inv_ok r.2.1 = true ∧ inv_node_ok r.2.1 r.1 = true ∧
        slab_evolves cs r.2.1) ∧
      (∀ f cs s r, slab_inv_ok cs = true →
        compile_stdfunc fx ps ns fuel f cs s = some r →
        slab_inv_ok r.2.1 = true ∧ inv_node_ok r.2.1 r.1 = true ∧
        slab_evolves cs r.2.1) := by
  intro fuel
  induction fuel with
  | zero =>
    exact ⟨fun e cs s r _ h => Option.noConfusion h,
           fun sl cs s r _ h => Option.noConfusion h,
           fun sl cs s r _ h => Option.noConfusion h,
           fun ops i xss out cs s r _ _ h => Option.noConfusion h,
           fun xss out os cs s r _ _ h => Option.noConfusion h,
           fun xss out os cs s r _ _ h => Option.noConfusion h,
           fun xss instrs cs s r _ _ h => Option.noConfusion h,
           fun xss b instrs cs s r _ _ h => Option.noConfusion h,
           fun xss instrs cs s r _ _ h => Option.noConfusion h,
           fun xss b instrs cs s r _ _ h => Option.noConfusion h,
           fun xss out os cs s r _ _ h => Option.noConfusion h,
           fun xss out os cs s r _ _ h => Option.noConfusion h,
           fun v cs s r _ h => Option.noConfusion h,
           fun u cs s r _ h => Option.noConfusion h,
           fun exprs args f32s ac cs s r _ h => Option.noConfusion h,
           fun li acc cs s r _ _ h => Option.noConfusion h,
           fun op mk _ xi cs s r _ h => Option.noConfusion h,
           fun f cs s r _ h => Option.noConfusion h⟩
  | succ fuel ih =>
    obtain ⟨ihe, ihs, ihpc, ihcmp, ihor, ihand, ihadd, ihsub, ihmul, ihdiv, ihmod,
      ihexp, ihv, ihu, ihcust, ihmm, ihpu, ihsf⟩ := ih
    refine ⟨?_, ?_, ?_, ?_, ?_, ?_, ?_, ?_, ?_, ?_, ?_, ?_, ?_, ?_, ?_, ?_, ?_, ?_⟩
    -- compile_expr
    · intro e cs s r hs h
      simp only [compile_expr] at h
      exact ihs (ExprSlice.from_expr e) cs s r hs h
    -- compile_slice
    · intro sl cs s r hs h
      obtain ⟨v0, prs⟩ := sl
      cases prs with
      | nil =>
        simp only [compile_slice] at h
        exact ihv v0 cs s r hs h
      | cons p0 rest =>
        simp only [compile_slice] at h
        cases hlo : List.foldl (fun acc p => if p.op.prec < acc.prec then p.op else acc)
            p0.op (p0 :: rest) with
        | EOR =>
          rw [hlo] at h
          replace h : or_loop fx ps ns fuel (ExprSlice.split ⟨v0, p0 :: rest⟩ .EOR)
              (Instruction.IConst (.num 0)) false cs s = some r := h
          exact ihor _ (.IConst (.num 0)) false cs s r hs rfl h
        | EAND =>
          rw [hlo] at h
          replace h : and_loop fx ps ns fuel (ExprSlice.split ⟨v0, p0 :: rest⟩ .EAND)
              (Instruction.IConst (.num 1)) false cs s = some r := h
          exact ihand _ (.IConst (.num 1)) false cs s r hs rfl h
        | ENE =>
          rw [hlo] at h
          replace h : process_comparisons fx ps ns fuel ⟨v0, p0 :: rest⟩ cs s = some r := h
          exact ihpc _ cs s r hs h
        | EEQ =>
          rw [hlo] at h
          replace h : process_comparisons fx ps ns fuel ⟨v0, p0 :: rest⟩ cs s = some r := h
          exact ihpc _ cs s r hs h
        | EGTE =>
          rw [hlo] at h
          replace h : process_comparisons fx ps ns fuel ⟨v0, p0 :: rest⟩ cs s = some r := h
          exact ihpc _ cs s r hs h
        | ELTE =>
          rw [hlo] at h
          replace h : process_comparisons fx ps ns fuel ⟨v0, p0 :: rest⟩ cs s = some r := h
          exact ihpc _ cs s r hs h
        | EGT =>
          rw [hlo] at h
          replace h : process_comparisons fx ps ns fuel ⟨v0, p0 :: rest⟩ cs s = some r := h
          exact ihpc _ cs s r hs h
        | ELT =>
          rw [hlo] at h
          replace h : process_comparisons fx ps ns fuel ⟨v0, p0 :: rest⟩ cs s = some r := h
          exact ihpc _ cs s r hs h
        | EAdd =>
          rw [hlo] at h
          cases hg : add_gather fx ps ns fuel (ExprSlice.split ⟨v0, p0 :: rest⟩ .EAdd)
              [] cs s with
          | none =>
            rw [hg] at h
            exact Option.noConfusion h
          | some t =>
            obtain ⟨instrs, cs2, s2⟩ := t
            rw [hg] at h
            obtain ⟨hall2, hs2, he2⟩ := ihadd _ [] cs s (instrs, cs2, s2) hs rfl hg
            obtain ⟨hs3, hout3, he3⟩ := compile_add_ok hs2 hall2
            replace h : some ((compile_add instrs cs2).1, (compile_add instrs cs2).2, s2)
                = some r := h
            obtain rfl := Option.some.inj h
            exact ⟨hs3, hout3, evolves_trans he2 he3⟩
        | ESub =>
          rw [hlo] at h
          cases hg : sub_gather fx ps ns fuel (ExprSlice.split ⟨v0, p0 :: rest⟩ .ESub)
              true [] cs s with
          | none =>
            rw [hg] at h
            exact Option.noConfusion h
          | some t =>
            obtain ⟨instrs, cs2, s2⟩ := t
            rw [hg] at h
            obtain ⟨hall2, hs2, he2⟩ := ihsub _ true [] cs s (instrs, cs2, s2) hs rfl hg
            obtain ⟨hs3, hout3, he3⟩ := compile_add_ok hs2 hall2
            replace h : some ((compile_add instrs cs2).1, (compile_add instrs cs2).2, s2)
                = some r := h
            obtain rfl := Option.some.inj h
            exact ⟨hs3, hout3, evolves_trans he2 he3⟩
        | EMul =>
          rw [hlo] at h
          cases hg : mul_gather fx ps ns fuel (ExprSlice.split ⟨v0, p0 :: rest⟩ .EMul)
              [] cs s with
          | none =>
            rw [hg] at h
            exact Option.noConfusion h
          | some t =>
            obtain ⟨instrs, cs2, s2⟩ := t
            rw [hg] at h
            obtain ⟨hall2, hs2, he2⟩ := ihmul _ [] cs s (instrs, cs2, s2) hs rfl hg
            obtain ⟨hs3, hout3, he3⟩ := compile_mul_ok hs2 hall2
            replace h : some ((compile_mul instrs cs2).1, (compile_mul instrs cs2).2, s2)
                = some r := h
            obtain rfl := Option.some.inj h
            exact ⟨hs3, hout3, evolves_trans he2 he3⟩
        | EDiv =>
          rw [hlo] at h
          cases hg : div_gather fx ps ns fuel (ExprSlice.split ⟨v0, p0 :: rest⟩ .EDiv)
              true [] cs s with
          | none =>
            rw [hg] at h
            exact Option.noConfusion h
          | some t =>
            obtain ⟨instrs, cs2, s2⟩ := t
            rw [hg] at h
            obtain ⟨hall2, hs2, he2⟩ := ihdiv _ true [] cs s (instrs, cs2, s2) hs rfl hg
            obtain ⟨hs3, hout3, he3⟩ := compile_mul_ok hs2 hall2
            replace h : some ((compile_mul instrs cs2).1, (compile_mul instrs cs2).2, s2)
                = some r := h
            obtain rfl := Option.some.inj h
            exact ⟨hs3, hout3, evolves_trans he2 he3⟩
        | EMod =>
          rw [hlo] at h
          replace h : mod_loop fx ps ns fuel (ExprSlice.split ⟨v0, p0 :: rest⟩ .EMod)
              (Instruction.IConst (.num 0)) false cs s = some r := h
          exact ihmod _ (.IConst (.num 0)) false cs s r hs rfl h
        | EExp =>
          rw [hlo] at h
          replace h : exp_loop fx ps ns fuel
              (ExprSlice.split ⟨v0, p0 :: rest⟩ .EExp).reverse
              (Instruction.IConst (.num 0)) false cs s = some r := h
          exact ihexp _ (.IConst (.num 0)) false cs s r hs rfl h
    -- process_comparisons
    · intro sl cs s r hs h
      rcases hxo : sl.split_multi CMP_OPS with ⟨xss, ops⟩
      cases xss with
      | nil =>
        simp only [process_comparisons, hxo] at h
        exact ihcmp ops 0 [] (.IConst .nan) cs s r hs rfl h
      | cons xs xtl =>
        cases hc : compile_slice fx ps ns fuel xs cs s with
        | none =>
          simp only [process_comparisons, hxo] at h
          rw [hc] at h
          exact Option.noConfusion h
        | some t =>
          obtain ⟨out, cs2, s2⟩ := t
          simp only [process_comparisons, hxo, hc] at h
          obtain ⟨hs2, hout2, he2⟩ := ihs xs cs s (out, cs2, s2) hs hc
          obtain ⟨hs3, hout3, he3⟩ := ihcmp ops 0 (xs :: xtl) out cs2 s2 r hs2 hout2 h
          exact ⟨hs3, hout3, evolves_trans he2 he3⟩
    -- cmp_loop
    · intro ops i xss out cs s r hs hout h
      cases ops with
      | nil =>
        simp only [cmp_loop] at h
        obtain rfl := Option.some.inj h
        exact ⟨hs, hout, evolves_refl cs⟩
      | cons op rest =>
        simp only [cmp_loop] at h
        cases hg : xss.get? (i + 1) with
        | none =>
          simp only [hg] at h
          cases out
          case IConst l =>
            obtain ⟨hs3, hout3, he3⟩ :=
              ihcmp rest (i + 1) xss _ cs s r hs (cmp_folded_ok op l F.nan cs) h
            exact ⟨hs3, hout3, he3⟩
          all_goals (
            obtain ⟨hs1, he1⟩ := instr_to_ic_ok hs hout
            obtain ⟨hs3, hout3, he3⟩ :=
              ihcmp rest (i + 1) xss _ _ s r hs1 (cmp_built_ok op _ _ _) h
            exact ⟨hs3, hout3, evolves_trans he1 he3⟩)
        | some xs =>
          cases hc : compile_slice fx ps ns fuel xs cs s with
          | none =>
            simp only [hg] at h
            rw [hc] at h
            exact Option.noConfusion h
          | some t =>
            obtain ⟨instruction, cs2, s2⟩ := t
            simp only [hg] at h
            rw [hc] at h
            obtain ⟨hs2, hic2, he2⟩ := ihs xs cs s (instruction, cs2, s2) hs hc
            have hout2 := inv_node_ok_mono he2 hout
            cases out
            case IConst l =>
              cases instruction
              case IConst rr =>
                obtain ⟨hs3, hout3, he3⟩ :=
                  ihcmp rest (i + 1) xss _ cs2 s2 r hs2 (cmp_folded_ok op l rr cs2) h
                exact ⟨hs3, hout3, evolves_trans he2 he3⟩
              all_goals (
                obtain ⟨hs4, he4⟩ := instr_to_ic_ok hs2 hic2
                obtain ⟨hs3, hout3, he3⟩ :=
                  ihcmp rest (i + 1) xss _ _ s2 r hs4 (cmp_built_ok op _ _ _) h
                exact ⟨hs3, hout3, evolves_trans he2 (evolves_trans he4 he3)⟩)
            all_goals (
              obtain ⟨hs4, he4⟩ := instr_to_ic_ok hs2 hout2
              obtain ⟨hs5, he5⟩ := instr_to_ic_ok hs4 (inv_node_ok_mono he4 hic2)
              obtain ⟨hs3, hout3, he3⟩ :=
                ihcmp rest (i + 1) xss _ _ s2 r hs5 (cmp_built_ok op _ _ _) h
              exact ⟨hs3, hout3,
                evolves_trans he2 (evolves_trans he4 (evolves_trans he5 he3))⟩)
    -- or_loop
    · intro xss out os cs s r hs hout h
      cases xss with
      | nil =>
        simp only [or_loop] at h
        obtain rfl := Option.some.inj h
        exact ⟨hs, hout, evolves_refl cs⟩
      | cons xs rest =>
        cases hc : compile_slice fx ps ns fuel xs cs s with
        | none =>
          simp only [or_loop] at h
          rw [hc] at h
          exact Option.noConfusion h
        | some t =>
          obtain ⟨instr, cs2, s2⟩ := t
          obtain ⟨hs2, hic2, he2⟩ := ihs xs cs s (instr, cs2, s2) hs hc
          have hout2 := inv_node_ok_mono he2 hout
          cases os
          · cases instr
            case IConst c =>
              simp only [or_loop, hc] at h
              replace h : (if f32_ne c (.num 0) = true
                  then some (Instruction.IConst c, cs2, s2)
                  else or_loop fx ps ns fuel rest out false cs2 s2) = some r := h
              by_cases hz : f32_ne c (.num 0) = true
              · rw [if_pos hz] at h
                obtain rfl := Option.some.inj h
                exact ⟨hs2, rfl, he2⟩
              · rw [if_neg hz] at h
                obtain ⟨hs3, hout3, he3⟩ := ihor rest out false cs2 s2 r hs2 hout2 h
                exact ⟨hs3, hout3, evolves_trans he2 he3⟩
            all_goals (
              simp only [or_loop, hc] at h
              obtain ⟨hs3, hout3, he3⟩ := ihor rest _ true cs2 s2 r hs2 hic2 h
              exact ⟨hs3, hout3, evolves_trans he2 he3⟩)
          · simp only [or_loop, hc] at h
            obtain ⟨hs4, he4⟩ := instr_to_ic_ok (slab_inv_ok_push hs2 hout2)
              (inv_node_ok_mono (evolves_push cs2 out) hic2)
            obtain ⟨hs3, hout3, he3⟩ := ihor rest _ true _ s2 r hs4 (by rfl) h
            exact ⟨hs3, hout3, evolves_trans he2
              (evolves_trans (evolves_push cs2 out) (evolves_trans he4 he3))⟩
    -- and_loop
    · intro xss out os cs s r hs hout h
      cases xss with
      | nil =>
        simp only [and_loop] at h
        obtain rfl := Option.some.inj h
        exact ⟨hs, hout, evolves_refl cs⟩
      | cons xs rest =>
        cases hc : compile_slice fx ps ns fuel xs cs s with
        | none =>
          simp only [and_loop] at h
          rw [hc] at h
          exact Option.noConfusion h
        | some t =>
          obtain ⟨instr, cs2, s2⟩ := t
          obtain ⟨hs2, hic2, he2⟩ := ihs xs cs s (instr, cs2, s2) hs hc
          have hout2 := inv_node_ok_mono he2 hout
          cases instr
          case IConst c =>
            simp only [and_loop, hc] at h
            by_cases hz : f32_eq c (.num 0) = true
            · rw [if_pos hz] at h
              obtain rfl := Option.some.inj h
              exact ⟨hs2, rfl, he2⟩
            · rw [if_neg hz] at h
              cases os
              · obtain ⟨hs3, hout3, he3⟩ := ihand rest (.IConst c) true cs2 s2 r hs2 rfl h
                exact ⟨hs3, hout3, evolves_trans he2 he3⟩
              · cases out
                · obtain ⟨hs3, hout3, he3⟩ :=
                    ihand rest (.IConst c) true cs2 s2 r hs2 rfl h
                  exact ⟨hs3, hout3, evolves_trans he2 he3⟩
                all_goals (
                  obtain ⟨hs4, he4⟩ := instr_to_ic_ok (slab_inv_ok_push hs2 hout2)
                    (inv_node_ok_mono (evolves_push cs2 _) hic2)
                  obtain ⟨hs3, hout3, he3⟩ :=
                    ihand rest _ true _ s2 r hs4 (iand_ok _ _ _) h
                  exact ⟨hs3, hout3, evolves_trans he2
                    (evolves_trans (evolves_push cs2 _) (evolves_trans he4 he3))⟩)
          all_goals (
            simp only [and_loop, hc] at h
            cases os
            · obtain ⟨hs3, hout3, he3⟩ := ihand rest _ true cs2 s2 r hs2 hic2 h
              exact ⟨hs3, hout3, evolves_trans he2 he3⟩
            · cases out
              · obtain ⟨hs3, hout3, he3⟩ := ihand rest _ true cs2 s2 r hs2 hic2 h
                exact ⟨hs3, hout3, evolves_trans he2 he3⟩
              all_goals (
                obtain ⟨hs4, he4⟩ := instr_to_ic_ok (slab_inv_ok_push hs2 hout2)
                  (inv_node_ok_mono (evolves_push cs2 _) hic2)
                obtain ⟨hs3, hout3, he3⟩ :=
                  ihand rest _ true _ s2 r hs4 (iand_ok _ _ _) h
                exact ⟨hs3, hout3, evolves_trans he2
                  (evolves_trans (evolves_push cs2 _) (evolves_trans he4 he3))⟩))
    -- add_gather
    · intro xss instrs cs s r hs hall h
      cases xss with
      | nil =>
        simp only [add_gather] at h
        obtain rfl := Option.some.inj h
        exact ⟨hall, hs, evolves_refl cs⟩
      | cons xs rest =>
        cases hc : compile_slice fx ps ns fuel xs cs s with
        | none =>
          simp only [add_gather] at h
          rw [hc] at h
          exact Option.noConfusion h
        | some t =>
          obtain ⟨instr, cs2, s2⟩ := t
          simp only [add_gather, hc] at h
          obtain ⟨hs2, hic2, he2⟩ := ihs xs cs s (instr, cs2, s2) hs hc
          have hall2 := all_inv_mono he2 hall
          cases instr
          case IAdd li ric =>
            replace h : (match push_add_leaves fuel instrs cs2 li ric with
                | none => (none : Option (List Instruction × CompileSlab × σ))
                | some (instrs2, cs3) =>
                  add_gather fx ps ns fuel rest instrs2 cs3 s2) = some r := h
            cases hp : push_add_leaves fuel instrs cs2 li ric with
            | none =>
              rw [hp] at h
              exact Option.noConfusion h
            | some t2 =>
              obtain ⟨instrs2, cs3⟩ := t2
              rw [hp] at h
              obtain ⟨hall3, hs3, he3⟩ :=
                push_add_leaves_ok fuel instrs cs2 li ric hs2 hall2 (instrs2, cs3) hp
              obtain ⟨hall4, hs4, he4⟩ := ihadd rest instrs2 cs3 s2 r hs3 hall3 h
              exact ⟨hall4, hs4, evolves_trans he2 (evolves_trans he3 he4)⟩
          all_goals (
            obtain ⟨hall4, hs4, he4⟩ := ihadd rest _ cs2 s2 r hs2
              (all_append_one hall2 hic2) h
            exact ⟨hall4, hs4, evolves_trans he2 he4⟩)
    -- sub_gather
    · intro xss b instrs cs s r hs hall h
      cases xss with
      | nil =>
        simp only [sub_gather] at h
        obtain rfl := Option.some.inj h
        exact ⟨hall, hs, evolves_refl cs⟩
      | cons xs rest =>
        cases hc : compile_slice fx ps ns fuel xs cs s with
        | none =>
          simp only [sub_gather] at h
          rw [hc] at h
          exact Option.noConfusion h
        | some t =>
          obtain ⟨instr, cs2, s2⟩ := t
          simp only [sub_gather, hc] at h
          obtain ⟨hs2, hic2, he2⟩ := ihs xs cs s (instr, cs2, s2) hs hc
          have hall2 := all_inv_mono he2 hall
          cases b
          · obtain ⟨hsw, houtw, hew⟩ := neg_wrap_ok hs2 hic2
            obtain ⟨hall4, hs4, he4⟩ := ihsub rest false _ _ s2 r hsw
              (all_append_one (all_inv_mono hew hall2) houtw) h
            exact ⟨hall4, hs4, evolves_trans he2 (evolves_trans hew he4)⟩
          · obtain ⟨hall4, hs4, he4⟩ := ihsub rest false _ cs2 s2 r hs2
              (all_append_one hall2 hic2) h
            exact ⟨hall4, hs4, evolves_trans he2 he4⟩
    -- mul_gather
    · intro xss instrs cs s r hs hall h
      cases xss with
      | nil =>
        simp only [mul_gather] at h
        obtain rfl := Option.some.inj h
        exact ⟨hall, hs, evolves_refl cs⟩
      | cons xs rest =>
        cases hc : compile_slice fx ps ns fuel xs cs s with
        | none =>
          simp only [mul_gather] at h
          rw [hc] at h
          exact Option.noConfusion h
        | some t =>
          obtain ⟨instr, cs2, s2⟩ := t
          simp only [mul_gather, hc] at h
          obtain ⟨hs2, hic2, he2⟩ := ihs xs cs s (instr, cs2, s2) hs hc
          have hall2 := all_inv_mono he2 hall
          cases instr
          case IMul li ric =>
            replace h : (match push_mul_leaves fuel instrs cs2 li ric with
                | none => (none : Option (List Instruction × CompileSlab × σ))
                | some (instrs2, cs3) =>
                  mul_gather fx ps ns fuel rest instrs2 cs3 s2) = some r := h
            cases hp : push_mul_leaves fuel instrs cs2 li ric with
            | none =>
              rw [hp] at h
              exact Option.noConfusion h
            | some t2 =>
              obtain ⟨instrs2, cs3⟩ := t2
              rw [hp] at h
              obtain ⟨hall3, hs3, he3⟩ :=
                push_mul_leaves_ok fuel instrs cs2 li ric hs2 hall2 (instrs2, cs3) hp
              obtain ⟨hall4, hs4, he4⟩ := ihmul rest instrs2 cs3 s2 r hs3 hall3 h
              exact ⟨hall4, hs4, evolves_trans he2 (evolves_trans he3 he4)⟩
          all_goals (
            obtain ⟨hall4, hs4, he4⟩ := ihmul rest _ cs2 s2 r hs2
              (all_append_one hall2 hic2) h
            exact ⟨hall4, hs4, evolves_trans he2 he4⟩)
    -- div_gather
    · intro xss b instrs cs s r hs hall h
      cases xss with
      | nil =>
        simp only [div_gather] at h
        obtain rfl := Option.some.inj h
        exact ⟨hall, hs, evolves_refl cs⟩
      | cons xs rest =>
        cases hc : compile_slice fx ps ns fuel xs cs s with
        | none =>
          simp only [div_gather] at h
          rw [hc] at h
          exact Option.noConfusion h
        | some t =>
          obtain ⟨instr, cs2, s2⟩ := t
          simp only [div_gather, hc] at h
          obtain ⟨hs2, hic2, he2⟩ := ihs xs cs s (instr, cs2, s2) hs hc
          have hall2 := all_inv_mono he2 hall
          cases b
          · obtain ⟨hsw, houtw, hew⟩ := inv_wrap_ok hs2 hic2
            obtain ⟨hall4, hs4, he4⟩ := ihdiv rest false _ _ s2 r hsw
              (all_append_one (all_inv_mono hew hall2) houtw) h
            exact ⟨hall4, hs4, evolves_trans he2 (evolves_trans hew he4)⟩
          · obtain ⟨hall4, hs4, he4⟩ := ihdiv rest false _ cs2 s2 r hs2
              (all_append_one hall2 hic2) h
            exact ⟨hall4, hs4, evolves_trans he2 he4⟩
    -- mod_loop
    · intro xss out os cs s r hs hout h
      cases xss with
      | nil =>
        simp only [mod_loop] at h
        obtain rfl := Option.some.inj h
        exact ⟨hs, hout, evolves_refl cs⟩
      | cons xs rest =>
        cases hc : compile_slice fx ps ns fuel xs cs s with
        | none =>
          simp only [mod_loop] at h
          rw [hc] at h
          exact Option.noConfusion h
        | some t =>
          obtain ⟨instr, cs2, s2⟩ := t
          simp only [mod_loop, hc] at h
          obtain ⟨hs2, hic2, he2⟩ := ihs xs cs s (instr, cs2, s2) hs hc
          have hout2 := inv_node_ok_mono he2 hout
          cases os
          · obtain ⟨hs3, hout3, he3⟩ := ihmod rest _ true cs2 s2 r hs2 hic2 h
            exact ⟨hs3, hout3, evolves_trans he2 he3⟩
          · cases out
            case IConst l =>
              cases instr
              case IConst c2 =>
                obtain ⟨hs3, hout3, he3⟩ := ihmod rest _ true cs2 s2 r hs2 (by rfl) h
                exact ⟨hs3, hout3, evolves_trans he2 he3⟩
              all_goals (
                obtain ⟨hs4, he4⟩ := instr_to_ic_ok hs2 hic2
                obtain ⟨hs3, hout3, he3⟩ := ihmod rest _ true _ s2 r hs4 (by rfl) h
                exact ⟨hs3, hout3, evolves_trans he2 (evolves_trans he4 he3)⟩)
            all_goals (
              obtain ⟨hs4, he4⟩ := instr_to_ic_ok hs2 hout2
              obtain ⟨hs5, he5⟩ := instr_to_ic_ok hs4 (inv_node_ok_mono he4 hic2)
              obtain ⟨hs3, hout3, he3⟩ := ihmod rest _ true _ s2 r hs5 (by rfl) h
              exact ⟨hs3, hout3,
                evolves_trans he2 (evolves_trans he4 (evolves_trans he5 he3))⟩)
    -- exp_loop
    · intro xss out os cs s r hs hout h
      cases xss with
      | nil =>
        simp only [exp_loop] at h
        obtain rfl := Option.some.inj h
        exact ⟨hs, hout, evolves_refl cs⟩
      | cons xs rest =>
        cases hc : compile_slice fx ps ns fuel xs cs s with
        | none =>
          simp only [exp_loop] at h
          rw [hc] at h
          exact Option.noConfusion h
        | some t =>
          obtain ⟨instr, cs2, s2⟩ := t
          simp only [exp_loop, hc] at h
          obtain ⟨hs2, hic2, he2⟩ := ihs xs cs s (instr, cs2, s2) hs hc
          have hout2 := inv_node_ok_mono he2 hout
          cases os
          · obtain ⟨hs3, hout3, he3⟩ := ihexp rest _ true cs2 s2 r hs2 hic2 h
            exact ⟨hs3, hout3, evolves_trans he2 he3⟩
          · cases out
            case IConst l =>
              cases instr
              case IConst c2 =>
                obtain ⟨hs3, hout3, he3⟩ := ihexp rest _ true cs2 s2 r hs2 (by rfl) h
                exact ⟨hs3, hout3, evolves_trans he2 he3⟩
              all_goals (
                obtain ⟨hs4, he4⟩ := instr_to_ic_ok hs2 hic2
                obtain ⟨hs5, he5⟩ := instr_to_ic_ok hs4 (inv_node_ok_mono he4 hout2)
                obtain ⟨hs3, hout3, he3⟩ := ihexp rest _ true _ s2 r hs5 (by rfl) h
                exact ⟨hs3, hout3,
                  evolves_trans he2 (evolves_trans he4 (evolves_trans he5 he3))⟩)
            all_goals (
              obtain ⟨hs4, he4⟩ := instr_to_ic_ok hs2 hic2
              obtain ⟨hs5, he5⟩ := instr_to_ic_ok hs4 (inv_node_ok_mono he4 hout2)
              obtain ⟨hs3, hout3, he3⟩ := ihexp rest _ true _ s2 r hs5 (by rfl) h
              exact ⟨hs3, hout3,
                evolves_trans he2 (evolves_trans he4 (evolves_trans he5 he3))⟩)
    -- compile_value
    · intro v cs s r hs h
      cases v with
      | EConstant c =>
        simp only [compile_value] at h
        obtain rfl := Option.some.inj h
        exact ⟨hs, rfl, evolves_refl cs⟩
      | EUnaryOp u =>
        simp only [compile_value] at h
        exact ihu u cs s r hs h
      | EStdFunc f =>
        simp only [compile_value] at h
        exact ihsf f cs s r hs h
      | EPrintFunc pf =>
        simp only [compile_value] at h
        obtain rfl := Option.some.inj h
        exact ⟨hs, rfl, evolves_refl cs⟩
    -- compile_unary
    · intro u cs s r hs h
      cases u with
      | EPos i =>
        simp only [compile_unary] at h
        exact ihv (get_val ps i) cs s r hs h
      | ENeg i =>
        cases hc : compile_value fx ps ns fuel (get_val ps i) cs s with
        | none =>
          simp only [compile_unary] at h
          rw [hc] at h
          exact Option.noConfusion h
        | some t =>
          obtain ⟨instr, cs2, s2⟩ := t
          simp only [compile_unary] at h
          rw [hc] at h
          obtain ⟨hs2, hic2, he2⟩ := ihv (get_val ps i) cs s (instr, cs2, s2) hs hc
          cases instr <;> (
            obtain rfl := Option.some.inj h
            obtain ⟨hsw, houtw, hew⟩ := neg_wrap_ok hs2 hic2
            exact ⟨hsw, houtw, evolves_trans he2 hew⟩)
      | ENot i =>
        cases hc : compile_value fx ps ns fuel (get_val ps i) cs s with
        | none =>
          simp only [compile_unary] at h
          rw [hc] at h
          exact Option.noConfusion h
        | some t =>
          obtain ⟨instr, cs2, s2⟩ := t
          simp only [compile_unary] at h
          rw [hc] at h
          obtain ⟨hs2, hic2, he2⟩ := ihv (get_val ps i) cs s (instr, cs2, s2) hs hc
          cases instr <;> (
            obtain rfl := Option.some.inj h
            obtain ⟨hsw, houtw, hew⟩ := not_wrap_ok hs2 hic2
            exact ⟨hsw, houtw, evolves_trans he2 hew⟩)
      | EParentheses i =>
        simp only [compile_unary] at h
        exact ihe (get_expr ps i) cs s r hs h
    -- custom_loop
    · intro exprs args f32s ac cs s r hs h
      cases exprs with
      | nil =>
        simp only [custom_loop] at h
        obtain rfl := Option.some.inj h
        exact ⟨hs, evolves_refl cs⟩
      | cons xi rest =>
        cases hce : compile_expr fx ps ns fuel (get_expr ps xi) cs s with
        | none =>
          simp only [custom_loop] at h
          rw [hce] at h
          exact Option.noConfusion h
        | some t =>
          obtain ⟨instr, cs2, s2⟩ := t
          simp only [custom_loop, hce] at h
          obtain ⟨hs2, hic2, he2⟩ := ihe (get_expr ps xi) cs s (instr, cs2, s2) hs hce
          obtain ⟨hs4, he4⟩ := instr_to_ic_ok hs2 hic2
          obtain ⟨hs5, he5⟩ := ihcust rest _ _ _ _ s2 r hs4 h
          exact ⟨hs5, evolves_trans he2 (evolves_trans he4 he5)⟩
    -- minmax_rest
    · intro li acc cs s r hs hall h
      cases li with
      | nil =>
        simp only [minmax_rest] at h
        obtain rfl := Option.some.inj h
        exact ⟨hall, hs, evolves_refl cs⟩
      | cons i rest =>
        cases hce : compile_expr fx ps ns fuel (get_expr ps i) cs s with
        | none =>
          simp only [minmax_rest] at h
          rw [hce] at h
          exact Option.noConfusion h
        | some t =>
          obtain ⟨instr, cs2, s2⟩ := t
          simp only [minmax_rest, hce] at h
          obtain ⟨hs2, hic2, he2⟩ := ihe (get_expr ps i) cs s (instr, cs2, s2) hs hce
          obtain ⟨hall4, hs4, he4⟩ := ihmm rest _ cs2 s2 r hs2
            (all_append_one (all_inv_mono he2 hall) hic2) h
          exact ⟨hall4, hs4, evolves_trans he2 he4⟩
    -- process_unary_fn
    · intro op mk hmk xi cs s r hs h
      cases hce : compile_expr fx ps ns fuel (get_expr ps xi) cs s with
      | none =>
        simp only [process_unary_fn] at h
        rw [hce] at h
        exact Option.noConfusion h
      | some t =>
        obtain ⟨instr, cs2, s2⟩ := t
        simp only [process_unary_fn] at h
        rw [hce] at h
        obtain ⟨hs2, hic2, he2⟩ := ihe (get_expr ps xi) cs s (instr, cs2, s2) hs hce
        cases instr
        case IConst c =>
          obtain rfl := Option.some.inj h
          exact ⟨hs2, rfl, he2⟩
        all_goals (
          obtain rfl := Option.some.inj h
          exact ⟨slab_inv_ok_push hs2 hic2, hmk _ _,
            evolves_trans he2 (evolves_push cs2 _)⟩)
    -- compile_stdfunc
    · intro f cs s r hs h
      cases f with
      | EVar name =>
        simp only [compile_stdfunc] at h
        obtain rfl := Option.some.inj h
        exact ⟨hs, rfl, evolves_refl cs⟩
      | EFunc name exprs =>
        cases hcl : custom_loop fx ps ns fuel exprs [] [] true cs s with
        | none =>
          simp only [compile_stdfunc] at h
          rw [hcl] at h
          exact Option.noConfusion h
        | some t =>
          obtain ⟨args, f32s, ac, cs2, s2⟩ := t
          simp only [compile_stdfunc, hcl] at h
          obtain ⟨hs2, he2⟩ := ihcust exprs [] [] true cs s (args, f32s, ac, cs2, s2) hs hcl
          cases ac
          · obtain rfl := Option.some.inj h
            exact ⟨hs2, rfl, he2⟩
          · rcases hns : ns s2 name f32s with ⟨oc, s3⟩
            rw [hns] at h
            cases oc
            · obtain rfl := Option.some.inj h
              exact ⟨hs2, rfl, he2⟩
            · obtain rfl := Option.some.inj h
              exact ⟨hs2, rfl, he2⟩
      | EFuncInt x =>
        simp only [compile_stdfunc] at h
        exact ihpu ftrunc Instruction.IFuncInt (fun _ _ => rfl) x cs s r hs h
      | EFuncCeil x =>
        simp only [compile_stdfunc] at h
        exact ihpu fceil Instruction.IFuncCeil (fun _ _ => rfl) x cs s r hs h
      | EFuncFloor x =>
        simp only [compile_stdfunc] at h
        exact ihpu ffloor Instruction.IFuncFloor (fun _ _ => rfl) x cs s r hs h
      | EFuncAbs x =>
        simp only [compile_stdfunc] at h
        exact ihpu fabs Instruction.IFuncAbs (fun _ _ => rfl) x cs s r hs h
      | EFuncSign x =>
        simp only [compile_stdfunc] at h
        exact ihpu fsignum Instruction.IFuncSign (fun _ _ => rfl) x cs s r hs h
      | EFuncLog base_opt xpr =>
        cases base_opt with
        | none =>
          cases hc2 : compile_expr fx ps ns fuel (get_expr ps xpr) cs s with
          | none =>
            simp only [compile_stdfunc] at h
            rw [hc2] at h
            exact Option.noConfusion h
          | some t =>
            obtain ⟨instr, cs2, s2⟩ := t
            simp only [compile_stdfunc, hc2] at h
            obtain ⟨hs2, hic2, he2⟩ := ihe (get_expr ps xpr) cs s (instr, cs2, s2) hs hc2
            cases instr
            case IConst n =>
              obtain rfl := Option.some.inj h
              exact ⟨hs2, rfl, he2⟩
            all_goals (
              obtain ⟨hs4, he4⟩ := instr_to_ic_ok hs2 hic2
              obtain rfl := Option.some.inj h
              exact ⟨hs4, rfl, evolves_trans he2 he4⟩)
        | some bi =>
          cases hc1 : compile_expr fx ps ns fuel (get_expr ps bi) cs s with
          | none =>
            simp only [compile_stdfunc] at h
            rw [hc1] at h
            exact Option.noConfusion h
          | some t1 =>
            obtain ⟨base, cs1, s1⟩ := t1
            obtain ⟨hs1', hb1, he1⟩ := ihe (get_expr ps bi) cs s (base, cs1, s1) hs hc1
            cases hc2 : compile_expr fx ps ns fuel (get_expr ps xpr) cs1 s1 with
            | none =>
              simp only [compile_stdfunc, hc1] at h
              rw [hc2] at h
              exact Option.noConfusion h
            | some t2 =>
              obtain ⟨instr, cs2, s2⟩ := t2
              simp only [compile_stdfunc, hc1, hc2] at h
              obtain ⟨hs2, hic2, he2⟩ :=
                ihe (get_expr ps xpr) cs1 s1 (instr, cs2, s2) hs1' hc2
              have hb2 := inv_node_ok_mono he2 hb1
              cases base
              case IConst b =>
                cases instr
                case IConst n =>
                  obtain rfl := Option.some.inj h
                  exact ⟨hs2, rfl, evolves_trans he1 he2⟩
                all_goals (
                  obtain ⟨hs4, he4⟩ := instr_to_ic_ok hs2 hic2
                  obtain rfl := Option.some.inj h
                  exact ⟨hs4, rfl, evolves_trans he1 (evolves_trans he2 he4)⟩)
              all_goals (
                obtain ⟨hs4, he4⟩ := instr_to_ic_ok hs2 hb2
                obtain ⟨hs5, he5⟩ := instr_to_ic_ok hs4 (inv_node_ok_mono he4 hic2)
                obtain rfl := Option.some.inj h
                exact ⟨hs5, rfl,
                  evolves_trans he1 (evolves_trans he2 (evolves_trans he4 he5))⟩)
      | EFuncRound mod_opt xpr =>
        cases mod_opt with
        | none =>
          cases hc2 : compile_expr fx ps ns fuel (get_expr ps xpr) cs s with
          | none =>
            simp only [compile_stdfunc] at h
            rw [hc2] at h
            exact Option.noConfusion h
          | some t =>
            obtain ⟨instr, cs2, s2⟩ := t
            simp only [compile_stdfunc, hc2] at h
            obtain ⟨hs2, hic2, he2⟩ := ihe (get_expr ps xpr) cs s (instr, cs2, s2) hs hc2
            cases instr
            case IConst n =>
              obtain rfl := Option.some.inj h
              exact ⟨hs2, rfl, he2⟩
            all_goals (
              obtain ⟨hs4, he4⟩ := instr_to_ic_ok hs2 hic2
              obtain rfl := Option.some.inj h
              exact ⟨hs4, rfl, evolves_trans he2 he4⟩)
        | some mi =>
          cases hc1 : compile_expr fx ps ns fuel (get_expr ps mi) cs s with
          | none =>
            simp only [compile_stdfunc] at h
            rw [hc1] at h
            exact Option.noConfusion h
          | some t1 =>
            obtain ⟨modulus, cs1, s1⟩ := t1
            obtain ⟨hs1', hb1, he1⟩ := ihe (get_expr ps mi) cs s (modulus, cs1, s1) hs hc1
            cases hc2 : compile_expr fx ps ns fuel (get_expr ps xpr) cs1 s1 with
            | none =>
              simp only [compile_stdfunc, hc1] at h
              rw [hc2] at h
              exact Option.noConfusion h
            | some t2 =>
              obtain ⟨instr, cs2, s2⟩ := t2
              simp only [compile_stdfunc, hc1, hc2] at h
              obtain ⟨hs2, hic2, he2⟩ :=
                ihe (get_expr ps xpr) cs1 s1 (instr, cs2, s2) hs1' hc2
              have hb2 := inv_node_ok_mono he2 hb1
              cases modulus
              case IConst m =>
                cases instr
                case IConst n =>
                  obtain rfl := Option.some.inj h
                  exact ⟨hs2, rfl, evolves_trans he1 he2⟩
                all_goals (
                  obtain ⟨hs4, he4⟩ := instr_to_ic_ok hs2 hic2
                  obtain rfl := Option.some.inj h
                  exact ⟨hs4, rfl, evolves_trans he1 (evolves_trans he2 he4)⟩)
              all_goals (
                obtain ⟨hs4, he4⟩ := instr_to_ic_ok hs2 hb2
                obtain ⟨hs5, he5⟩ := instr_to_ic_ok hs4 (inv_node_ok_mono he4 hic2)
                obtain rfl := Option.some.inj h
                exact ⟨hs5, rfl,
                  evolves_trans he1 (evolves_trans he2 (evolves_trans he4 he5))⟩)
      | EFuncMin fi li =>
        cases hc1 : compile_expr fx ps ns fuel (get_expr ps fi) cs s with
        | none =>
          simp only [compile_stdfunc] at h
          rw [hc1] at h
          exact Option.noConfusion h
        | some t1 =>
          obtain ⟨first, cs1, s1⟩ := t1
          obtain ⟨hs1', h1', he1⟩ := ihe (get_expr ps fi) cs s (first, cs1, s1) hs hc1
          cases hc2 : minmax_rest fx ps ns fuel li [] cs1 s1 with
          | none =>
            simp only [compile_stdfunc, hc1] at h
            rw [hc2] at h
            exact Option.noConfusion h
          | some t2 =>
            obtain ⟨restI, cs2, s2⟩ := t2
            simp only [compile_stdfunc, hc1, hc2] at h
            obtain ⟨hall2, hs2, he2⟩ := ihmm li [] cs1 s1 (restI, cs2, s2) hs1' rfl hc2
            obtain ⟨hsf', houtf, hef⟩ := min_fold_ok hs2 (inv_node_ok_mono he2 h1') hall2
            obtain rfl := Option.some.inj h
            exact ⟨hsf', houtf, evolves_trans he1 (evolves_trans he2 hef)⟩
      | EFuncMax fi li =>
        cases hc1 : compile_expr fx ps ns fuel (get_expr ps fi) cs s with
        | none =>
          simp only [compile_stdfunc] at h
          rw [hc1] at h
          exact Option.noConfusion h
        | some t1 =>
          obtain ⟨first, cs1, s1⟩ := t1
          obtain ⟨hs1', h1', he1⟩ := ihe (get_expr ps fi) cs s (first, cs1, s1) hs hc1
          cases hc2 : minmax_rest fx ps ns fuel li [] cs1 s1 with
          | none =>
            simp only [compile_stdfunc, hc1] at h
            rw [hc2] at h
            exact Option.noConfusion h
          | some t2 =>
            obtain ⟨restI, cs2, s2⟩ := t2
            simp only [compile_stdfunc, hc1, hc2] at h
            obtain ⟨hall2, hs2, he2⟩ := ihmm li [] cs1 s1 (restI, cs2, s2) hs1' rfl hc2
            obtain ⟨hsf', houtf, hef⟩ := max_fold_ok hs2 (inv_node_ok_mono he2 h1') hall2
            obtain rfl := Option.some.inj h
            exact ⟨hsf', houtf, evolves_trans he1 (evolves_trans he2 hef)⟩
      | EFuncE =>
        simp only [compile_stdfunc] at h
        obtain rfl := Option.some.inj h
        exact ⟨hs, rfl, evolves_refl cs⟩
      | EFuncPi =>
        simp only [compile_stdfunc] at h
        obtain rfl := Option.some.inj h
        exact ⟨hs, rfl, evolves_refl cs⟩
      | EFuncSin x =>
        simp only [compile_stdfunc] at h
        exact ihpu fx.sin Instruction.IFuncSin (fun _ _ => rfl) x cs s r hs h
      | EFuncCos x =>
        simp only [compile_stdfunc] at h
        exact ihpu fx.cos Instruction.IFuncCos (fun _ _ => rfl) x cs s r hs h
      | EFuncTan x =>
        simp only [compile_stdfunc] at h
        exact ihpu fx.tan Instruction.IFuncTan (fun _ _ => rfl) x cs s r hs h
      | EFuncASin x =>
        simp only [compile_stdfunc] at h
        exact ihpu fx.asin Instruction.IFuncASin (fun _ _ => rfl) x cs s r hs h
      | EFuncACos x =>
        simp only [compile_stdfunc] at h
        exact ihpu fx.acos Instruction.IFuncACos (fun _ _ => rfl) x cs s r hs h
      | EFuncATan x =>
        simp only [compile_stdfunc] at h
        exact ihpu fx.atan Instruction.IFuncATan (fun _ _ => rfl) x cs s r hs h
      | EFuncSinH x =>
        simp only [compile_stdfunc] at h
        exact ihpu fx.sinh Instruction.IFuncSinH (fun _ _ => rfl) x cs s r hs h
      | EFuncCosH x =>
        simp only [compile_stdfunc] at h
        exact ihpu fx.cosh Instruction.IFuncCosH (fun _ _ => rfl) x cs s r hs h
      | EFuncTanH x =>
        simp only [compile_stdfunc] at h
        exact ihpu fx.tanh Instruction.IFuncTanH (fun _ _ => rfl) x cs s r hs h
      | EFuncASinH x =>
        simp only [compile_stdfunc] at h
        exact ihpu fx.asinh Instruction.IFuncASinH (fun _ _ => rfl) x cs s r hs h
      | EFuncACosH x =>
        simp only [compile_stdfunc] at h
        exact ihpu fx.acosh Instruction.IFuncACosH (fun _ _ => rfl) x cs s r hs h
      | EFuncATanH x =>
        simp only [compile_stdfunc] at h
        exact ihpu fx.atanh Instruction.IFuncATanH (fun _ _ => rfl) x cs s r hs h

/-- C6 (amended): starting from a slab free of directly nested involutions
(the empty slab in particular), the compiled output never contains
`Neg(Neg(_))`, `Not(Not(_))` or `Inv(Inv(_))`: every slab node and the
returned root node are `inv_node_ok`. The Add/Mul clause of the original
claim is refuted separately. -/
theorem C6_amended_no_nested_involutions {σ : Type} (fx : Foreign) (ps : ParseSlab)
    (ns : Ns σ) (fuel : Nat) (e : Expression) (cs : CompileSlab) (s : σ)
    (out : Instruction) (cs' : CompileSlab) (s' : σ)
    (hs : slab_inv_ok cs = true)
    (h : compile_expr fx ps ns fuel e cs s = some (out, cs', s')) :
    slab_inv_ok cs' = true ∧ inv_node_ok cs' out = true :=
  ⟨((compile_inv_main fx ps ns fuel).1 e cs s (out, cs', s') hs h).1,
   ((compile_inv_main fx ps ns fuel).1 e cs s (out, cs', s') hs h).2.1⟩

/-- Witness for the amended C6: compiling `-x` over the empty slab produces
the node `INeg 0` over slab `[IVar "x"]`, which carries no nested
involution. -/
theorem C6_amended_no_nested_involutions_witness :
    slab_inv_ok [] = true ∧
    (slab_inv_ok [Instruction.IVar "x"] = true ∧
     inv_node_ok [Instruction.IVar "x"] (.INeg 0) = true) :=
  ⟨by decide,
   C6_amended_no_nested_involutions fx0 ⟨[], [Value.EStdFunc (.EVar "x")]⟩ empty_ns 10
     ⟨.EUnaryOp (.ENeg 0), []⟩ [] () (.INeg 0) [Instruction.IVar "x"] ()
     (by decide) (by decide)⟩

/-! ## Helper lemmas for the variable-collection claim -/

theorem mem_insert_name (dst : List String) (s n : String) (hn : n ∈ dst) :
    n ∈ insert_name dst s := by
  by_cases hmem : s ∈ dst
  · simp [insert_name, hmem, hn]
  · simp [insert_name, hmem, hn]

theorem self_mem_insert_name (dst : List String) (s : String) :
    s ∈ insert_name dst s := by
  by_cases hmem : s ∈ dst
  · simp [insert_name, hmem]
  · simp [insert_name, hmem]

/-- Accumulator monotonicity of the `_var_names` walk: whatever was already
in `dst` is still in the final set. -/
theorem vn_mono (ps : ParseSlab) (cs : CompileSlab) : ∀ fuel : Nat,
    (∀ e dst out, vn_expr ps cs fuel e dst = some out →
      ∀ n, n ∈ dst → n ∈ out) ∧
    (∀ l dst out, vn_pairs ps cs fuel l dst = some out →
      ∀ n, n ∈ dst → n ∈ out) ∧
    (∀ v dst out, vn_value ps cs fuel v dst = some out →
      ∀ n, n ∈ dst → n ∈ out) ∧
    (∀ u dst out, vn_unary ps cs fuel u dst = some out →
      ∀ n, n ∈ dst → n ∈ out) ∧
    (∀ xs dst out, vn_args ps cs fuel xs dst = some out →
      ∀ n, n ∈ dst → n ∈ out) ∧
    (∀ f dst out, vn_stdfunc ps cs fuel f dst = some out →
      ∀ n, n ∈ dst → n ∈ out) ∧
    (∀ pf dst out, vn_print ps cs fuel pf dst = some out →
      ∀ n, n ∈ dst → n ∈ out) ∧
    (∀ its dst out, vn_print_items ps cs fuel its dst = some out →
      ∀ n, n ∈ dst → n ∈ out) := by
  intro fuel
  induction fuel with
  | zero =>
    refine ⟨?_, ?_, ?_, ?_, ?_, ?_, ?_, ?_⟩ <;>
      exact fun _ _ _ h => Option.noConfusion h
  | succ fuel ih =>
    obtain ⟨ihe, ihp, ihv, ihu, iha, ihs, ihpr, ihpi⟩ := ih
    refine ⟨?_, ?_, ?_, ?_, ?_, ?_, ?_, ?_⟩
    · intro e dst out h n hn
      simp only [vn_expr] at h
      cases hv : vn_value ps cs fuel e.first dst with
      | none => simp only [hv] at h; exact Option.noConfusion h
      | some dst1 =>
        simp only [hv] at h
        exact ihp e.pairs dst1 out h n (ihv e.first dst dst1 hv n hn)
    · intro l dst out h n hn
      cases l with
      | nil =>
        simp only [vn_pairs] at h
        exact (Option.some.inj h) ▸ hn
      | cons p rest =>
        simp only [vn_pairs] at h
        cases hv : vn_value ps cs fuel p.val dst with
        | none => simp only [hv] at h; exact Option.noConfusion h
        | some dst1 =>
          simp only [hv] at h
          exact ihp rest dst1 out h n (ihv p.val dst dst1 hv n hn)
    · intro v dst out h n hn
      cases v with
      | EConstant c =>
        simp only [vn_value] at h
        exact (Option.some.inj h) ▸ hn
      | EUnaryOp u =>
        simp only [vn_value] at h
        exact ihu u dst out h n hn
      | EStdFunc f =>
        simp only [vn_value] at h
        exact ihs f dst out h n hn
      | EPrintFunc pf =>
        simp only [vn_value] at h
        exact ihpr pf dst out h n hn
    · intro u dst out h n hn
      cases u with
      | EPos vi =>
        simp only [vn_unary] at h
        exact ihv _ dst out h n hn
      | ENeg vi =>
        simp only [vn_unary] at h
        exact ihv _ dst out h n hn
      | ENot vi =>
        simp only [vn_unary] at h
        exact ihv _ dst out h n hn
      | EParentheses xi =>
        simp only [vn_unary] at h
        exact ihe _ dst out h n hn
    · intro xs dst out h n hn
      cases xs with
      | nil =>
        simp only [vn_args] at h
        exact (Option.some.inj h) ▸ hn
      | cons xi rest =>
        simp only [vn_args] at h
        cases hv : vn_expr ps cs fuel (get_expr ps xi) dst with
        | none => simp only [hv] at h; exact Option.noConfusion h
        | some dst1 =>
          simp only [hv] at h
          exact iha rest dst1 out h n (ihe _ dst dst1 hv n hn)
    · intro f dst out h n hn
      cases f with
      | EVar s =>
        simp only [vn_stdfunc] at h
        exact (Option.some.inj h) ▸ mem_insert_name dst s n hn
      | EFunc name args =>
        simp only [vn_stdfunc] at h
        exact iha args _ out h n (mem_insert_name dst name n hn)
      | EFuncInt xi =>
        simp only [vn_stdfunc] at h
        exact ihe _ dst out h n hn
      | EFuncCeil xi =>
        simp only [vn_stdfunc] at h
        exact ihe _ dst out h n hn
      | EFuncFloor xi =>
        simp only [vn_stdfunc] at h
        exact ihe _ dst out h n hn
      | EFuncAbs xi =>
        simp only [vn_stdfunc] at h
        exact ihe _ dst out h n hn
      | EFuncSign xi =>
        simp only [vn_stdfunc] at h
        exact ihe _ dst out h n hn
      | EFuncSin xi =>
        simp only [vn_stdfunc] at h
        exact ihe _ dst out h n hn
      | EFuncCos xi =>
        simp only [vn_stdfunc] at h
        exact ihe _ dst out h n hn
      | EFuncTan xi =>
        simp only [vn_stdfunc] at h
        exact ihe _ dst out h n hn
      | EFuncASin xi =>
        simp only [vn_stdfunc] at h
        exact ihe _ dst out h n hn
      | EFuncACos xi =>
        simp only [vn_stdfunc] at h
        exact ihe _ dst out h n hn
      | EFuncATan xi =>
        simp only [vn_stdfunc] at h
        exact ihe _ dst out h n hn
      | EFuncSinH xi =>
        simp only [vn_stdfunc] at h
        exact ihe _ dst out h n hn
      | EFuncCosH xi =>
        simp only [vn_stdfunc] at h
        exact ihe _ dst out h n hn
      | EFuncTanH xi =>
        simp only [vn_stdfunc] at h
        exact ihe _ dst out h n hn
      | EFuncASinH xi =>
        simp only [vn_stdfunc] at h
        exact ihe _ dst out h n hn
      | EFuncACosH xi =>
        simp only [vn_stdfunc] at h
        exact ihe _ dst out h n hn
      | EFuncATanH xi =>
        simp only [vn_stdfunc] at h
        exact ihe _ dst out h n hn
      | EFuncE =>
        simp only [vn_stdfunc] at h
        exact (Option.some.inj h) ▸ hn
      | EFuncPi =>
        simp only [vn_stdfunc] at h
        exact (Option.some.inj h) ▸ hn
      | EFuncLog opt expr =>
        cases opt with
        | none =>
          simp only [vn_stdfunc] at h
          exact ihe _ dst out h n hn
        | some xi =>
          simp only [vn_stdfunc] at h
          cases hv : vn_expr ps cs fuel (get_expr ps xi) dst with
          | none => simp only [hv] at h; exact Option.noConfusion h
          | some dst1 =>
            simp only [hv] at h
            exact ihe _ dst1 out h n (ihe _ dst dst1 hv n hn)
      | EFuncRound opt expr =>
        cases opt with
        | none =>
          simp only [vn_stdfunc] at h
          exact ihe _ dst out h n hn
        | some xi =>
          simp only [vn_stdfunc] at h
          cases hv : vn_expr ps cs fuel (get_expr ps xi) dst with
          | none => simp only [hv] at h; exact Option.noConfusion h
          | some dst1 =>
            simp only [hv] at h
            exact ihe _ dst1 out h n (ihe _ dst dst1 hv n hn)
      | EFuncMin first rest =>
        simp only [vn_stdfunc] at h
        cases hv : vn_expr ps cs fuel (get_expr ps first) dst with
        | none => simp only [hv] at h; exact Option.noConfusion h
        | some dst1 =>
          simp only [hv] at h
          exact iha rest dst1 out h n (ihe _ dst dst1 hv n hn)
      | EFuncMax first rest =>
        simp only [vn_stdfunc] at h
        cases hv : vn_expr ps cs fuel (get_expr ps first) dst with
        | none => simp only [hv] at h; exact Option.noConfusion h
        | some dst1 =>
          simp only [hv] at h
          exact iha rest dst1 out h n (ihe _ dst dst1 hv n hn)
    · intro pf dst out h n hn
      simp only [vn_print] at h
      exact ihpi pf.args dst out h n hn
    · intro its dst out h n hn
      cases its with
      | nil =>
        simp only [vn_print_items] at h
        exact (Option.some.inj h) ▸ hn
      | cons item rest =>
        cases item with
        | EExpr xi =>
          simp only [vn_print_items] at h
          cases hv : vn_expr ps cs fuel (get_expr ps xi) dst with
          | none => simp only [hv] at h; exact Option.noConfusion h
          | some dst1 =>
            simp only [hv] at h
            exact ihpi rest dst1 out h n (ihe _ dst dst1 hv n hn)
        | EStr s =>
          simp only [vn_print_items] at h
          exact ihpi rest dst out h n hn

/-- Every name collected by the independent structural walk (`an_*`) lands in
the set computed by the source `_var_names` walk (`vn_*`), uniformly in the
accumulator. -/
theorem an_sub_vn (ps : ParseSlab) (cs : CompileSlab) : ∀ fuel : Nat,
    (∀ e dst out names, vn_expr ps cs fuel e dst = some out →
      an_expr ps fuel e = some names → ∀ n, n ∈ names → n ∈ out) ∧
    (∀ l dst out names, vn_pairs ps cs fuel l dst = some out →
      an_pairs ps fuel l = some names → ∀ n, n ∈ names → n ∈ out) ∧
    (∀ v dst out names, vn_value ps cs fuel v dst = some out →
      an_value ps fuel v = some names → ∀ n, n ∈ names → n ∈ out) ∧
    (∀ u dst out names, vn_unary ps cs fuel u dst = some out →
      an_unary ps fuel u = some names → ∀ n, n ∈ names → n ∈ out) ∧
    (∀ xs dst out names, vn_args ps cs fuel xs dst = some out →
      an_args ps fuel xs = some names → ∀ n, n ∈ names → n ∈ out) ∧
    (∀ f dst out names, vn_stdfunc ps cs fuel f dst = some out →
      an_stdfunc ps fuel f = some names → ∀ n, n ∈ names → n ∈ out) ∧
    (∀ pf dst out names, vn_print ps cs fuel pf dst = some out →
      an_print ps fuel pf = some names → ∀ n, n ∈ names → n ∈ out) ∧
    (∀ its dst out names, vn_print_items ps cs fuel its dst = some out →
      an_print_items ps fuel its = some names → ∀ n, n ∈ names → n ∈ out) := by
  intro fuel
  induction fuel with
  | zero =>
    refine ⟨?_, ?_, ?_, ?_, ?_, ?_, ?_, ?_⟩ <;>
      exact fun _ _ _ _ h => Option.noConfusion h
  | succ fuel ih =>
    obtain ⟨ihe, ihp, ihv, ihu, iha, ihs, ihpr, ihpi⟩ := ih
    refine ⟨?_, ?_, ?_, ?_, ?_, ?_, ?_, ?_⟩
    · intro e dst out names h ha n hn
      simp only [vn_expr] at h
      simp only [an_expr] at ha
      cases hv : vn_value ps cs fuel e.first dst with
      | none => simp only [hv] at h; exact Option.noConfusion h
      | some dst1 =>
        simp only [hv] at h
        cases hav : an_value ps fuel e.first with
        | none => simp only [hav] at ha; exact Option.noConfusion ha
        | some l1 =>
          simp only [hav] at ha
          cases hap : an_pairs ps fuel e.pairs with
          | none => simp only [hap] at ha; exact Option.noConfusion ha
          | some l2 =>
            simp only [hap] at ha
            obtain rfl := Option.some.inj ha
            rcases List.mem_append.mp hn with hnl | hnl
            · exact (vn_mono ps cs fuel).2.1 e.pairs dst1 out h n
                (ihv e.first dst dst1 l1 hv hav n hnl)
            · exact ihp e.pairs dst1 out l2 h hap n hnl
    · intro l dst out names h ha n hn
      cases l with
      | nil =>
        simp only [an_pairs] at ha
        obtain rfl := Option.some.inj ha
        simp at hn
      | cons p rest =>
        simp only [vn_pairs] at h
        simp only [an_pairs] at ha
        cases hv : vn_value ps cs fuel p.val dst with
        | none => simp only [hv] at h; exact Option.noConfusion h
        | some dst1 =>
          simp only [hv] at h
          cases hav : an_value ps fuel p.val with
          | none => simp only [hav] at ha; exact Option.noConfusion ha
          | some l1 =>
            simp only [hav] at ha
            cases hap : an_pairs ps fuel rest with
            | none => simp only [hap] at ha; exact Option.noConfusion ha
            | some l2 =>
              simp only [hap] at ha
              obtain rfl := Option.some.inj ha
              rcases List.mem_append.mp hn with hnl | hnl
              · exact (vn_mono ps cs fuel).2.1 rest dst1 out h n
                  (ihv p.val dst dst1 l1 hv hav n hnl)
              · exact ihp rest dst1 out l2 h hap n hnl
    · intro v dst out names h ha n hn
      cases v with
      | EConstant c =>
        simp only [an_value] at ha
        obtain rfl := Option.some.inj ha
        simp at hn
      | EUnaryOp u =>
        simp only [vn_value] at h
        simp only [an_value] at ha
        exact ihu u dst out names h ha n hn
      | EStdFunc f =>
        simp only [vn_value] at h
        simp only [an_value] at ha
        exact ihs f dst out names h ha n hn
      | EPrintFunc pf =>
        simp only [vn_value] at h
        simp only [an_value] at ha
        exact ihpr pf dst out names h ha n hn
    · intro u dst out names h ha n hn
      cases u with
      | EPos vi =>
        simp only [vn_unary] at h
        simp only [an_unary] at ha
        exact ihv _ dst out names h ha n hn
      | ENeg vi =>
        simp only [vn_unary] at h
        simp only [an_unary] at ha
        exact ihv _ dst out names h ha n hn
      | ENot vi =>
        simp only [vn_unary] at h
        simp only [an_unary] at ha
        exact ihv _ dst out names h ha n hn
      | EParentheses xi =>
        simp only [vn_unary] at h
        simp only [an_unary] at ha
        exact ihe _ dst out names h ha n hn
    · intro xs dst out names h ha n hn
      cases xs with
      | nil =>
        simp only [an_args] at ha
        obtain rfl := Option.some.inj ha
        simp at hn
      | cons xi rest =>
        simp only [vn_args] at h
        simp only [an_args] at ha
        cases hv : vn_expr ps cs fuel (get_expr ps xi) dst with
        | none => simp only [hv] at h; exact Option.noConfusion h
        | some dst1 =>
          simp only [hv] at h
          cases hae : an_expr ps fuel (get_expr ps xi) with
          | none => simp only [hae] at ha; exact Option.noConfusion ha
          | some l1 =>
            simp only [hae] at ha
            cases haa : an_args ps fuel rest with
            | none => simp only [haa] at ha; exact Option.noConfusion ha
            | some l2 =>
              simp only [haa] at ha
              obtain rfl := Option.some.inj ha
              rcases List.mem_append.mp hn with hnl | hnl
              · exact (vn_mono ps cs fuel).2.2.2.2.1 rest dst1 out h n
                  (ihe _ dst dst1 l1 hv hae n hnl)
              · exact iha rest dst1 out l2 h haa n hnl
    · intro f dst out names h ha n hn
      cases f with
      | EVar s =>
        simp only [vn_stdfunc] at h
        simp only [an_stdfunc] at ha
        obtain rfl := Option.some.inj h
        obtain rfl := Option.some.inj ha
        have hns : n = s := by simpa using hn
        exact hns ▸ self_mem_insert_name dst s
      | EFunc name args =>
        simp only [vn_stdfunc] at h
        simp only [an_stdfunc] at ha
        cases haa : an_args ps fuel args with
        | none => simp only [haa] at ha; exact Option.noConfusion ha
        | some l1 =>
          simp only [haa] at ha
          obtain rfl := Option.some.inj ha
          rcases List.mem_cons.mp hn with rfl | hnl
          · exact (vn_mono ps cs fuel).2.2.2.2.1 args (insert_name dst n) out h n
              (self_mem_insert_name dst n)
          · exact iha args (insert_name dst name) out l1 h haa n hnl
      | EFuncInt xi =>
        simp only [vn_stdfunc] at h
        simp only [an_stdfunc] at ha
        exact ihe _ dst out names h ha n hn
      | EFuncCeil xi =>
        simp only [vn_stdfunc] at h
        simp only [an_stdfunc] at ha
        exact ihe _ dst out names h ha n hn
      | EFuncFloor xi =>
        simp only [vn_stdfunc] at h
        simp only [an_stdfunc] at ha
        exact ihe _ dst out names h ha n hn
      | EFuncAbs xi =>
        simp only [vn_stdfunc] at h
        simp only [an_stdfunc] at ha
        exact ihe _ dst out names h ha n hn
      | EFuncSign xi =>
        simp only [vn_stdfunc] at h
        simp only [an_stdfunc] at ha
        exact ihe _ dst out names h ha n hn
      | EFuncSin xi =>
        simp only [vn_stdfunc] at h
        simp only [an_stdfunc] at ha
        exact ihe _ dst out names h ha n hn
      | EFuncCos xi =>
        simp only [vn_stdfunc] at h
        simp only [an_stdfunc] at ha
        exact ihe _ dst out names h ha n hn
      | EFuncTan xi =>
        simp only [vn_stdfunc] at h
        simp only [an_stdfunc] at ha
        exact ihe _ dst out names h ha n hn
      | EFuncASin xi =>
        simp only [vn_stdfunc] at h
        simp only [an_stdfunc] at ha
        exact ihe _ dst out names h ha n hn
      | EFuncACos xi =>
        simp only [vn_stdfunc] at h
        simp only [an_stdfunc] at ha
        exact ihe _ dst out names h ha n hn
      | EFuncATan xi =>
        simp only [vn_stdfunc] at h
        simp only [an_stdfunc] at ha
        exact ihe _ dst out names h ha n hn
      | EFuncSinH xi =>
        simp only [vn_stdfunc] at h
        simp only [an_stdfunc] at ha
        exact ihe _ dst out names h ha n hn
      | EFuncCosH xi =>
        simp only [vn_stdfunc] at h
        simp only [an_stdfunc] at ha
        exact ihe _ dst out names h ha n hn
      | EFuncTanH xi =>
        simp only [vn_stdfunc] at h
        simp only [an_stdfunc] at ha
        exact ihe _ dst out names h ha n hn
      | EFuncASinH xi =>
        simp only [vn_stdfunc] at h
        simp only [an_stdfunc] at ha
        exact ihe _ dst out names h ha n hn
      | EFuncACosH xi =>
        simp only [vn_stdfunc] at h
        simp only [an_stdfunc] at ha
        exact ihe _ dst out names h ha n hn
      | EFuncATanH xi =>
        simp only [vn_stdfunc] at h
        simp only [an_stdfunc] at ha
        exact ihe _ dst out names h ha n hn
      | EFuncE =>
        simp only [an_stdfunc] at ha
        obtain rfl := Option.some.inj ha
        simp at hn
      | EFuncPi =>
        simp only [an_stdfunc] at ha
        obtain rfl := Option.some.inj ha
        simp at hn
      | EFuncLog opt expr =>
        cases opt with
        | none =>
          simp only [vn_stdfunc] at h
          simp only [an_stdfunc] at ha
          cases hae : an_expr ps fuel (get_expr ps expr) with
          | none => simp only [hae] at ha; exact Option.noConfusion ha
          | some l2 =>
            simp only [hae] at ha
            obtain rfl := Option.some.inj ha
            have hnl : n ∈ l2 := by simpa using hn
            exact ihe _ dst out l2 h hae n hnl
        | some xi =>
          simp only [vn_stdfunc] at h
          simp only [an_stdfunc] at ha
          cases hv : vn_expr ps cs fuel (get_expr ps xi) dst with
          | none => simp only [hv] at h; exact Option.noConfusion h
          | some dst1 =>
            simp only [hv] at h
            cases hae1 : an_expr ps fuel (get_expr ps xi) with
            | none => simp only [hae1] at ha; exact Option.noConfusion ha
            | some l1 =>
              simp only [hae1] at ha
              cases hae2 : an_expr ps fuel (get_expr ps expr) with
              | none => simp only [hae2] at ha; exact Option.noConfusion ha
              | some l2 =>
                simp only [hae2] at ha
                obtain rfl := Option.some.inj ha
                rcases List.mem_append.mp hn with hnl | hnl
                · exact (vn_mono ps cs fuel).1 (get_expr ps expr) dst1 out h n
                    (ihe _ dst dst1 l1 hv hae1 n hnl)
                · exact ihe _ dst1 out l2 h hae2 n hnl
      | EFuncRound opt expr =>
        cases opt with
        | none =>
          simp only [vn_stdfunc] at h
          simp only [an_stdfunc] at ha
          cases hae : an_expr ps fuel (get_expr ps expr) with
          | none => simp only [hae] at ha; exact Option.noConfusion ha
          | some l2 =>
            simp only [hae] at ha
            obtain rfl := Option.some.inj ha
            have hnl : n ∈ l2 := by simpa using hn
            exact ihe _ dst out l2 h hae n hnl
        | some xi =>
          simp only [vn_stdfunc] at h
          simp only [an_stdfunc] at ha
          cases hv : vn_expr ps cs fuel (get_expr ps xi) dst with
          | none => simp only [hv] at h; exact Option.noConfusion h
          | some dst1 =>
            simp only [hv] at h
            cases hae1 : an_expr ps fuel (get_expr ps xi) with
            | none => simp only [hae1] at ha; exact Option.noConfusion ha
            | some l1 =>
              simp only [hae1] at ha
              cases hae2 : an_expr ps fuel (get_expr ps expr) with
              | none => simp only [hae2] at ha; exact Option.noConfusion ha
              | some l2 =>
                simp only [hae2] at ha
                obtain rfl := Option.some.inj ha
                rcases List.mem_append.mp hn with hnl | hnl
                · exact (vn_mono ps cs fuel).1 (get_expr ps expr) dst1 out h n
                    (ihe _ dst dst1 l1 hv hae1 n hnl)
                · exact ihe _ dst1 out l2 h hae2 n hnl
      | EFuncMin first rest =>
        simp only [vn_stdfunc] at h
        simp only [an_stdfunc] at ha
        cases hv : vn_expr ps cs fuel (get_expr ps first) dst with
        | none => simp only [hv] at h; exact Option.noConfusion h
        | some dst1 =>
          simp only [hv] at h
          cases hae : an_expr ps fuel (get_expr ps first) with
          | none => simp only [hae] at ha; exact Option.noConfusion ha
          | some l1 =>
            simp only [hae] at ha
            cases haa : an_args ps fuel rest with
            | none => simp only [haa] at ha; exact Option.noConfusion ha
            | some l2 =>
              simp only [haa] at ha
              obtain rfl := Option.some.inj ha
              rcases List.mem_append.mp hn with hnl | hnl
              · exact (vn_mono ps cs fuel).2.2.2.2.1 rest dst1 out h n
                  (ihe _ dst dst1 l1 hv hae n hnl)
              · exact iha rest dst1 out l2 h haa n hnl
      | EFuncMax first rest =>
        simp only [vn_stdfunc] at h
        simp only [an_stdfunc] at ha
        cases hv : vn_expr ps cs fuel (get_expr ps first) dst with
        | none => simp only [hv] at h; exact Option.noConfusion h
        | some dst1 =>
          simp only [hv] at h
          cases hae : an_expr ps fuel (get_expr ps first) with
          | none => simp only [hae] at ha; exact Option.noConfusion ha
          | some l1 =>
            simp only [hae] at ha
            cases haa : an_args ps fuel rest with
            | none => simp only [haa] at ha; exact Option.noConfusion ha
            | some l2 =>
              simp only [haa] at ha
              obtain rfl := Option.some.inj ha
              rcases List.mem_append.mp hn with hnl | hnl
              · exact (vn_mono ps cs fuel).2.2.2.2.1 rest dst1 out h n
                  (ihe _ dst dst1 l1 hv hae n hnl)
              · exact iha rest dst1 out l2 h haa n hnl
    · intro pf dst out names h ha n hn
      simp only [vn_print] at h
      simp only [an_print] at ha
      exact ihpi pf.args dst out names h ha n hn
    · intro its dst out names h ha n hn
      cases its with
      | nil =>
        simp only [an_print_items] at ha
        obtain rfl := Option.some.inj ha
        simp at hn
      | cons item rest =>
        cases item with
        | EExpr xi =>
          simp only [vn_print_items] at h
          simp only [an_print_items] at ha
          cases hv : vn_expr ps cs fuel (get_expr ps xi) dst with
          | none => simp only [hv] at h; exact Option.noConfusion h
          | some dst1 =>
            simp only [hv] at h
            cases hae : an_expr ps fuel (get_expr ps xi) with
            | none => simp only [hae] at ha; exact Option.noConfusion ha
            | some l1 =>
              simp only [hae] at ha
              cases hai : an_print_items ps fuel rest with
              | none => simp only [hai] at ha; exact Option.noConfusion ha
              | some l2 =>
                simp only [hai] at ha
                obtain rfl := Option.some.inj ha
                rcases List.mem_append.mp hn with hnl | hnl
                · exact (vn_mono ps cs fuel).2.2.2.2.2.2.2 rest dst1 out h n
                    (ihe _ dst dst1 l1 hv hae n hnl)
                · exact ihpi rest dst1 out l2 h hai n hnl
        | EStr s =>
          simp only [vn_print_items] at h
          simp only [an_print_items] at ha
          exact ihpi rest dst out names h ha n hn

/-- C8 (amended): `var_names` of the parsed Expression contains every
identifier that appears as a `Var` or `Func` name anywhere in the tree —
including inside short-circuit branches — as collected by the independent
structural walk `an_expr`.  (The compiled-Instruction half of the original
claim is refuted separately: compile-time short-circuit elimination can drop
a branch and its names.) -/
theorem C8_amended_expression_var_names_total (ps : ParseSlab) (fuel : Nat)
    (e : Expression) (out names : List String)
    (h : var_names_expr ps fuel e = some out)
    (ha : an_expr ps fuel e = some names) :
    ∀ n, n ∈ names → n ∈ out :=
  (an_sub_vn ps [] fuel).1 e [] out names h ha

/-- Witness for the amended C8: on the parsed `1||x`, both walks return
`["x"]`, and the theorem transports membership of "x". -/
theorem C8_amended_expression_var_names_total_witness :
    var_names_expr ps8 100 (get_expr ps8 0) = some ["x"] ∧
    an_expr ps8 100 (get_expr ps8 0) = some ["x"] ∧
    "x" ∈ ["x"] :=
  ⟨by decide, by decide,
   C8_amended_expression_var_names_total ps8 100 (get_expr ps8 0) ["x"] ["x"]
     (by decide) (by decide) "x" (by decide)⟩

/-! ## Helper lemmas for the Undefined-error claim -/

theorem some_pair_fst {α β : Type} {a c : α} {b d : β}
    (h : some (a, b) = some (c, d)) : a = c :=
  congrArg Prod.fst (Option.some.inj h)

/-- `eval_var` dichotomy: a `some` lookup yields `ok`, a `none` lookup yields
exactly `Undefined(name)`. -/
theorem eval_var_cases {σ : Type} (ns : Ns σ) (s : σ) (name : String)
    (args : List F) :
    (∃ f s2, ns s name args = (some f, s2) ∧
      eval_var ns s name args = (.ok f, s2)) ∨
    (∃ s2, ns s name args = (none, s2) ∧
      eval_var ns s name args = (.error (.Undefined name), s2)) := by
  cases hns : ns s name args with
  | mk o s2 =>
    cases o with
    | some f => exact Or.inl ⟨f, s2, rfl, by simp [eval_var, hns]⟩
    | none => exact Or.inr ⟨s2, rfl, by simp [eval_var, hns]⟩

/-- Under a namespace whose lookups never return `None`, `eval_var` never
produces an `Undefined` error. -/
theorem eval_var_total_no_undef {σ : Type} (ns : Ns σ)
    (htotal : ∀ s name args, ((ns s name args).1).isSome = true)
    (s : σ) (name : String) (args : List F) :
    res_undef (eval_var ns s name args).1 = false := by
  rcases eval_var_cases ns s name args with ⟨f, s2, _, he⟩ | ⟨s2, hns, _⟩
  · rw [he]
    rfl
  · have ht := htotal s name args
    rw [hns] at ht
    simp at ht


/-- Under a namespace whose lookups never return `None`, no evaluation —
interpreter or compiled mode — ever produces an `Undefined` error: that
error only arises from a `None` lookup.  Mutual fuel induction over the
whole evaluator block. -/
theorem eval_no_undef {σ : Type} (fx : Foreign) (ps : ParseSlab)
    (cs : CompileSlab) (ns : Ns σ)
    (htotal : ∀ s name args, ((ns s name args).1).isSome = true) :
    ∀ fuel : Nat,
    (∀ e s res s', eval_expr_ast fx ps ns fuel e s = some (res, s') →
      res_undef res = false) ∧
    (∀ pairs vals ops s res s',
      eval_pairs fx ps ns fuel pairs vals ops s = some (res, s') →
      res_undef res = false) ∧
    (∀ v s res s', eval_value fx ps ns fuel v s = some (res, s') →
      res_undef res = false) ∧
    (∀ u s res s', eval_unary fx ps ns fuel u s = some (res, s') →
      res_undef res = false) ∧
    (∀ xis acc s res s', eval_args fx ps ns fuel xis acc s = some (res, s') →
      res_undef res = false) ∧
    (∀ xis m b s res s', min_loop fx ps ns fuel xis m b s = some (res, s') →
      res_undef res = false) ∧
    (∀ xis m b s res s', max_loop fx ps ns fuel xis m b s = some (res, s') →
      res_undef res = false) ∧
    (∀ f s res s', eval_stdfunc fx ps ns fuel f s = some (res, s') →
      res_undef res = false) ∧
    (∀ pf s res s', eval_print fx ps ns fuel pf s = some (res, s') →
      res_undef res = false) ∧
    (∀ items val s res s', print_loop fx ps ns fuel items val s = some (res, s') →
      res_undef res = false) ∧
    (∀ instr s res s', eval_instr fx ps cs ns fuel instr s = some (res, s') →
      res_undef res = false) ∧
    (∀ ic s res s', eval_ic fx ps cs ns fuel ic s = some (res, s') →
      res_undef res = false) ∧
    (∀ ics acc s res s', ifunc_args fx ps cs ns fuel ics acc s = some (res, s') →
      res_undef res = false) := by
  intro fuel
  induction fuel with
  | zero =>
    exact ⟨fun _ _ _ _ h => Option.noConfusion h,
      fun _ _ _ _ _ _ h => Option.noConfusion h,
      fun _ _ _ _ h => Option.noConfusion h,
      fun _ _ _ _ h => Option.noConfusion h,
      fun _ _ _ _ _ h => Option.noConfusion h,
      fun _ _ _ _ _ _ h => Option.noConfusion h,
      fun _ _ _ _ _ _ h => Option.noConfusion h,
      fun _ _ _ _ h => Option.noConfusion h,
      fun _ _ _ _ h => Option.noConfusion h,
      fun _ _ _ _ _ h => Option.noConfusion h,
      fun _ _ _ _ h => Option.noConfusion h,
      fun _ _ _ _ h => Option.noConfusion h,
      fun _ _ _ _ _ h => Option.noConfusion h⟩
  | succ fuel ih =>
    obtain ⟨ihe, ihp, ihv, ihu, iharg, ihmin, ihmax, ihs, ihprn, ihpl, ihi, ihic, ihfa⟩ := ih
    refine ⟨?_, ?_, ?_, ?_, ?_, ?_, ?_, ?_, ?_, ?_, ?_, ?_, ?_⟩
    · intro e s res s' h
      simp only [eval_expr_ast] at h
      split at h
      · exact Option.noConfusion h
      · rename_i err s1 heq
        obtain rfl := some_pair_fst h
        exact ihv _ _ _ _ heq
      · rename_i v s1 heq
        split at h
        · exact Option.noConfusion h
        · rename_i err s2 heq2
          obtain rfl := some_pair_fst h
          exact ihp _ _ _ _ _ _ heq2
        · rename_i vals ops s2 heq2
          split at h
          · obtain rfl := some_pair_fst h
            rfl
          · split at h
            · obtain rfl := some_pair_fst h
              rfl
            · split at h
              · obtain rfl := some_pair_fst h
                rfl
              · rename_i v1 heq4
                obtain rfl := some_pair_fst h
                rfl
    · intro pairs vals ops s res s' h
      cases pairs with
      | nil =>
        simp only [eval_pairs] at h
        obtain rfl := some_pair_fst h
        rfl
      | cons p rest =>
        simp only [eval_pairs] at h
        split at h
        · exact Option.noConfusion h
        · rename_i err s1 heq
          obtain rfl := some_pair_fst h
          exact ihv _ _ _ _ heq
        · rename_i v s1 heq
          exact ihp _ _ _ _ _ _ h
    · intro v s res s' h
      cases v with
      | EConstant c =>
        simp only [eval_value] at h
        obtain rfl := some_pair_fst h
        rfl
      | EUnaryOp u =>
        simp only [eval_value] at h
        exact ihu _ _ _ _ h
      | EStdFunc f =>
        simp only [eval_value] at h
        exact ihs _ _ _ _ h
      | EPrintFunc pf =>
        simp only [eval_value] at h
        exact ihprn _ _ _ _ h
    · intro u s res s' h
      cases u with
      | EPos i =>
        simp only [eval_unary] at h
        exact ihv _ _ _ _ h
      | ENeg i =>
        simp only [eval_unary] at h
        split at h
        · exact Option.noConfusion h
        · rename_i err s1 heq
          obtain rfl := some_pair_fst h
          exact ihv _ _ _ _ heq
        · rename_i v s1 heq
          obtain rfl := some_pair_fst h
          rfl
      | ENot i =>
        simp only [eval_unary] at h
        split at h
        · exact Option.noConfusion h
        · rename_i err s1 heq
          obtain rfl := some_pair_fst h
          exact ihv _ _ _ _ heq
        · rename_i v s1 heq
          obtain rfl := some_pair_fst h
          rfl
      | EParentheses i =>
        simp only [eval_unary] at h
        exact ihe _ _ _ _ h
    · intro xis acc s res s' h
      cases xis with
      | nil =>
        simp only [eval_args] at h
        obtain rfl := some_pair_fst h
        rfl
      | cons xi rest =>
        simp only [eval_args] at h
        split at h
        · exact Option.noConfusion h
        · rename_i err s1 heq
          obtain rfl := some_pair_fst h
          exact ihe _ _ _ _ heq
        · rename_i v s1 heq
          exact iharg _ _ _ _ _ h
    · intro xis m b s res s' h
      cases xis with
      | nil =>
        simp only [min_loop] at h
        obtain rfl := some_pair_fst h
        rfl
      | cons xi rest =>
        simp only [min_loop] at h
        split at h
        · exact Option.noConfusion h
        · rename_i err s1 heq
          obtain rfl := some_pair_fst h
          exact ihe _ _ _ _ heq
        · rename_i v s1 heq
          exact ihmin _ _ _ _ _ _ h
    · intro xis m b s res s' h
      cases xis with
      | nil =>
        simp only [max_loop] at h
        obtain rfl := some_pair_fst h
        rfl
      | cons xi rest =>
        simp only [max_loop] at h
        split at h
        · exact Option.noConfusion h
        · rename_i err s1 heq
          obtain rfl := some_pair_fst h
          exact ihe _ _ _ _ heq
        · rename_i v s1 heq
          exact ihmax _ _ _ _ _ _ h
    · intro f s res s' h
      cases f with
      | EVar name =>
        simp only [eval_stdfunc] at h
        obtain rfl := congrArg Prod.fst (Option.some.inj h)
        exact eval_var_total_no_undef ns htotal s name []
      | EFunc name xis =>
        simp only [eval_stdfunc] at h
        split at h
        · exact Option.noConfusion h
        · rename_i err s1 heq
          obtain rfl := some_pair_fst h
          exact iharg _ _ _ _ _ heq
        · rename_i args s1 heq
          obtain rfl := congrArg Prod.fst (Option.some.inj h)
          exact eval_var_total_no_undef ns htotal s1 name args
      | EFuncSin xi =>
        simp only [eval_stdfunc] at h
        split at h
        · exact Option.noConfusion h
        · rename_i err s1 heq
          obtain rfl := some_pair_fst h
          exact ihe _ _ _ _ heq
        · rename_i v s1 heq
          obtain rfl := some_pair_fst h
          rfl
      | EFuncCos xi =>
        simp only [eval_stdfunc] at h
        split at h
        · exact Option.noConfusion h
        · rename_i err s1 heq
          obtain rfl := some_pair_fst h
          exact ihe _ _ _ _ heq
        · rename_i v s1 heq
          obtain rfl := some_pair_fst h
          rfl
      | EFuncTan xi =>
        simp only [eval_stdfunc] at h
        split at h
        · exact Option.noConfusion h
        · rename_i err s1 heq
          obtain rfl := some_pair_fst h
          exact ihe _ _ _ _ heq
        · rename_i v s1 heq
          obtain rfl := some_pair_fst h
          rfl
      | EFuncASin xi =>
        simp only [eval_stdfunc] at h
        split at h
        · exact Option.noConfusion h
        · rename_i err s1 heq
          obtain rfl := some_pair_fst h
          exact ihe _ _ _ _ heq
        · rename_i v s1 heq
          obtain rfl := some_pair_fst h
          rfl
      | EFuncACos xi =>
        simp only [eval_stdfunc] at h
        split at h
        · exact Option.noConfusion h
        · rename_i err s1 heq
          obtain rfl := some_pair_fst h
          exact ihe _ _ _ _ heq
        · rename_i v s1 heq
          obtain rfl := some_pair_fst h
          rfl
      | EFuncATan xi =>
        simp only [eval_stdfunc] at h
        split at h
        · exact Option.noConfusion h
        · rename_i err s1 heq
          obtain rfl := some_pair_fst h
          exact ihe _ _ _ _ heq
        · rename_i v s1 heq
          obtain rfl := some_pair_fst h
          rfl
      | EFuncSinH xi =>
        simp only [eval_stdfunc] at h
        split at h
        · exact Option.noConfusion h
        · rename_i err s1 heq
          obtain rfl := some_pair_fst h
          exact ihe _ _ _ _ heq
        · rename_i v s1 heq
          obtain rfl := some_pair_fst h
          rfl
      | EFuncCosH xi =>
        simp only [eval_stdfunc] at h
        split at h
        · exact Option.noConfusion h
        · rename_i err s1 heq
          obtain rfl := some_pair_fst h
          exact ihe _ _ _ _ heq
        · rename_i v s1 heq
          obtain rfl := some_pair_fst h
          rfl
      | EFuncTanH xi =>
        simp only [eval_stdfunc] at h
        split at h
        · exact Option.noConfusion h
        · rename_i err s1 heq
          obtain rfl := some_pair_fst h
          exact ihe _ _ _ _ heq
        · rename_i v s1 heq
          obtain rfl := some_pair_fst h
          rfl
      | EFuncASinH xi =>
        simp only [eval_stdfunc] at h
        split at h
        · exact Option.noConfusion h
        · rename_i err s1 heq
          obtain rfl := some_pair_fst h
          exact ihe _ _ _ _ heq
        · rename_i v s1 heq
          obtain rfl := some_pair_fst h
          rfl
      | EFuncACosH xi =>
        simp only [eval_stdfunc] at h
        split at h
        · exact Option.noConfusion h
        · rename_i err s1 heq
          obtain rfl := some_pair_fst h
          exact ihe _ _ _ _ heq
        · rename_i v s1 heq
          obtain rfl := some_pair_fst h
          rfl
      | EFuncATanH xi =>
        simp only [eval_stdfunc] at h
        split at h
        · exact Option.noConfusion h
        · rename_i err s1 heq
          obtain rfl := some_pair_fst h
          exact ihe _ _ _ _ heq
        · rename_i v s1 heq
          obtain rfl := some_pair_fst h
          rfl
      | EFuncAbs xi =>
        simp only [eval_stdfunc] at h
        split at h
        · exact Option.noConfusion h
        · rename_i err s1 heq
          obtain rfl := some_pair_fst h
          exact ihe _ _ _ _ heq
        · rename_i v s1 heq
          obtain rfl := some_pair_fst h
          rfl
      | EFuncSign xi =>
        simp only [eval_stdfunc] at h
        split at h
        · exact Option.noConfusion h
        · rename_i err s1 heq
          obtain rfl := some_pair_fst h
          exact ihe _ _ _ _ heq
        · rename_i v s1 heq
          obtain rfl := some_pair_fst h
          rfl
      | EFuncInt xi =>
        simp only [eval_stdfunc] at h
        split at h
        · exact Option.noConfusion h
        · rename_i err s1 heq
          obtain rfl := some_pair_fst h
          exact ihe _ _ _ _ heq
        · rename_i v s1 heq
          obtain rfl := some_pair_fst h
          rfl
      | EFuncCeil xi =>
        simp only [eval_stdfunc] at h
        split at h
        · exact Option.noConfusion h
        · rename_i err s1 heq
          obtain rfl := some_pair_fst h
          exact ihe _ _ _ _ heq
        · rename_i v s1 heq
          obtain rfl := some_pair_fst h
          rfl
      | EFuncFloor xi =>
        simp only [eval_stdfunc] at h
        split at h
        · exact Option.noConfusion h
        · rename_i err s1 heq
          obtain rfl := some_pair_fst h
          exact ihe _ _ _ _ heq
        · rename_i v s1 heq
          obtain rfl := some_pair_fst h
          rfl
      | EFuncLog base_opt expr =>
        cases base_opt with
        | none =>
          simp only [eval_stdfunc] at h
          split at h
          · exact Option.noConfusion h
          · rename_i err s1 heq
            obtain rfl := some_pair_fst h
            exact ihe _ _ _ _ heq
          · rename_i v s1 heq
            obtain rfl := some_pair_fst h
            rfl
        | some bi =>
          simp only [eval_stdfunc] at h
          split at h
          · exact Option.noConfusion h
          · rename_i err s1 heq
            obtain rfl := some_pair_fst h
            exact ihe _ _ _ _ heq
          · rename_i v s1 heq
            split at h
            · exact Option.noConfusion h
            · rename_i err s2 heq2
              obtain rfl := some_pair_fst h
              exact ihe _ _ _ _ heq2
            · rename_i w s2 heq2
              obtain rfl := some_pair_fst h
              rfl
      | EFuncRound mod_opt expr =>
        cases mod_opt with
        | none =>
          simp only [eval_stdfunc] at h
          split at h
          · exact Option.noConfusion h
          · rename_i err s1 heq
            obtain rfl := some_pair_fst h
            exact ihe _ _ _ _ heq
          · rename_i v s1 heq
            obtain rfl := some_pair_fst h
            rfl
        | some bi =>
          simp only [eval_stdfunc] at h
          split at h
          · exact Option.noConfusion h
          · rename_i err s1 heq
            obtain rfl := some_pair_fst h
            exact ihe _ _ _ _ heq
          · rename_i v s1 heq
            split at h
            · exact Option.noConfusion h
            · rename_i err s2 heq2
              obtain rfl := some_pair_fst h
              exact ihe _ _ _ _ heq2
            · rename_i w s2 heq2
              obtain rfl := some_pair_fst h
              rfl
      | EFuncMin fi rest =>
        simp only [eval_stdfunc] at h
        split at h
        · exact Option.noConfusion h
        · rename_i err s1 heq
          obtain rfl := some_pair_fst h
          exact ihe _ _ _ _ heq
        · rename_i v0 s1 heq
          split at h
          · exact Option.noConfusion h
          · rename_i err s2 heq2
            obtain rfl := some_pair_fst h
            exact ihmin _ _ _ _ _ _ heq2
          · rename_i m saw s2 heq2
            split at h
            · obtain rfl := some_pair_fst h
              rfl
            · obtain rfl := some_pair_fst h
              rfl
      | EFuncMax fi rest =>
        simp only [eval_stdfunc] at h
        split at h
        · exact Option.noConfusion h
        · rename_i err s1 heq
          obtain rfl := some_pair_fst h
          exact ihe _ _ _ _ heq
        · rename_i v0 s1 heq
          split at h
          · exact Option.noConfusion h
          · rename_i err s2 heq2
            obtain rfl := some_pair_fst h
            exact ihmax _ _ _ _ _ _ heq2
          · rename_i m saw s2 heq2
            split at h
            · obtain rfl := some_pair_fst h
              rfl
            · obtain rfl := some_pair_fst h
              rfl
      | EFuncE =>
        simp only [eval_stdfunc] at h
        obtain rfl := some_pair_fst h
        rfl
      | EFuncPi =>
        simp only [eval_stdfunc] at h
        obtain rfl := some_pair_fst h
        rfl
    · intro pf s res s' h
      simp only [eval_print] at h
      split at h
      · obtain rfl := some_pair_fst h
        rfl
      · exact ihpl _ _ _ _ _ h
    · intro items val s res s' h
      cases items with
      | nil =>
        simp only [print_loop] at h
        obtain rfl := some_pair_fst h
        rfl
      | cons item rest =>
        cases item with
        | EExpr ei =>
          simp only [print_loop] at h
          split at h
          · exact Option.noConfusion h
          · rename_i err s1 heq
            obtain rfl := some_pair_fst h
            exact ihe _ _ _ _ heq
          · rename_i v s1 heq
            exact ihpl _ _ _ _ _ h
        | EStr str =>
          simp only [print_loop] at h
          exact ihpl _ _ _ _ _ h
    · intro instr s res s' h
      cases instr with
      | IConst c =>
        simp only [eval_instr] at h
        obtain rfl := some_pair_fst h
        rfl
      | IVar name =>
        simp only [eval_instr] at h
        obtain rfl := congrArg Prod.fst (Option.some.inj h)
        exact eval_var_total_no_undef ns htotal s name []
      | IFunc name ics =>
        simp only [eval_instr] at h
        split at h
        · exact Option.noConfusion h
        · rename_i err s1 heq
          obtain rfl := some_pair_fst h
          exact ihfa _ _ _ _ _ heq
        · rename_i args s1 heq
          obtain rfl := congrArg Prod.fst (Option.some.inj h)
          exact eval_var_total_no_undef ns htotal s1 name args
      | INeg i =>
        simp only [eval_instr] at h
        split at h
        · exact Option.noConfusion h
        · rename_i err s1 heq
          obtain rfl := some_pair_fst h
          exact ihi _ _ _ _ heq
        · rename_i v s1 heq
          obtain rfl := some_pair_fst h
          rfl
      | IInv i =>
        simp only [eval_instr] at h
        split at h
        · exact Option.noConfusion h
        · rename_i err s1 heq
          obtain rfl := some_pair_fst h
          exact ihi _ _ _ _ heq
        · rename_i v s1 heq
          obtain rfl := some_pair_fst h
          rfl
      | INot i =>
        simp only [eval_instr] at h
        split at h
        · exact Option.noConfusion h
        · rename_i err s1 heq
          obtain rfl := some_pair_fst h
          exact ihi _ _ _ _ heq
        · rename_i v s1 heq
          obtain rfl := some_pair_fst h
          rfl
      | IFuncInt i =>
        simp only [eval_instr] at h
        split at h
        · exact Option.noConfusion h
        · rename_i err s1 heq
          obtain rfl := some_pair_fst h
          exact ihi _ _ _ _ heq
        · rename_i v s1 heq
          obtain rfl := some_pair_fst h
          rfl
      | IFuncCeil i =>
        simp only [eval_instr] at h
        split at h
        · exact Option.noConfusion h
        · rename_i err s1 heq
          obtain rfl := some_pair_fst h
          exact ihi _ _ _ _ heq
        · rename_i v s1 heq
          obtain rfl := some_pair_fst h
          rfl
      | IFuncFloor i =>
        simp only [eval_instr] at h
        split at h
        · exact Option.noConfusion h
        · rename_i err s1 heq
          obtain rfl := some_pair_fst h
          exact ihi _ _ _ _ heq
        · rename_i v s1 heq
          obtain rfl := some_pair_fst h
          rfl
      | IFuncAbs i =>
        simp only [eval_instr] at h
        split at h
        · exact Option.noConfusion h
        · rename_i err s1 heq
          obtain rfl := some_pair_fst h
          exact ihi _ _ _ _ heq
        · rename_i v s1 heq
          obtain rfl := some_pair_fst h
          rfl
      | IFuncSign i =>
        simp only [eval_instr] at h
        split at h
        · exact Option.noConfusion h
        · rename_i err s1 heq
          obtain rfl := some_pair_fst h
          exact ihi _ _ _ _ heq
        · rename_i v s1 heq
          obtain rfl := some_pair_fst h
          rfl
      | IFuncSin i =>
        simp only [eval_instr] at h
        split at h
        · exact Option.noConfusion h
        · rename_i err s1 heq
          obtain rfl := some_pair_fst h
          exact ihi _ _ _ _ heq
        · rename_i v s1 heq
          obtain rfl := some_pair_fst h
          rfl
      | IFuncCos i =>
        simp only [eval_instr] at h
        split at h
        · exact Option.noConfusion h
        · rename_i err s1 heq
          obtain rfl := some_pair_fst h
          exact ihi _ _ _ _ heq
        · rename_i v s1 heq
          obtain rfl := some_pair_fst h
          rfl
      | IFuncTan i =>
        simp only [eval_instr] at h
        split at h
        · exact Option.noConfusion h
        · rename_i err s1 heq
          obtain rfl := some_pair_fst h
          exact ihi _ _ _ _ heq
        · rename_i v s1 heq
          obtain rfl := some_pair_fst h
          rfl
      | IFuncASin i =>
        simp only [eval_instr] at h
        split at h
        · exact Option.noConfusion h
        · rename_i err s1 heq
          obtain rfl := some_pair_fst h
          exact ihi _ _ _ _ heq
        · rename_i v s1 heq
          obtain rfl := some_pair_fst h
          rfl
      | IFuncACos i =>
        simp only [eval_instr] at h
        split at h
        · exact Option.noConfusion h
        · rename_i err s1 heq
          obtain rfl := some_pair_fst h
          exact ihi _ _ _ _ heq
        · rename_i v s1 heq
          obtain rfl := some_pair_fst h
          rfl
      | IFuncATan i =>
        simp only [eval_instr] at h
        split at h
        · exact Option.noConfusion h
        · rename_i err s1 heq
          obtain rfl := some_pair_fst h
          exact ihi _ _ _ _ heq
        · rename_i v s1 heq
          obtain rfl := some_pair_fst h
          rfl
      | IFuncSinH i =>
        simp only [eval_instr] at h
        split at h
        · exact Option.noConfusion h
        · rename_i err s1 heq
          obtain rfl := some_pair_fst h
          exact ihi _ _ _ _ heq
        · rename_i v s1 heq
          obtain rfl := some_pair_fst h
          rfl
      | IFuncCosH i =>
        simp only [eval_instr] at h
        split at h
        · exact Option.noConfusion h
        · rename_i err s1 heq
          obtain rfl := some_pair_fst h
          exact ihi _ _ _ _ heq
        · rename_i v s1 heq
          obtain rfl := some_pair_fst h
          rfl
      | IFuncTanH i =>
        simp only [eval_instr] at h
        split at h
        · exact Option.noConfusion h
        · rename_i err s1 heq
          obtain rfl := some_pair_fst h
          exact ihi _ _ _ _ heq
        · rename_i v s1 heq
          obtain rfl := some_pair_fst h
          rfl
      | IFuncASinH i =>
        simp only [eval_instr] at h
        split at h
        · exact Option.noConfusion h
        · rename_i err s1 heq
          obtain rfl := some_pair_fst h
          exact ihi _ _ _ _ heq
        · rename_i v s1 heq
          obtain rfl := some_pair_fst h
          rfl
      | IFuncACosH i =>
        simp only [eval_instr] at h
        split at h
        · exact Option.noConfusion h
        · rename_i err s1 heq
          obtain rfl := some_pair_fst h
          exact ihi _ _ _ _ heq
        · rename_i v s1 heq
          obtain rfl := some_pair_fst h
          rfl
      | IFuncATanH i =>
        simp only [eval_instr] at h
        split at h
        · exact Option.noConfusion h
        · rename_i err s1 heq
          obtain rfl := some_pair_fst h
          exact ihi _ _ _ _ heq
        · rename_i v s1 heq
          obtain rfl := some_pair_fst h
          rfl
      | IExp lic ric =>
        simp only [eval_instr] at h
        split at h
        · exact Option.noConfusion h
        · rename_i err s1 heq
          obtain rfl := some_pair_fst h
          exact ihic _ _ _ _ heq
        · rename_i v s1 heq
          split at h
          · exact Option.noConfusion h
          · rename_i err s2 heq2
            obtain rfl := some_pair_fst h
            exact ihic _ _ _ _ heq2
          · rename_i w s2 heq2
            obtain rfl := some_pair_fst h
            rfl
      | IMod lic ric =>
        simp only [eval_instr] at h
        split at h
        · exact Option.noConfusion h
        · rename_i err s1 heq
          obtain rfl := some_pair_fst h
          exact ihic _ _ _ _ heq
        · rename_i v s1 heq
          split at h
          · exact Option.noConfusion h
          · rename_i err s2 heq2
            obtain rfl := some_pair_fst h
            exact ihic _ _ _ _ heq2
          · rename_i w s2 heq2
            obtain rfl := some_pair_fst h
            rfl
      | IEQ lic ric =>
        simp only [eval_instr] at h
        split at h
        · exact Option.noConfusion h
        · rename_i err s1 heq
          obtain rfl := some_pair_fst h
          exact ihic _ _ _ _ heq
        · rename_i v s1 heq
          split at h
          · exact Option.noConfusion h
          · rename_i err s2 heq2
            obtain rfl := some_pair_fst h
            exact ihic _ _ _ _ heq2
          · rename_i w s2 heq2
            obtain rfl := some_pair_fst h
            rfl
      | INE lic ric =>
        simp only [eval_instr] at h
        split at h
        · exact Option.noConfusion h
        · rename_i err s1 heq
          obtain rfl := some_pair_fst h
          exact ihic _ _ _ _ heq
        · rename_i v s1 heq
          split at h
          · exact Option.noConfusion h
          · rename_i err s2 heq2
            obtain rfl := some_pair_fst h
            exact ihic _ _ _ _ heq2
          · rename_i w s2 heq2
            obtain rfl := some_pair_fst h
            rfl
      | ILT lic ric =>
        simp only [eval_instr] at h
        split at h
        · exact Option.noConfusion h
        · rename_i err s1 heq
          obtain rfl := some_pair_fst h
          exact ihic _ _ _ _ heq
        · rename_i v s1 heq
          split at h
          · exact Option.noConfusion h
          · rename_i err s2 heq2
            obtain rfl := some_pair_fst h
            exact ihic _ _ _ _ heq2
          · rename_i w s2 heq2
            obtain rfl := some_pair_fst h
            rfl
      | ILTE lic ric =>
        simp only [eval_instr] at h
        split at h
        · exact Option.noConfusion h
        · rename_i err s1 heq
          obtain rfl := some_pair_fst h
          exact ihic _ _ _ _ heq
        · rename_i v s1 heq
          split at h
          · exact Option.noConfusion h
          · rename_i err s2 heq2
            obtain rfl := some_pair_fst h
            exact ihic _ _ _ _ heq2
          · rename_i w s2 heq2
            obtain rfl := some_pair_fst h
            rfl
      | IGTE lic ric =>
        simp only [eval_instr] at h
        split at h
        · exact Option.noConfusion h
        · rename_i err s1 heq
          obtain rfl := some_pair_fst h
          exact ihic _ _ _ _ heq
        · rename_i v s1 heq
          split at h
          · exact Option.noConfusion h
          · rename_i err s2 heq2
            obtain rfl := some_pair_fst h
            exact ihic _ _ _ _ heq2
          · rename_i w s2 heq2
            obtain rfl := some_pair_fst h
            rfl
      | IGT lic ric =>
        simp only [eval_instr] at h
        split at h
        · exact Option.noConfusion h
        · rename_i err s1 heq
          obtain rfl := some_pair_fst h
          exact ihic _ _ _ _ heq
        · rename_i v s1 heq
          split at h
          · exact Option.noConfusion h
          · rename_i err s2 heq2
            obtain rfl := some_pair_fst h
            exact ihic _ _ _ _ heq2
          · rename_i w s2 heq2
            obtain rfl := some_pair_fst h
            rfl
      | IFuncLog lic ric =>
        simp only [eval_instr] at h
        split at h
        · exact Option.noConfusion h
        · rename_i err s1 heq
          obtain rfl := some_pair_fst h
          exact ihic _ _ _ _ heq
        · rename_i v s1 heq
          split at h
          · exact Option.noConfusion h
          · rename_i err s2 heq2
            obtain rfl := some_pair_fst h
            exact ihic _ _ _ _ heq2
          · rename_i w s2 heq2
            obtain rfl := some_pair_fst h
            rfl
      | IFuncRound lic ric =>
        simp only [eval_instr] at h
        split at h
        · exact Option.noConfusion h
        · rename_i err s1 heq
          obtain rfl := some_pair_fst h
          exact ihic _ _ _ _ heq
        · rename_i v s1 heq
          split at h
          · exact Option.noConfusion h
          · rename_i err s2 heq2
            obtain rfl := some_pair_fst h
            exact ihic _ _ _ _ heq2
          · rename_i w s2 heq2
            obtain rfl := some_pair_fst h
            rfl
      | IMul li ric =>
        simp only [eval_instr] at h
        split at h
        · exact Option.noConfusion h
        · rename_i err s1 heq
          obtain rfl := some_pair_fst h
          exact ihi _ _ _ _ heq
        · rename_i v s1 heq
          split at h
          · exact Option.noConfusion h
          · rename_i err s2 heq2
            obtain rfl := some_pair_fst h
            exact ihic _ _ _ _ heq2
          · rename_i w s2 heq2
            obtain rfl := some_pair_fst h
            rfl
      | IAdd li ric =>
        simp only [eval_instr] at h
        split at h
        · exact Option.noConfusion h
        · rename_i err s1 heq
          obtain rfl := some_pair_fst h
          exact ihi _ _ _ _ heq
        · rename_i v s1 heq
          split at h
          · exact Option.noConfusion h
          · rename_i err s2 heq2
            obtain rfl := some_pair_fst h
            exact ihic _ _ _ _ heq2
          · rename_i w s2 heq2
            obtain rfl := some_pair_fst h
            rfl
      | IFuncMin li ric =>
        simp only [eval_instr] at h
        split at h
        · exact Option.noConfusion h
        · rename_i err s1 heq
          obtain rfl := some_pair_fst h
          exact ihi _ _ _ _ heq
        · rename_i left s1 heq
          split at h
          · exact Option.noConfusion h
          · rename_i err s2 heq2
            obtain rfl := some_pair_fst h
            exact ihic _ _ _ _ heq2
          · rename_i right s2 heq2
            split at h
            · obtain rfl := some_pair_fst h
              rfl
            · split at h
              · obtain rfl := some_pair_fst h
                rfl
              · obtain rfl := some_pair_fst h
                rfl
      | IFuncMax li ric =>
        simp only [eval_instr] at h
        split at h
        · exact Option.noConfusion h
        · rename_i err s1 heq
          obtain rfl := some_pair_fst h
          exact ihi _ _ _ _ heq
        · rename_i left s1 heq
          split at h
          · exact Option.noConfusion h
          · rename_i err s2 heq2
            obtain rfl := some_pair_fst h
            exact ihic _ _ _ _ heq2
          · rename_i right s2 heq2
            split at h
            · obtain rfl := some_pair_fst h
              rfl
            · split at h
              · obtain rfl := some_pair_fst h
                rfl
              · obtain rfl := some_pair_fst h
                rfl
      | IAND li ric =>
        simp only [eval_instr] at h
        split at h
        · exact Option.noConfusion h
        · rename_i err s1 heq
          obtain rfl := some_pair_fst h
          exact ihi _ _ _ _ heq
        · rename_i left s1 heq
          split at h
          · obtain rfl := some_pair_fst h
            rfl
          · exact ihic _ _ _ _ h
      | IOR li ric =>
        simp only [eval_instr] at h
        split at h
        · exact Option.noConfusion h
        · rename_i err s1 heq
          obtain rfl := some_pair_fst h
          exact ihi _ _ _ _ heq
        · rename_i left s1 heq
          split at h
          · obtain rfl := some_pair_fst h
            rfl
          · exact ihic _ _ _ _ h
      | IPrintFunc pf =>
        simp only [eval_instr] at h
        exact ihprn _ _ _ _ h
    · intro ic s res s' h
      cases ic with
      | C c =>
        simp only [eval_ic] at h
        obtain rfl := some_pair_fst h
        rfl
      | I i =>
        simp only [eval_ic] at h
        exact ihi _ _ _ _ h
    · intro ics acc s res s' h
      cases ics with
      | nil =>
        simp only [ifunc_args] at h
        obtain rfl := some_pair_fst h
        rfl
      | cons ic rest =>
        simp only [ifunc_args] at h
        split at h
        · exact Option.noConfusion h
        · rename_i err s1 heq
          obtain rfl := some_pair_fst h
          exact ihic _ _ _ _ heq
        · rename_i v s1 heq
          exact ihfa _ _ _ _ _ h

theorem some_error_inj {α : Type} {e1 e2 : Error}
    (h : (some (.error e1) : Option (Except Error α)) = some (.error e2)) :
    e1 = e2 :=
  Except.error.inj (Option.some.inj h)

theorem some_ok_ne_error {α : Type} {v : α} {e : Error} {C : Prop}
    (h : (some (.ok v) : Option (Except Error α)) = some (.error e)) : C :=
  Except.noConfusion (Option.some.inj h)

theorem push_expr_no_undef (ps : ParseSlab) (x : Expression) (e : Error)
    (h : push_expr ps x = .error e) : is_undefined e = false := by
  simp only [push_expr] at h
  split at h
  · obtain rfl := Except.error.inj h
    rfl
  · exact Except.noConfusion h

theorem push_val_no_undef (ps : ParseSlab) (v : Value) (e : Error)
    (h : push_val ps v = .error e) : is_undefined e = false := by
  simp only [push_val] at h
  split at h
  · obtain rfl := Except.error.inj h
    rfl
  · exact Except.noConfusion h

theorem read_const_no_undef (fx : Foreign) (bs0 : Bytes) (e : Error)
    (h : read_const fx bs0 = .error e) : is_undefined e = false := by
  rcases hcs : const_scan (spaces bs0) true true true false with ⟨tl, so, sv⟩
  simp only [read_const, hcs] at h
  cases sv with
  | false => simp at h
  | true =>
    simp only [Bool.not_true] at h
    rw [if_neg (by decide : ¬((false : Bool) = true))] at h
    split at h
    · exact Except.noConfusion h
    · obtain rfl := Except.error.inj h
      rfl

theorem read_string_no_undef (bs0 : Bytes) (e : Error)
    (h : read_string bs0 = .error e) : is_undefined e = false := by
  simp only [read_string] at h
  repeat' split at h
  all_goals try exact Except.noConfusion h
  all_goals (obtain rfl := Except.error.inj h; rfl)

/-- The separator/parenthesis selection steps of the parser only fail with
`Expected`. -/
theorem ite2_no_undef {α : Type} (c1 c2 : Prop) [Decidable c1] [Decidable c2]
    (x y : α) (msg : String) (e : Error)
    (h : (if c1 then Except.ok x else if c2 then Except.ok y
          else Except.error (.Expected msg)) = .error e) :
    is_undefined e = false := by
  split at h
  · exact Except.noConfusion h
  · split at h
    · exact Except.noConfusion h
    · obtain rfl := Except.error.inj h
      rfl

/-- The builtin-name resolution step of `read_func` only fails with
`WrongArgs`. -/
theorem resolve_builtin_no_undef (fname : String) (args : List ExpressionI)
    (e : Error)
    (h : (if fname = "int" then
            match args with
            | [xi] => (.ok (.EFuncInt xi) : Except Error StdFunc)
            | _ => .error (.WrongArgs "int: expected one arg")
          else if fname = "ceil" then
            match args with
            | [xi] => .ok (.EFuncCeil xi)
            | _ => .error (.WrongArgs "ceil: expected one arg")
          else if fname = "floor" then
            match args with
            | [xi] => .ok (.EFuncFloor xi)
            | _ => .error (.WrongArgs "floor: expected one arg")
          else if fname = "abs" then
            match args with
            | [xi] => .ok (.EFuncAbs xi)
            | _ => .error (.WrongArgs "abs: expected one arg")
          else if fname = "sign" then
            match args with
            | [xi] => .ok (.EFuncSign xi)
            | _ => .error (.WrongArgs "sign: expected one arg")
          else if fname = "log" then
            match args with
            | [xi] => .ok (.EFuncLog none xi)
            | [bi, xi] => .ok (.EFuncLog (some bi) xi)
            | _ => .error (.WrongArgs "expected log(x) or log(base,x)")
          else if fname = "round" then
            match args with
            | [xi] => .ok (.EFuncRound none xi)
            | [mi, xi] => .ok (.EFuncRound (some mi) xi)
            | _ => .error (.WrongArgs "round: expected round(x) or round(modulus,x)")
          else if fname = "min" then
            match args with
            | [] => .error (.WrongArgs "min: expected one or more args")
            | first :: rest => .ok (.EFuncMin first rest)
          else if fname = "max" then
            match args with
            | [] => .error (.WrongArgs "max: expected one or more args")
            | first :: rest => .ok (.EFuncMax first rest)
          else if fname = "e" then
            match args with
            | [] => .ok .EFuncE
            | _ => .error (.WrongArgs "e: expected no args")
          else if fname = "pi" then
            match args with
            | [] => .ok .EFuncPi
            | _ => .error (.WrongArgs "pi: expected no args")
          else if fname = "sin" then
            match args with
            | [xi] => .ok (.EFuncSin xi)
            | _ => .error (.WrongArgs "sin: expected one arg")
          else if fname = "cos" then
            match args with
            | [xi] => .ok (.EFuncCos xi)
            | _ => .error (.WrongArgs "cos: expected one arg")
          else if fname = "tan" then
            match args with
            | [xi] => .ok (.EFuncTan xi)
            | _ => .error (.WrongArgs "tan: expected one arg")
          else if fname = "asin" then
            match args with
            | [xi] => .ok (.EFuncASin xi)
            | _ => .error (.WrongArgs "asin: expected one arg")
          else if fname = "acos" then
            match args with
            | [xi] => .ok (.EFuncACos xi)
            | _ => .error (.WrongArgs "acos: expected one arg")
          else if fname = "atan" then
            match args with
            | [xi] => .ok (.EFuncATan xi)
            | _ => .error (.WrongArgs "atan: expected one arg")
          else if fname = "sinh" then
            match args with
            | [xi] => .ok (.EFuncSinH xi)
            | _ => .error (.WrongArgs "sinh: expected one arg")
          else if fname = "cosh" then
            match args with
            | [xi] => .ok (.EFuncCosH xi)
            | _ => .error (.WrongArgs "cosh: expected one arg")
          else if fname = "tanh" then
            match args with
            | [xi] => .ok (.EFuncTanH xi)
            | _ => .error (.WrongArgs "tanh: expected one arg")
          else if fname = "asinh" then
            match args with
            | [xi] => .ok (.EFuncASinH xi)
            | _ => .error (.WrongArgs "asinh: expected one arg")
          else if fname = "acosh" then
            match args with
            | [xi] => .ok (.EFuncACosH xi)
            | _ => .error (.WrongArgs "acosh: expected one arg")
          else if fname = "atanh" then
            match args with
            | [xi] => .ok (.EFuncATanH xi)
            | _ => .error (.WrongArgs "atanh: expected one arg")
          else .ok (.EFunc fname args)) = .error e) :
    is_undefined e = false := by
  by_cases hc0 : fname = "int"
  · rw [if_pos hc0] at h
    split at h
    · exact Except.noConfusion h
    · obtain rfl := Except.error.inj h
      rfl
  · rw [if_neg hc0] at h
    by_cases hc1 : fname = "ceil"
    · rw [if_pos hc1] at h
      split at h
      · exact Except.noConfusion h
      · obtain rfl := Except.error.inj h
        rfl
    · rw [if_neg hc1] at h
      by_cases hc2 : fname = "floor"
      · rw [if_pos hc2] at h
        split at h
        · exact Except.noConfusion h
        · obtain rfl := Except.error.inj h
          rfl
      · rw [if_neg hc2] at h
        by_cases hc3 : fname = "abs"
        · rw [if_pos hc3] at h
          split at h
          · exact Except.noConfusion h
          · obtain rfl := Except.error.inj h
            rfl
        · rw [if_neg hc3] at h
          by_cases hc4 : fname = "sign"
          · rw [if_pos hc4] at h
            split at h
            · exact Except.noConfusion h
            · obtain rfl := Except.error.inj h
              rfl
          · rw [if_neg hc4] at h
            by_cases hc5 : fname = "log"
            · rw [if_pos hc5] at h
              split at h
              · exact Except.noConfusion h
              · exact Except.noConfusion h
              · obtain rfl := Except.error.inj h
                rfl
            · rw [if_neg hc5] at h
              by_cases hc6 : fname = "round"
              · rw [if_pos hc6] at h
                split at h
                · exact Except.noConfusion h
                · exact Except.noConfusion h
                · obtain rfl := Except.error.inj h
                  rfl
              · rw [if_neg hc6] at h
                by_cases hc7 : fname = "min"
                · rw [if_pos hc7] at h
                  split at h
                  · obtain rfl := Except.error.inj h
                    rfl
                  · exact Except.noConfusion h
                · rw [if_neg hc7] at h
                  by_cases hc8 : fname = "max"
                  · rw [if_pos hc8] at h
                    split at h
                    · obtain rfl := Except.error.inj h
                      rfl
                    · exact Except.noConfusion h
                  · rw [if_neg hc8] at h
                    by_cases hc9 : fname = "e"
                    · rw [if_pos hc9] at h
                      split at h
                      · exact Except.noConfusion h
                      · obtain rfl := Except.error.inj h
                        rfl
                    · rw [if_neg hc9] at h
                      by_cases hc10 : fname = "pi"
                      · rw [if_pos hc10] at h
                        split at h
                        · exact Except.noConfusion h
                        · obtain rfl := Except.error.inj h
                          rfl
                      · rw [if_neg hc10] at h
                        by_cases hc11 : fname = "sin"
                        · rw [if_pos hc11] at h
                          split at h
                          · exact Except.noConfusion h
                          · obtain rfl := Except.error.inj h
                            rfl
                        · rw [if_neg hc11] at h
                          by_cases hc12 : fname = "cos"
                          · rw [if_pos hc12] at h
                            split at h
                            · exact Except.noConfusion h
                            · obtain rfl := Except.error.inj h
                              rfl
                          · rw [if_neg hc12] at h
                            by_cases hc13 : fname = "tan"
                            · rw [if_pos hc13] at h
                              split at h
                              · exact Except.noConfusion h
                              · obtain rfl := Except.error.inj h
                                rfl
                            · rw [if_neg hc13] at h
                              by_cases hc14 : fname = "asin"
                              · rw [if_pos hc14] at h
                                split at h
                                · exact Except.noConfusion h
                                · obtain rfl := Except.error.inj h
                                  rfl
                              · rw [if_neg hc14] at h
                                by_cases hc15 : fname = "acos"
                                · rw [if_pos hc15] at h
                                  split at h
                                  · exact Except.noConfusion h
                                  · obtain rfl := Except.error.inj h
                                    rfl
                                · rw [if_neg hc15] at h
                                  by_cases hc16 : fname = "atan"
                                  · rw [if_pos hc16] at h
                                    split at h
                                    · exact Except.noConfusion h
                                    · obtain rfl := Except.error.inj h
                                      rfl
                                  · rw [if_neg hc16] at h
                                    by_cases hc17 : fname = "sinh"
                                    · rw [if_pos hc17] at h
                                      split at h
                                      · exact Except.noConfusion h
                                      · obtain rfl := Except.error.inj h
                                        rfl
                                    · rw [if_neg hc17] at h
                                      by_cases hc18 : fname = "cosh"
                                      · rw [if_pos hc18] at h
                                        split at h
                                        · exact Except.noConfusion h
                                        · obtain rfl := Except.error.inj h
                                          rfl
                                      · rw [if_neg hc18] at h
                                        by_cases hc19 : fname = "tanh"
                                        · rw [if_pos hc19] at h
                                          split at h
                                          · exact Except.noConfusion h
                                          · obtain rfl := Except.error.inj h
                                            rfl
                                        · rw [if_neg hc19] at h
                                          by_cases hc20 : fname = "asinh"
                                          · rw [if_pos hc20] at h
                                            split at h
                                            · exact Except.noConfusion h
                                            · obtain rfl := Except.error.inj h
                                              rfl
                                          · rw [if_neg hc20] at h
                                            by_cases hc21 : fname = "acosh"
                                            · rw [if_pos hc21] at h
                                              split at h
                                              · exact Except.noConfusion h
                                              · obtain rfl := Except.error.inj h
                                                rfl
                                            · rw [if_neg hc21] at h
                                              by_cases hc22 : fname = "atanh"
                                              · rw [if_pos hc22] at h
                                                split at h
                                                · exact Except.noConfusion h
                                                · obtain rfl := Except.error.inj h
                                                  rfl
                                              · rw [if_neg hc22] at h
                                                exact Except.noConfusion h

/-- The parser never produces an `Undefined` error: mutual fuel induction
over the whole parser block. -/
theorem parse_no_undef_main (p : Parser) (fx : Foreign) : ∀ fuel : Nat,
    (∀ ps bs depth xeof e,
      read_expression p fx fuel ps bs depth xeof = some (.error e) →
      is_undefined e = false) ∧
    (∀ ps bs depth acc e,
      expr_pairs_loop p fx fuel ps bs depth acc = some (.error e) →
      is_undefined e = false) ∧
    (∀ ps bs depth e, read_value p fx fuel ps bs depth = some (.error e) →
      is_undefined e = false) ∧
    (∀ ps bs depth e, read_unaryop p fx fuel ps bs depth = some (.error e) →
      is_undefined e = false) ∧
    (∀ ps bs depth e, read_callable p fx fuel ps bs depth = some (.error e) →
      is_undefined e = false) ∧
    (∀ fname cp ps bs depth args e,
      func_args_loop p fx fname cp fuel ps bs depth args = some (.error e) →
      is_undefined e = false) ∧
    (∀ fname ps bs depth op e,
      read_func p fx fuel fname ps bs depth op = some (.error e) →
      is_undefined e = false) ∧
    (∀ cp ps bs depth args e,
      print_args_loop p fx cp fuel ps bs depth args = some (.error e) →
      is_undefined e = false) ∧
    (∀ ps bs depth op e,
      read_printfunc p fx fuel ps bs depth op = some (.error e) →
      is_undefined e = false) ∧
    (∀ ps bs depth e,
      read_expressionorstring p fx fuel ps bs depth = some (.error e) →
      is_undefined e = false) := by
  intro fuel
  induction fuel with
  | zero =>
    exact ⟨fun _ _ _ _ _ h => Option.noConfusion h,
      fun _ _ _ _ _ h => Option.noConfusion h,
      fun _ _ _ _ h => Option.noConfusion h,
      fun _ _ _ _ h => Option.noConfusion h,
      fun _ _ _ _ h => Option.noConfusion h,
      fun _ _ _ _ _ _ _ h => Option.noConfusion h,
      fun _ _ _ _ _ _ h => Option.noConfusion h,
      fun _ _ _ _ _ _ h => Option.noConfusion h,
      fun _ _ _ _ _ h => Option.noConfusion h,
      fun _ _ _ _ h => Option.noConfusion h⟩
  | succ fuel ih =>
    obtain ⟨ihre, ihepl, ihrv, ihru, ihrc, ihfal, ihrf, ihpal, ihrpf, ihreos⟩ := ih
    refine ⟨?_, ?_, ?_, ?_, ?_, ?_, ?_, ?_, ?_, ?_⟩
    · intro ps bs depth xeof e h
      simp only [read_expression] at h
      split at h
      · obtain rfl := some_error_inj h
        rfl
      · split at h
        · exact Option.noConfusion h
        · obtain rfl := some_error_inj h
          exact ihrv _ _ _ _ (by assumption)
        · split at h
          · exact Option.noConfusion h
          · obtain rfl := some_error_inj h
            exact ihepl _ _ _ _ _ (by assumption)
          · split at h
            · obtain rfl := some_error_inj h
              rfl
            · split at h
              · obtain rfl := some_error_inj h
                exact push_expr_no_undef _ _ _ (by assumption)
              · exact some_ok_ne_error h
    · intro ps bs depth acc e h
      simp only [expr_pairs_loop] at h
      split at h
      · exact some_ok_ne_error h
      · split at h
        · exact Option.noConfusion h
        · obtain rfl := some_error_inj h
          exact ihrv _ _ _ _ (by assumption)
        · exact ihepl _ _ _ _ _ h
    · intro ps bs depth e h
      simp only [read_value] at h
      split at h
      · obtain rfl := some_error_inj h
        rfl
      · split at h
        · obtain rfl := some_error_inj h
          exact read_const_no_undef _ _ _ (by assumption)
        · exact some_ok_ne_error h
        · split at h
          · exact Option.noConfusion h
          · obtain rfl := some_error_inj h
            exact ihru _ _ _ _ (by assumption)
          · exact some_ok_ne_error h
          · split at h
            · exact Option.noConfusion h
            · obtain rfl := some_error_inj h
              exact ihrc _ _ _ _ (by assumption)
            · exact some_ok_ne_error h
            · split at h
              · obtain rfl := some_error_inj h
                rfl
              · obtain rfl := some_error_inj h
                rfl
    · intro ps bs depth e h
      simp only [read_unaryop] at h
      split at h
      · exact some_ok_ne_error h
      · split at h
        · split at h
          · exact Option.noConfusion h
          · obtain rfl := some_error_inj h
            exact ihrv _ _ _ _ (by assumption)
          · split at h
            · obtain rfl := some_error_inj h
              exact push_val_no_undef _ _ _ (by assumption)
            · exact some_ok_ne_error h
        · split at h
          · split at h
            · exact Option.noConfusion h
            · obtain rfl := some_error_inj h
              exact ihrv _ _ _ _ (by assumption)
            · split at h
              · obtain rfl := some_error_inj h
                exact push_val_no_undef _ _ _ (by assumption)
              · exact some_ok_ne_error h
          · split at h
            · split at h
              · exact Option.noConfusion h
              · obtain rfl := some_error_inj h
                exact ihre _ _ _ _ _ (by assumption)
              · split at h
                · obtain rfl := some_error_inj h
                  rfl
                · split at h
                  · obtain rfl := some_error_inj h
                    rfl
                  · exact some_ok_ne_error h
            · split at h
              · split at h
                · exact Option.noConfusion h
                · obtain rfl := some_error_inj h
                  exact ihre _ _ _ _ _ (by assumption)
                · split at h
                  · obtain rfl := some_error_inj h
                    rfl
                  · split at h
                    · obtain rfl := some_error_inj h
                      rfl
                    · exact some_ok_ne_error h
              · split at h
                · split at h
                  · exact Option.noConfusion h
                  · obtain rfl := some_error_inj h
                    exact ihrv _ _ _ _ (by assumption)
                  · split at h
                    · obtain rfl := some_error_inj h
                      exact push_val_no_undef _ _ _ (by assumption)
                    · exact some_ok_ne_error h
                · exact some_ok_ne_error h
    · intro ps bs depth e h
      simp only [read_callable] at h
      split at h
      · exact some_ok_ne_error h
      · split at h
        · exact some_ok_ne_error h
        · split at h
          · split at h
            · exact Option.noConfusion h
            · obtain rfl := some_error_inj h
              exact ihrpf _ _ _ _ _ (by assumption)
            · exact some_ok_ne_error h
          · split at h
            · exact Option.noConfusion h
            · obtain rfl := some_error_inj h
              exact ihrf _ _ _ _ _ _ (by assumption)
            · exact some_ok_ne_error h
    · intro fname cp ps bs depth args e h
      simp only [func_args_loop] at h
      split at h
      · obtain rfl := some_error_inj h
        rfl
      · split at h
        · exact some_ok_ne_error h
        · split at h
          · obtain rfl := some_error_inj h
            exact ite2_no_undef _ _ _ _ _ _ (by assumption)
          · split at h
            · exact Option.noConfusion h
            · obtain rfl := some_error_inj h
              exact ihre _ _ _ _ _ (by assumption)
            · exact ihfal _ _ _ _ _ _ _ h
    · intro fname ps bs depth op e h
      simp only [read_func] at h
      split at h
      · obtain rfl := some_error_inj h
        exact ite2_no_undef _ _ _ _ _ _ (by assumption)
      · split at h
        · exact Option.noConfusion h
        · obtain rfl := some_error_inj h
          exact ihfal _ _ _ _ _ _ _ (by assumption)
        · split at h
          · rename_i e1 heq
            obtain rfl := some_error_inj h
            exact resolve_builtin_no_undef _ _ _ heq
          · exact some_ok_ne_error h
    · intro cp ps bs depth args e h
      simp only [print_args_loop] at h
      split at h
      · obtain rfl := some_error_inj h
        rfl
      · split at h
        · exact some_ok_ne_error h
        · split at h
          · obtain rfl := some_error_inj h
            exact ite2_no_undef _ _ _ _ _ _ (by assumption)
          · split at h
            · exact Option.noConfusion h
            · obtain rfl := some_error_inj h
              exact ihreos _ _ _ _ (by assumption)
            · exact ihpal _ _ _ _ _ _ h
    · intro ps bs depth op e h
      simp only [read_printfunc] at h
      split at h
      · obtain rfl := some_error_inj h
        exact ite2_no_undef _ _ _ _ _ _ (by assumption)
      · split at h
        · exact Option.noConfusion h
        · obtain rfl := some_error_inj h
          exact ihpal _ _ _ _ _ _ (by assumption)
        · exact some_ok_ne_error h
    · intro ps bs depth e h
      simp only [read_expressionorstring] at h
      split at h
      · obtain rfl := some_error_inj h
        exact read_string_no_undef _ _ (by assumption)
      · exact some_ok_ne_error h
      · split at h
        · exact Option.noConfusion h
        · obtain rfl := some_error_inj h
          exact ihre _ _ _ _ _ (by assumption)
        · exact some_ok_ne_error h

/-- Top-level `parse` never returns an `Undefined` error. -/
theorem parse_no_undef (p : Parser) (fx : Foreign) (fuel : Nat) (bs : Bytes)
    (e : Error) (h : p.parse fx fuel bs = some (.error e)) :
    is_undefined e = false := by
  simp only [Parser.parse, parse_noclear] at h
  split at h
  · obtain rfl := some_error_inj h
    rfl
  · split at h
    · exact Option.noConfusion h
    · obtain rfl := some_error_inj h
      exact (parse_no_undef_main p fx fuel).1 _ _ _ _ _ (by assumption)
    · exact some_ok_ne_error h

/-- A `None` lookup on a variable expression surfaces at the top of
interpreter-mode evaluation as `Undefined(name)`. -/
theorem eval_var_expr_surfaces {σ : Type} (fx : Foreign) (ps : ParseSlab)
    (ns : Ns σ) (name : String) (s s' : σ) (hns : ns s name [] = (none, s'))
    (fuel : Nat) :
    eval_expr_ast fx ps ns (fuel + 3) ⟨.EStdFunc (.EVar name), []⟩ s =
      some (.error (.Undefined name), s') := by
  have hv : eval_var ns s name [] = (.error (.Undefined name), s') := by
    simp [eval_var, hns]
  have hsf : eval_stdfunc fx ps ns (fuel + 1) (.EVar name) s =
      some (.error (.Undefined name), s') := by
    simp only [eval_stdfunc, hv]
  have hval : eval_value fx ps ns (fuel + 2) (.EStdFunc (.EVar name)) s =
      some (.error (.Undefined name), s') := by
    show eval_value fx ps ns ((fuel + 1) + 1) (.EStdFunc (.EVar name)) s = _
    simp only [eval_value]
    exact hsf
  show eval_expr_ast fx ps ns ((fuel + 2) + 1) ⟨.EStdFunc (.EVar name), []⟩ s = _
  simp only [eval_expr_ast, hval]

/-- A `None` lookup on an `IVar` instruction surfaces in compiled-mode
evaluation as `Undefined(name)`. -/
theorem eval_var_instr_surfaces {σ : Type} (fx : Foreign) (ps : ParseSlab)
    (cs : CompileSlab) (ns : Ns σ) (name : String) (s s' : σ)
    (hns : ns s name [] = (none, s')) (fuel : Nat) :
    eval_instr fx ps cs ns (fuel + 1) (.IVar name) s =
      some (.error (.Undefined name), s') := by
  have hv : eval_var ns s name [] = (.error (.Undefined name), s') := by
    simp [eval_var, hns]
  simp only [eval_instr, hv]

/-- C9: `Undefined` errors coincide with `None` namespace lookups.
`eval_var` — the one production site — returns `Undefined(m)` iff the lookup
of that very name returned `None` (and `m` is that name); such a `None`
lookup surfaces at the top level of both interpreter- and compiled-mode
evaluation; a namespace whose lookups never return `None` never yields an
`Undefined` result in either mode (so no other error is translated into it);
and the parser never produces `Undefined` at all.  The compiler is total by
construction (its result type carries no error), so it produces no
`Undefined` either. -/
theorem C9_undefined_iff_none_lookup {σ : Type} (fx : Foreign) (ps : ParseSlab)
    (cs : CompileSlab) (ns : Ns σ) :
    (∀ s name args m s',
      eval_var ns s name args = (.error (.Undefined m), s') ↔
        (m = name ∧ ns s name args = (none, s'))) ∧
    (∀ s s' name fuel, ns s name [] = (none, s') →
      eval_expr_ast fx ps ns (fuel + 3) ⟨.EStdFunc (.EVar name), []⟩ s =
          some (.error (.Undefined name), s') ∧
      eval_instr fx ps cs ns (fuel + 1) (.IVar name) s =
          some (.error (.Undefined name), s')) ∧
    ((∀ s name args, ((ns s name args).1).isSome = true) →
      (∀ fuel e s res s', eval_expr_ast fx ps ns fuel e s = some (res, s') →
        res_undef res = false) ∧
      (∀ fuel instr s res s', eval_instr fx ps cs ns fuel instr s = some (res, s') →
        res_undef res = false)) ∧
    (∀ (pr : Parser) fuel bs e, pr.parse fx fuel bs = some (.error e) →
      is_undefined e = false) := by
  refine ⟨?_, ?_, ?_, ?_⟩
  · intro s name args m s'
    constructor
    · intro h
      rcases eval_var_cases ns s name args with ⟨f, s2, hns, he⟩ | ⟨s2, hns, he⟩
      · rw [he] at h
        exact Except.noConfusion (congrArg Prod.fst h)
      · rw [he] at h
        injection h with h1 h2
        subst h2
        exact ⟨(Error.Undefined.inj (Except.error.inj h1)).symm, hns⟩
    · rintro ⟨rfl, hns⟩
      simp [eval_var, hns]
  · intro s s' name fuel hns
    exact ⟨eval_var_expr_surfaces fx ps ns name s s' hns fuel,
           eval_var_instr_surfaces fx ps cs ns name s s' hns fuel⟩
  · intro htotal
    exact ⟨fun fuel e s res s' h =>
        (eval_no_undef fx ps cs ns htotal fuel).1 e s res s' h,
      fun fuel instr s res s' h =>
        (eval_no_undef fx ps cs ns htotal fuel).2.2.2.2.2.2.2.2.2.2.1 instr s res s' h⟩
  · intro pr fuel bs e h
    exact parse_no_undef pr fx fuel bs e h

/-- Witness for C9: with the empty namespace (every lookup `None`), both
modes surface `Undefined "q"` when evaluating the variable `q`. -/
theorem C9_undefined_iff_none_lookup_witness :
    empty_ns () "q" [] = (none, ()) ∧
    eval_expr_ast fx0 ParseSlab.empty empty_ns 3 ⟨.EStdFunc (.EVar "q"), []⟩ () =
      some (.error (.Undefined "q"), ()) ∧
    eval_instr fx0 ParseSlab.empty [] empty_ns 1 (.IVar "q") () =
      some (.error (.Undefined "q"), ()) :=
  ⟨rfl,
   ((C9_undefined_iff_none_lookup fx0 ParseSlab.empty [] empty_ns).2.1
      () () "q" 0 rfl).1,
   ((C9_undefined_iff_none_lookup fx0 ParseSlab.empty [] empty_ns).2.1
      () () "q" 0 rfl).2⟩
